import Mathlib

/-!
PhoneDetector: a shallow embedding of `src/PhoneDetector.cpp`.

Bytes of a `std::string` are natural numbers `0..255` (the value of the byte
read as `unsigned char`).  Every ordered comparison of the source
(`digits[3] < '2'`, `candidate[0] >= '6'`, ...) is made on a byte that is a
digit, so comparing the unsigned values agrees with comparing `char`s.
Strings are lists of bytes; `s[i]` is `s.getD i 0`.

Loops are structural recursions on a fuel argument.  The callers pass a
fuel that the loop cannot exhaust: the candidate loops run while
`candidate.length() < MAX_PHONE_LENGTH` and lengthen the candidate by one
byte each round, and the outer `for` loops advance the cursor each round.
The theorems `scanInternationalWhile_fuel` ... `scanPlainDigits_fuel` show
that any larger fuel gives the same result.
-/

namespace PhoneDetector

/-! ## Data model (lines 22-44) -/

/-- The enumeration `PhoneType` (lines 22-32). -/
inductive PhoneType where
  | FORMATTED_DOMESTIC
  | FORMATTED_TOLL_FREE
  | INTERNATIONAL_PLUS
  | INTERNATIONAL_00
  | PLAIN_10_DIGIT
  | PLAIN_11_DIGIT
  | MOBILE_10_DIGIT
  | UNKNOWN
deriving DecidableEq, Repr

/-- The record `PhoneMatch` (lines 34-44). -/
structure PhoneMatch where
  type : PhoneType
  value : List Nat
  normalized : List Nat
  position : Nat
deriving DecidableEq, Repr

/-- The bytes of an ASCII string literal, used to write inputs readably. -/
def bytes (s : String) : List Nat := s.toList.map Char.toNat

/-! ## Character classifier (lines 58-88) -/

def CHAR_DIGIT : Nat := 0x01
def CHAR_SEPARATOR : Nat := 0x02
def CHAR_PLUS : Nat := 0x04

/-- The 256-entry table `CharacterClassifier::charTable` (lines 65-81). -/
def charTable : List Nat := [
  0x00, 0x00, 0x00, 0x00, 0x00, 0x00, 0x00, 0x00, 0x00, 0x02, 0x00, 0x00, 0x00, 0x00, 0x00, 0x00,
  0x00, 0x00, 0x00, 0x00, 0x00, 0x00, 0x00, 0x00, 0x00, 0x00, 0x00, 0x00, 0x00, 0x00, 0x00, 0x00,
  0x02, 0x00, 0x00, 0x00, 0x00, 0x00, 0x00, 0x00, 0x02, 0x02, 0x00, 0x04, 0x00, 0x02, 0x02, 0x00,
  0x01, 0x01, 0x01, 0x01, 0x01, 0x01, 0x01, 0x01, 0x01, 0x01, 0x00, 0x00, 0x00, 0x00, 0x00, 0x00,
  0x00, 0x00, 0x00, 0x00, 0x00, 0x00, 0x00, 0x00, 0x00, 0x00, 0x00, 0x00, 0x00, 0x00, 0x00, 0x00,
  0x00, 0x00, 0x00, 0x00, 0x00, 0x00, 0x00, 0x00, 0x00, 0x00, 0x00, 0x00, 0x00, 0x00, 0x00, 0x00,
  0x00, 0x00, 0x00, 0x00, 0x00, 0x00, 0x00, 0x00, 0x00, 0x00, 0x00, 0x00, 0x00, 0x00, 0x00, 0x00,
  0x00, 0x00, 0x00, 0x00, 0x00, 0x00, 0x00, 0x00, 0x00, 0x00, 0x00, 0x00, 0x00, 0x00, 0x00, 0x00,
  0x00, 0x00, 0x00, 0x00, 0x00, 0x00, 0x00, 0x00, 0x00, 0x00, 0x00, 0x00, 0x00, 0x00, 0x00, 0x00,
  0x00, 0x00, 0x00, 0x00, 0x00, 0x00, 0x00, 0x00, 0x00, 0x00, 0x00, 0x00, 0x00, 0x00, 0x00, 0x00,
  0x00, 0x00, 0x00, 0x00, 0x00, 0x00, 0x00, 0x00, 0x00, 0x00, 0x00, 0x00, 0x00, 0x00, 0x00, 0x00,
  0x00, 0x00, 0x00, 0x00, 0x00, 0x00, 0x00, 0x00, 0x00, 0x00, 0x00, 0x00, 0x00, 0x00, 0x00, 0x00,
  0x00, 0x00, 0x00, 0x00, 0x00, 0x00, 0x00, 0x00, 0x00, 0x00, 0x00, 0x00, 0x00, 0x00, 0x00, 0x00,
  0x00, 0x00, 0x00, 0x00, 0x00, 0x00, 0x00, 0x00, 0x00, 0x00, 0x00, 0x00, 0x00, 0x00, 0x00, 0x00,
  0x00, 0x00, 0x00, 0x00, 0x00, 0x00, 0x00, 0x00, 0x00, 0x00, 0x00, 0x00, 0x00, 0x00, 0x00, 0x00,
  0x00, 0x00, 0x00, 0x00, 0x00, 0x00, 0x00, 0x00, 0x00, 0x00, 0x00, 0x00, 0x00, 0x00, 0x00, 0x00]

/-- `CharacterClassifier::isDigit` (line 84). -/
def isDigit (c : Nat) : Bool := (charTable.getD c 0 &&& CHAR_DIGIT) != 0

/-- `CharacterClassifier::isSeparator` (line 85). -/
def isSeparator (c : Nat) : Bool := (charTable.getD c 0 &&& CHAR_SEPARATOR) != 0

/-- `CharacterClassifier::isPlus` (line 86). -/
def isPlus (c : Nat) : Bool := (charTable.getD c 0 &&& CHAR_PLUS) != 0

/-- `CharacterClassifier::isPhoneChar` (line 87). -/
def isPhoneChar (c : Nat) : Bool := charTable.getD c 0 != 0

/-! ## Digit extractor (lines 96-106) -/

/-- The `for (char c : str)` loop of `extractDigits`, with `digits` as the
accumulator. -/
def extractDigitsLoop : List Nat → List Nat → List Nat
  | [], digits => digits
  | c :: rest, digits =>
    if isDigit c then extractDigitsLoop rest (digits ++ [c])
    else extractDigitsLoop rest digits

/-- `extractDigits` (lines 96-106). -/
def extractDigits (str : List Nat) : List Nat := extractDigitsLoop str []

/-! ## Validators (lines 112-193) -/

/-- `FormattedDomesticValidator::isValid` (lines 115-125). -/
def FormattedDomesticValidator.isValid (phone : List Nat) : Bool :=
  let digits := extractDigits phone
  if digits.length != 10 then false
  else if digits.getD 0 0 == 48 then false
  else if digits.getD 3 0 < 50 then false
  else true

/-- `InternationalPlusValidator::isValid` (lines 132-140). -/
def InternationalPlusValidator.isValid (phone : List Nat) : Bool :=
  if phone.isEmpty || phone.getD 0 0 != 43 then false
  else
    let digits := extractDigits phone
    if digits.length < 7 || digits.length > 15 then false
    else true

/-- `PlainDigitValidator::isValid` (lines 153-176), for the validator
constructed with `expectedLength`. -/
def PlainDigitValidator.isValid (expectedLength : Nat) (phone : List Nat) : Bool :=
  if phone.length != expectedLength then false
  else if !(phone.all isDigit) then false
  else if expectedLength == 10 then
    if phone.getD 0 0 == 48 then false
    else if phone.getD 3 0 < 50 then false
    else true
  else if expectedLength == 11 then
    if phone.getD 0 0 != 49 then false
    else if phone.getD 1 0 == 48 then false
    else true
  else true

/-- `MobileDigitValidator::isValid` (lines 183-191). -/
def MobileDigitValidator.isValid (phone : List Nat) : Bool :=
  let digits := extractDigits phone
  if digits.length == 10 then
    digits.getD 0 0 >= 49 && digits.getD 0 0 <= 57
  else if digits.length == 12 then
    digits.getD 0 0 == 57 && digits.getD 1 0 == 49 && digits.getD 2 0 >= 49 && digits.getD 2 0 <= 57
  else false

/-! ## Scanner constants (lines 202-205) -/

def MAX_INPUT_SIZE : Nat := 10 * 1024 * 1024
def MAX_PHONE_LENGTH : Nat := 30
def MIN_DIGITS : Nat := 7
def MAX_DIGITS : Nat := 15

/-! ## Pass A: `scanInternational` (lines 207-250) -/

/-- The `while` loop of lines 218-239 on the state `(i, candidate, digitCount)`;
the result is the state on leaving the loop. -/
def scanInternationalWhile (data : List Nat) (len : Nat) :
    Nat → Nat → List Nat → Nat → Nat × List Nat × Nat
  | 0, i, candidate, digitCount => (i, candidate, digitCount)
  | fuel + 1, i, candidate, digitCount =>
    if i < len && candidate.length < MAX_PHONE_LENGTH then
      if isDigit (data.getD i 0) then
        scanInternationalWhile data len fuel (i + 1) (candidate ++ [data.getD i 0]) (digitCount + 1)
      else if (isSeparator (data.getD i 0) || data.getD i 0 == 40) && digitCount > 0 &&
          i + 1 < len && (isDigit (data.getD (i + 1) 0) || data.getD (i + 1) 0 == 40) then
        scanInternationalWhile data len fuel (i + 1) (candidate ++ [data.getD i 0]) digitCount
      else if data.getD i 0 == 41 && digitCount > 0 then
        scanInternationalWhile data len fuel (i + 1) (candidate ++ [data.getD i 0]) digitCount
      else (i, candidate, digitCount)
    else (i, candidate, digitCount)

/-- The `for` loop of lines 209-249: `i` is the cursor at the loop test and
`m` the vector of matches.  `continue` and the end of the body both run
`++i`. -/
def scanInternationalLoop (data : List Nat) (len : Nat) :
    Nat → Nat → List PhoneMatch → List PhoneMatch
  | 0, _, m => m
  | fuel + 1, i, m =>
    if i < len then
      if data.getD i 0 == 43 && i + 1 < len && isDigit (data.getD (i + 1) 0) then
        let start := i
        let st := scanInternationalWhile data len MAX_PHONE_LENGTH (i + 1) [43] 0
        let candidate := st.2.1
        let digits := extractDigits candidate
        if digits.length >= MIN_DIGITS && digits.length <= MAX_DIGITS then
          scanInternationalLoop data len fuel (st.1 + 1)
            (m ++ [⟨PhoneType.INTERNATIONAL_PLUS, candidate, digits, start⟩])
        else scanInternationalLoop data len fuel (start + 1) m
      else scanInternationalLoop data len fuel (i + 1) m
    else m

/-- `scanInternational` (lines 207-250): the loop started at `i = 0`. -/
def scanInternational (data : List Nat) (len : Nat) (m : List PhoneMatch) : List PhoneMatch :=
  scanInternationalLoop data len len 0 m

/-! ## Pass B: `scanFormattedNumbers` (lines 252-358) -/

/-- The `while` loop of lines 270-285 on the state `(end, candidate, digitCount)`. -/
def parenWhile (data : List Nat) (len : Nat) :
    Nat → Nat → List Nat → Nat → Nat × List Nat × Nat
  | 0, e, candidate, digitCount => (e, candidate, digitCount)
  | fuel + 1, e, candidate, digitCount =>
    if e < len && digitCount < 7 && candidate.length < MAX_PHONE_LENGTH then
      if isDigit (data.getD e 0) then
        parenWhile data len fuel (e + 1) (candidate ++ [data.getD e 0]) (digitCount + 1)
      else if isSeparator (data.getD e 0) && digitCount > 0 && digitCount < 7 then
        parenWhile data len fuel (e + 1) (candidate ++ [data.getD e 0]) digitCount
      else (e, candidate, digitCount)
    else (e, candidate, digitCount)

/-- The parenthesized block of lines 256-298 at cursor `i`: `some (match, end)`
when line 292 emits (the cursor is then set to `end - 1`), `none` when control
falls through to line 300. -/
def parenCandidate (data : List Nat) (len : Nat) (i : Nat) : Option (PhoneMatch × Nat) :=
  if data.getD i 0 == 40 && i + 14 <= len then
    if isDigit (data.getD (i + 1) 0) && isDigit (data.getD (i + 2) 0) &&
        isDigit (data.getD (i + 3) 0) && data.getD (i + 4) 0 == 41 &&
        (data.getD (i + 5) 0 == 32 || data.getD (i + 5) 0 == 45) then
      let st := parenWhile data len MAX_PHONE_LENGTH (i + 6)
        ([40] ++ [data.getD (i + 1) 0] ++ [data.getD (i + 2) 0] ++ [data.getD (i + 3) 0] ++ [41, 32]) 0
      let e := st.1
      let candidate := st.2.1
      let digitCount := st.2.2
      if digitCount == 7 then
        let digits := extractDigits candidate
        if digits.length == 10 && digits.getD 0 0 != 48 && digits.getD 3 0 >= 50 then
          some (⟨PhoneType.FORMATTED_DOMESTIC, candidate, digits, i⟩, e)
        else none
      else none
    else none
  else none

/-- The state of the `while` loop of lines 308-333. -/
structure RunState where
  i : Nat
  candidate : List Nat
  digitCount : Nat
  separator : Nat
  hasSeparator : Bool
deriving DecidableEq, Repr

/-- The `while` loop of lines 308-333. -/
def runWhile (data : List Nat) (len : Nat) : Nat → RunState → RunState
  | 0, s => s
  | fuel + 1, s =>
    if s.i < len && s.candidate.length < MAX_PHONE_LENGTH then
      if isDigit (data.getD s.i 0) then
        runWhile data len fuel
          { s with i := s.i + 1, candidate := s.candidate ++ [data.getD s.i 0],
                   digitCount := s.digitCount + 1 }
      else if (data.getD s.i 0 == 45 || data.getD s.i 0 == 46 || data.getD s.i 0 == 32) &&
          s.digitCount > 0 && s.digitCount < 11 &&
          s.i + 1 < len && isDigit (data.getD (s.i + 1) 0) then
        let separator := if s.separator == 0 then data.getD s.i 0 else s.separator
        if data.getD s.i 0 == separator then
          runWhile data len fuel
            { s with i := s.i + 1, candidate := s.candidate ++ [data.getD s.i 0],
                     separator := separator, hasSeparator := true }
        else { s with separator := separator }
      else s
    else s

/-- The consistent-separator block of lines 300-356 at cursor `i`, entered when
the test of line 300 holds: `some (match, i)` when one of lines 341, 346, 351
emits (with the cursor `i` left by the `while` loop), `none` when line 355
resets the cursor to `start`. -/
def runCandidate (data : List Nat) (len : Nat) (i : Nat) : Option (PhoneMatch × Nat) :=
  let start := i
  let s := runWhile data len MAX_PHONE_LENGTH ⟨i, [], 0, 0, false⟩
  if s.hasSeparator && s.digitCount >= 10 && s.digitCount <= 11 then
    let digits := extractDigits s.candidate
    if s.digitCount == 10 && s.separator == 32 && digits.getD 0 0 >= 49 && digits.getD 0 0 <= 57 then
      some (⟨PhoneType.MOBILE_10_DIGIT, s.candidate, digits, start⟩, s.i)
    else if s.digitCount == 10 && digits.getD 0 0 != 48 && digits.getD 3 0 >= 50 then
      some (⟨PhoneType.FORMATTED_DOMESTIC, s.candidate, digits, start⟩, s.i)
    else if s.digitCount == 11 && digits.getD 0 0 == 49 && digits.getD 1 0 != 48 then
      some (⟨PhoneType.FORMATTED_TOLL_FREE, s.candidate, digits, start⟩, s.i)
    else none
  else none

/-- The `for` loop of lines 254-357. -/
def scanFormattedNumbersLoop (data : List Nat) (len : Nat) :
    Nat → Nat → List PhoneMatch → List PhoneMatch
  | 0, _, m => m
  | fuel + 1, i, m =>
    if i < len then
      match parenCandidate data len i with
      | some (pm, e) =>
        -- line 293: `i = end - 1; continue;`
        scanFormattedNumbersLoop data len fuel (e - 1 + 1) (m ++ [pm])
      | none =>
        if isDigit (data.getD i 0) && (i == 0 || !isDigit (data.getD (i - 1) 0)) then
          match runCandidate data len i with
          | some (pm, i1) => scanFormattedNumbersLoop data len fuel (i1 + 1) (m ++ [pm])
          | none => scanFormattedNumbersLoop data len fuel (i + 1) m
        else scanFormattedNumbersLoop data len fuel (i + 1) m
    else m

/-- `scanFormattedNumbers` (lines 252-358). -/
def scanFormattedNumbers (data : List Nat) (len : Nat) (m : List PhoneMatch) : List PhoneMatch :=
  scanFormattedNumbersLoop data len len 0 m

/-! ## Pass C: `scanPlainDigits` (lines 360-412) -/

/-- The `while` loop of lines 372-376 on the state `(i, digitCount)`. -/
def digitRunWhile (data : List Nat) (len : Nat) : Nat → Nat → Nat → Nat × Nat
  | 0, i, digitCount => (i, digitCount)
  | fuel + 1, i, digitCount =>
    if i < len && isDigit (data.getD i 0) then
      digitRunWhile data len fuel (i + 1) (digitCount + 1)
    else (i, digitCount)

/-- The classification of lines 381-408 for the run of `digitCount` digits
that starts at `start`: `some match` when one of lines 387, 392, 397, 405
emits, `none` when control reaches line 410. -/
def plainCandidate (data : List Nat) (start digitCount : Nat) : Option PhoneMatch :=
  -- line 381: `std::string candidate(data + start, digitCount)`
  let candidate := (data.drop start).take digitCount
  if digitCount == 10 then
    if candidate.getD 0 0 >= 54 && candidate.getD 0 0 <= 57 then
      some ⟨PhoneType.MOBILE_10_DIGIT, candidate, candidate, start⟩
    else if candidate.getD 0 0 >= 50 && candidate.getD 0 0 <= 53 && candidate.getD 3 0 >= 50 then
      some ⟨PhoneType.PLAIN_10_DIGIT, candidate, candidate, start⟩
    else if candidate.getD 0 0 == 49 then
      some ⟨PhoneType.MOBILE_10_DIGIT, candidate, candidate, start⟩
    else none
  else if digitCount == 11 then
    if candidate.getD 0 0 == 49 && candidate.getD 1 0 != 48 then
      some ⟨PhoneType.PLAIN_11_DIGIT, candidate, candidate, start⟩
    else none
  else none

/-- The `for` loop of lines 362-411. -/
def scanPlainDigitsLoop (data : List Nat) (len : Nat) :
    Nat → Nat → List PhoneMatch → List PhoneMatch
  | 0, _, m => m
  | fuel + 1, i, m =>
    if i < len then
      if !isDigit (data.getD i 0) then scanPlainDigitsLoop data len fuel (i + 1) m
      else if i > 0 && isDigit (data.getD (i - 1) 0) then scanPlainDigitsLoop data len fuel (i + 1) m
      else
        let start := i
        let st := digitRunWhile data len len i 0
        let i1 := st.1
        let digitCount := st.2
        if i1 < len && isDigit (data.getD i1 0) then scanPlainDigitsLoop data len fuel (i1 + 1) m
        else
          match plainCandidate data start digitCount with
          | some pm =>
            -- `emplace_back` and `continue` with the cursor left by the `while` loop
            scanPlainDigitsLoop data len fuel (i1 + 1) (m ++ [pm])
          | none =>
            -- line 410: `i = start + digitCount - 1`
            scanPlainDigitsLoop data len fuel (start + digitCount - 1 + 1) m
    else m

/-- `scanPlainDigits` (lines 360-412). -/
def scanPlainDigits (data : List Nat) (len : Nat) (m : List PhoneMatch) : List PhoneMatch :=
  scanPlainDigitsLoop data len len 0 m

/-! ## Merge and `extract` (lines 415-450) -/

/-- Insertion of `x` into a list sorted by `position`, before the first
element that the comparator `a.position < b.position` does not put before
`x`. -/
def insertByPosition (x : PhoneMatch) : List PhoneMatch → List PhoneMatch
  | [] => [x]
  | y :: ys => if y.position < x.position then y :: insertByPosition x ys else x :: y :: ys

/-- Modelled from the spec: the library routine `std::sort` called at line
433 with the comparator `a.position < b.position` is not part of the
repository.  Spec section 4.4 (Merge step): "Sort by ascending byte offset ...
the first in sort order wins (stable sort)".  The model is the insertion
sort that keeps candidates of equal `position` in their original order.
`std::sort` itself promises only an ascending permutation of the vector and
may leave candidates of equal `position` in another order; what the merge
keeps at a tied offset is therefore stated for every ascending permutation of
the candidates, not for this function. -/
def sortByPosition : List PhoneMatch → List PhoneMatch
  | [] => []
  | x :: xs => insertByPosition x (sortByPosition xs)

/-- The `for (auto &match : matches)` loop of lines 440-447 on the state
`(lastEnd, result)`. -/
def mergeLoop : List PhoneMatch → Nat → List PhoneMatch → List PhoneMatch
  | [], _, result => result
  | x :: rest, lastEnd, result =>
    if x.position >= lastEnd then
      mergeLoop rest (x.position + x.value.length) (result ++ [x])
    else mergeLoop rest lastEnd result

/-- The candidates of the three passes in the order in which lines 426-428
append them to `matches`. -/
def candidates (text : List Nat) : List PhoneMatch :=
  scanPlainDigits text text.length
    (scanFormattedNumbers text text.length (scanInternational text text.length []))

/-- `PhoneScanner::extract` (lines 415-450). -/
def extract (text : List Nat) : List PhoneMatch :=
  let len := text.length
  if len > MAX_INPUT_SIZE || len < MIN_DIGITS then []
  else
    let allMatches := candidates text
    if allMatches.isEmpty then allMatches
    else mergeLoop (sortByPosition allMatches) 0 []

/-! ## Predicates used to state and prove the properties -/

/-- The match `x` is what line 244 emits for a `+` found at some cursor `i`. -/
def EmittedA (data : List Nat) (len : Nat) (x : PhoneMatch) : Prop :=
  ∃ i, i < len ∧ data.getD i 0 = 43 ∧ i + 1 < len ∧ isDigit (data.getD (i + 1) 0) = true ∧
    MIN_DIGITS ≤ (extractDigits
      (scanInternationalWhile data len MAX_PHONE_LENGTH (i + 1) [43] 0).2.1).length ∧
    (extractDigits
      (scanInternationalWhile data len MAX_PHONE_LENGTH (i + 1) [43] 0).2.1).length ≤ MAX_DIGITS ∧
    x = ⟨PhoneType.INTERNATIONAL_PLUS,
      (scanInternationalWhile data len MAX_PHONE_LENGTH (i + 1) [43] 0).2.1,
      extractDigits (scanInternationalWhile data len MAX_PHONE_LENGTH (i + 1) [43] 0).2.1, i⟩

/-- The match `x` is what Pass B emits at some cursor `i`: by the
parenthesized block, or by the consistent-separator block entered at a digit. -/
def EmittedB (data : List Nat) (len : Nat) (x : PhoneMatch) : Prop :=
  ∃ i, i < len ∧
    ((∃ e, parenCandidate data len i = some (x, e)) ∨
     (isDigit (data.getD i 0) = true ∧ ∃ i1, runCandidate data len i = some (x, i1)))

/-- The match `x` is what Pass C emits for the digit run that starts at some
cursor `i`. -/
def EmittedC (data : List Nat) (len : Nat) (x : PhoneMatch) : Prop :=
  ∃ i, i < len ∧ isDigit (data.getD i 0) = true ∧
    plainCandidate data i (digitRunWhile data len len i 0).2 = some x

/-- The acceptance condition of a match by category: the validator of the
category accepts `value`; `FORMATTED_TOLL_FREE` has no validator and is
checked on `normalized`; the two categories that no pass emits are rejected. -/
def categorySound (x : PhoneMatch) : Bool :=
  match x.type with
  | PhoneType.FORMATTED_DOMESTIC => FormattedDomesticValidator.isValid x.value
  | PhoneType.INTERNATIONAL_PLUS => InternationalPlusValidator.isValid x.value
  | PhoneType.PLAIN_10_DIGIT => PlainDigitValidator.isValid 10 x.value
  | PhoneType.PLAIN_11_DIGIT => PlainDigitValidator.isValid 11 x.value
  | PhoneType.MOBILE_10_DIGIT => MobileDigitValidator.isValid x.value
  | PhoneType.FORMATTED_TOLL_FREE =>
    x.normalized.length == 11 && x.normalized.getD 0 0 == 49 && x.normalized.getD 1 0 != 48
  | PhoneType.INTERNATIONAL_00 => false
  | PhoneType.UNKNOWN => false

/-- The facts shared by every candidate that a pass emits on an input of
`len` bytes. -/
structure Good (len : Nat) (x : PhoneMatch) : Prop where
  bound : x.position + x.value.length ≤ len
  proj : x.normalized = extractDigits x.value
  sound : categorySound x = true
  nonempty : 0 < x.value.length

/-- The pairs of category and digit count that a match may have: 7 to 15
digits for `INTERNATIONAL_PLUS`, 10 for `FORMATTED_DOMESTIC`, `PLAIN_10_DIGIT`
and `MOBILE_10_DIGIT`, 11 for `FORMATTED_TOLL_FREE` and `PLAIN_11_DIGIT`. -/
def KindOK (x : PhoneMatch) : Prop :=
  (x.type = PhoneType.INTERNATIONAL_PLUS ∧ 7 ≤ x.normalized.length ∧
    x.normalized.length ≤ 15) ∨
  ((x.type = PhoneType.FORMATTED_DOMESTIC ∨ x.type = PhoneType.PLAIN_10_DIGIT ∨
      x.type = PhoneType.MOBILE_10_DIGIT) ∧ x.normalized.length = 10) ∨
  ((x.type = PhoneType.FORMATTED_TOLL_FREE ∨ x.type = PhoneType.PLAIN_11_DIGIT) ∧
    x.normalized.length = 11)

/-- The groups `gs`, each preceded by the separator byte `c`: what follows the
first group in a text of groups joined by `c`. -/
def sepTail (c : Nat) : List (List Nat) → List Nat
  | [] => []
  | h :: gs => c :: (h ++ sepTail c gs)

/-! ## The loops as step functions

Each loop of the scanner is given once more as the function `...Next` of one
round: `some s1` when the round ends in state `s1` and the loop test is made
again, `none` when the loop is left in the state it was entered with (the
test fails, or `break` is reached).  `runLoop` runs such a function and,
unlike the fuel-indexed loops above, tells a loop that has left from one that
has used up its rounds. -/

/-- A loop run for at most `fuel + 1` loop tests: `some s` when the loop is
left in state `s`, `none` when the rounds are used up before it is left. -/
def runLoop {σ : Type} (next : σ → Option σ) : Nat → σ → Option σ
  | 0, s =>
    match next s with
    | none => some s
    | some _ => none
  | fuel + 1, s =>
    match next s with
    | none => some s
    | some s1 => runLoop next fuel s1

/-- One round of the `while` loop of lines 218-239 on the state
`(i, candidate, digitCount)`. -/
def scanInternationalWhileNext (data : List Nat) (len : Nat) (s : Nat × List Nat × Nat) :
    Option (Nat × List Nat × Nat) :=
  if s.1 < len && s.2.1.length < MAX_PHONE_LENGTH then
    if isDigit (data.getD s.1 0) then
      some (s.1 + 1, s.2.1 ++ [data.getD s.1 0], s.2.2 + 1)
    else if (isSeparator (data.getD s.1 0) || data.getD s.1 0 == 40) && s.2.2 > 0 &&
        s.1 + 1 < len && (isDigit (data.getD (s.1 + 1) 0) || data.getD (s.1 + 1) 0 == 40) then
      some (s.1 + 1, s.2.1 ++ [data.getD s.1 0], s.2.2)
    else if data.getD s.1 0 == 41 && s.2.2 > 0 then
      some (s.1 + 1, s.2.1 ++ [data.getD s.1 0], s.2.2)
    else none
  else none

/-- One round of the `for` loop of lines 209-249 on the state `(i, m)`, with
`i` the cursor at the loop test: the state at the next loop test, after the
`++i` that both `continue` and the end of the body run. -/
def scanInternationalNext (data : List Nat) (len : Nat) (s : Nat × List PhoneMatch) :
    Option (Nat × List PhoneMatch) :=
  if s.1 < len then
    if data.getD s.1 0 == 43 && s.1 + 1 < len && isDigit (data.getD (s.1 + 1) 0) then
      let start := s.1
      let st := scanInternationalWhile data len MAX_PHONE_LENGTH (s.1 + 1) [43] 0
      let candidate := st.2.1
      let digits := extractDigits candidate
      if digits.length >= MIN_DIGITS && digits.length <= MAX_DIGITS then
        some (st.1 + 1, s.2 ++ [⟨PhoneType.INTERNATIONAL_PLUS, candidate, digits, start⟩])
      else some (start + 1, s.2)
    else some (s.1 + 1, s.2)
  else none

/-- One round of the `while` loop of lines 270-285 on the state
`(end, candidate, digitCount)`. -/
def parenWhileNext (data : List Nat) (len : Nat) (s : Nat × List Nat × Nat) :
    Option (Nat × List Nat × Nat) :=
  if s.1 < len && s.2.2 < 7 && s.2.1.length < MAX_PHONE_LENGTH then
    if isDigit (data.getD s.1 0) then
      some (s.1 + 1, s.2.1 ++ [data.getD s.1 0], s.2.2 + 1)
    else if isSeparator (data.getD s.1 0) && s.2.2 > 0 && s.2.2 < 7 then
      some (s.1 + 1, s.2.1 ++ [data.getD s.1 0], s.2.2)
    else none
  else none

/-- One round of the `while` loop of lines 308-333.  The `break` of line 329
is reached only with `separator` already set (a `separator` that line 322
has just set equals `data[i]`), so it leaves the state as it was. -/
def runWhileNext (data : List Nat) (len : Nat) (s : RunState) : Option RunState :=
  if s.i < len && s.candidate.length < MAX_PHONE_LENGTH then
    if isDigit (data.getD s.i 0) then
      some { s with i := s.i + 1, candidate := s.candidate ++ [data.getD s.i 0],
                    digitCount := s.digitCount + 1 }
    else if (data.getD s.i 0 == 45 || data.getD s.i 0 == 46 || data.getD s.i 0 == 32) &&
        s.digitCount > 0 && s.digitCount < 11 &&
        s.i + 1 < len && isDigit (data.getD (s.i + 1) 0) then
      let separator := if s.separator == 0 then data.getD s.i 0 else s.separator
      if data.getD s.i 0 == separator then
        some { s with i := s.i + 1, candidate := s.candidate ++ [data.getD s.i 0],
                      separator := separator, hasSeparator := true }
      else none
    else none
  else none

/-- One round of the `for` loop of lines 254-357 on the state `(i, m)`. -/
def scanFormattedNumbersNext (data : List Nat) (len : Nat) (s : Nat × List PhoneMatch) :
    Option (Nat × List PhoneMatch) :=
  if s.1 < len then
    match parenCandidate data len s.1 with
    | some (pm, e) => some (e - 1 + 1, s.2 ++ [pm])
    | none =>
      if isDigit (data.getD s.1 0) && (s.1 == 0 || !isDigit (data.getD (s.1 - 1) 0)) then
        match runCandidate data len s.1 with
        | some (pm, i1) => some (i1 + 1, s.2 ++ [pm])
        | none => some (s.1 + 1, s.2)
      else some (s.1 + 1, s.2)
  else none

/-- One round of the `while` loop of lines 372-376 on the state
`(i, digitCount)`. -/
def digitRunWhileNext (data : List Nat) (len : Nat) (s : Nat × Nat) : Option (Nat × Nat) :=
  if s.1 < len && isDigit (data.getD s.1 0) then some (s.1 + 1, s.2 + 1) else none

/-- One round of the `for` loop of lines 362-411 on the state `(i, m)`. -/
def scanPlainDigitsNext (data : List Nat) (len : Nat) (s : Nat × List PhoneMatch) :
    Option (Nat × List PhoneMatch) :=
  if s.1 < len then
    if !isDigit (data.getD s.1 0) then some (s.1 + 1, s.2)
    else if s.1 > 0 && isDigit (data.getD (s.1 - 1) 0) then some (s.1 + 1, s.2)
    else
      let start := s.1
      let st := digitRunWhile data len len s.1 0
      let i1 := st.1
      let digitCount := st.2
      if i1 < len && isDigit (data.getD i1 0) then some (i1 + 1, s.2)
      else
        match plainCandidate data start digitCount with
        | some pm => some (i1 + 1, s.2 ++ [pm])
        | none => some (start + digitCount - 1 + 1, s.2)
  else none

/-- The match `x` with its position increased by `n`. -/
def shiftMatch (n : Nat) (x : PhoneMatch) : PhoneMatch :=
  { x with position := n + x.position }

/-! ## The scanner and the validators with checked reads

Every indexed read of the source is made through `readAt` (and the
construction `std::string candidate(data + start, digitCount)` of line 381
through `readRange`), which gives `none` when the index is out of range; `&&`
and `||` are `scAnd` and `scOr`, which do not evaluate their right operand
when the left one decides.  A `...Checked` function is `none` exactly when
one of its reads is out of range. -/

/-- The read `s[j]` of a buffer or string of `n` bytes: `none` when `j` is not
below `n`. -/
def readAt (s : List Nat) (n j : Nat) : Option Nat :=
  if j < n then some (s.getD j 0) else none

/-- The read of the `count` bytes `data[start] .. data[start + count - 1]` of a
buffer of `n` bytes: `none` when they are not all below `n`. -/
def readRange (data : List Nat) (n start count : Nat) : Option (List Nat) :=
  if start + count ≤ n then some ((data.drop start).take count) else none

/-- The operator `&&`: the right operand is evaluated only when the left one
is true. -/
def scAnd (a b : Option Bool) : Option Bool :=
  match a with
  | none => none
  | some x => if x then b else some false

/-- The operator `||`: the right operand is evaluated only when the left one
is false. -/
def scOr (a b : Option Bool) : Option Bool :=
  match a with
  | none => none
  | some x => if x then some true else b

/-- `FormattedDomesticValidator::isValid` (lines 115-125) with checked reads. -/
def FormattedDomesticValidator.isValidChecked (phone : List Nat) : Option Bool :=
  let digits := extractDigits phone
  if digits.length != 10 then some false
  else
    match readAt digits digits.length 0 with
    | none => none
    | some d0 =>
      if d0 == 48 then some false
      else
        match readAt digits digits.length 3 with
        | none => none
        | some d3 => if d3 < 50 then some false else some true

/-- `InternationalPlusValidator::isValid` (lines 132-140) with checked reads. -/
def InternationalPlusValidator.isValidChecked (phone : List Nat) : Option Bool :=
  match scOr (some phone.isEmpty) ((readAt phone phone.length 0).map fun c => c != 43) with
  | none => none
  | some b =>
    if b then some false
    else
      let digits := extractDigits phone
      if digits.length < 7 || digits.length > 15 then some false
      else some true

/-- `PlainDigitValidator::isValid` (lines 153-176) with checked reads. -/
def PlainDigitValidator.isValidChecked (expectedLength : Nat) (phone : List Nat) :
    Option Bool :=
  if phone.length != expectedLength then some false
  else if !(phone.all isDigit) then some false
  else if expectedLength == 10 then
    match readAt phone phone.length 0 with
    | none => none
    | some c0 =>
      if c0 == 48 then some false
      else
        match readAt phone phone.length 3 with
        | none => none
        | some c3 => if c3 < 50 then some false else some true
  else if expectedLength == 11 then
    match readAt phone phone.length 0 with
    | none => none
    | some c0 =>
      if c0 != 49 then some false
      else
        match readAt phone phone.length 1 with
        | none => none
        | some c1 => if c1 == 48 then some false else some true
  else some true

/-- `MobileDigitValidator::isValid` (lines 183-191) with checked reads. -/
def MobileDigitValidator.isValidChecked (phone : List Nat) : Option Bool :=
  let digits := extractDigits phone
  if digits.length == 10 then
    scAnd ((readAt digits digits.length 0).map fun c => decide (c ≥ 49))
      ((readAt digits digits.length 0).map fun c => decide (c ≤ 57))
  else if digits.length == 12 then
    scAnd
      (scAnd
        (scAnd ((readAt digits digits.length 0).map fun c => c == 57)
          ((readAt digits digits.length 1).map fun c => c == 49))
        ((readAt digits digits.length 2).map fun c => decide (c ≥ 49)))
      ((readAt digits digits.length 2).map fun c => decide (c ≤ 57))
  else some false

/-- The `while` loop of lines 218-239 with checked reads. -/
def scanInternationalWhileChecked (data : List Nat) (len : Nat) :
    Nat → Nat → List Nat → Nat → Option (Nat × List Nat × Nat)
  | 0, i, candidate, digitCount => some (i, candidate, digitCount)
  | fuel + 1, i, candidate, digitCount =>
    if i < len && candidate.length < MAX_PHONE_LENGTH then
      match readAt data len i with
      | none => none
      | some c =>
        if isDigit c then
          scanInternationalWhileChecked data len fuel (i + 1) (candidate ++ [c]) (digitCount + 1)
        else
          match scAnd (some ((isSeparator c || c == 40) && digitCount > 0 && i + 1 < len))
            ((readAt data len (i + 1)).map fun c1 => isDigit c1 || c1 == 40) with
          | none => none
          | some b =>
            if b then
              scanInternationalWhileChecked data len fuel (i + 1) (candidate ++ [c]) digitCount
            else if c == 41 && digitCount > 0 then
              scanInternationalWhileChecked data len fuel (i + 1) (candidate ++ [c]) digitCount
            else some (i, candidate, digitCount)
    else some (i, candidate, digitCount)

/-- The `for` loop of lines 209-249 with checked reads. -/
def scanInternationalLoopChecked (data : List Nat) (len : Nat) :
    Nat → Nat → List PhoneMatch → Option (List PhoneMatch)
  | 0, _, m => some m
  | fuel + 1, i, m =>
    if i < len then
      match scAnd
        (scAnd ((readAt data len i).map fun c => c == 43) (some (decide (i + 1 < len))))
        ((readAt data len (i + 1)).map isDigit) with
      | none => none
      | some b =>
        if b then
          match scanInternationalWhileChecked data len MAX_PHONE_LENGTH (i + 1) [43] 0 with
          | none => none
          | some st =>
            if (extractDigits st.2.1).length >= MIN_DIGITS &&
                (extractDigits st.2.1).length <= MAX_DIGITS then
              scanInternationalLoopChecked data len fuel (st.1 + 1)
                (m ++ [⟨PhoneType.INTERNATIONAL_PLUS, st.2.1, extractDigits st.2.1, i⟩])
            else scanInternationalLoopChecked data len fuel (i + 1) m
        else scanInternationalLoopChecked data len fuel (i + 1) m
    else some m

/-- `scanInternational` (lines 207-250) with checked reads. -/
def scanInternationalChecked (data : List Nat) (len : Nat) (m : List PhoneMatch) :
    Option (List PhoneMatch) :=
  scanInternationalLoopChecked data len len 0 m

/-- The `while` loop of lines 270-285 with checked reads. -/
def parenWhileChecked (data : List Nat) (len : Nat) :
    Nat → Nat → List Nat → Nat → Option (Nat × List Nat × Nat)
  | 0, e, candidate, digitCount => some (e, candidate, digitCount)
  | fuel + 1, e, candidate, digitCount =>
    if e < len && digitCount < 7 && candidate.length < MAX_PHONE_LENGTH then
      match readAt data len e with
      | none => none
      | some c =>
        if isDigit c then
          parenWhileChecked data len fuel (e + 1) (candidate ++ [c]) (digitCount + 1)
        else if isSeparator c && digitCount > 0 && digitCount < 7 then
          parenWhileChecked data len fuel (e + 1) (candidate ++ [c]) digitCount
        else some (e, candidate, digitCount)
    else some (e, candidate, digitCount)

/-- The test of line 256 with checked reads. -/
def parenGuardChecked (data : List Nat) (len i : Nat) : Option Bool :=
  scAnd ((readAt data len i).map fun c => c == 40) (some (decide (i + 14 ≤ len)))

/-- The test of lines 258-260 with checked reads. -/
def parenHeadChecked (data : List Nat) (len i : Nat) : Option Bool :=
  scAnd
    (scAnd
      (scAnd
        (scAnd ((readAt data len (i + 1)).map isDigit) ((readAt data len (i + 2)).map isDigit))
        ((readAt data len (i + 3)).map isDigit))
      ((readAt data len (i + 4)).map fun c => c == 41))
    (scOr ((readAt data len (i + 5)).map fun c => c == 32)
      ((readAt data len (i + 5)).map fun c => c == 45))

/-- The bytes `"(" data[i+1] data[i+2] data[i+3] ") "` that lines 263-267 give
to `candidate`, with checked reads. -/
def parenPrefixChecked (data : List Nat) (len i : Nat) : Option (List Nat) :=
  match readAt data len (i + 1) with
  | none => none
  | some c1 =>
    match readAt data len (i + 2) with
    | none => none
    | some c2 =>
      match readAt data len (i + 3) with
      | none => none
      | some c3 => some ([40] ++ [c1] ++ [c2] ++ [c3] ++ [41, 32])

/-- The test `digits.length() == 10 && digits[0] != '0' && digits[3] >= '2'` of
line 290 with checked reads. -/
def domesticDigitsChecked (digits : List Nat) : Option Bool :=
  scAnd
    (scAnd (some (digits.length == 10)) ((readAt digits digits.length 0).map fun c => c != 48))
    ((readAt digits digits.length 3).map fun c => decide (c ≥ 50))

/-- The parenthesized block of lines 256-298 with checked reads. -/
def parenCandidateChecked (data : List Nat) (len : Nat) (i : Nat) :
    Option (Option (PhoneMatch × Nat)) :=
  match parenGuardChecked data len i with
  | none => none
  | some b0 =>
    if b0 then
      match parenHeadChecked data len i with
      | none => none
      | some b1 =>
        if b1 then
          match parenPrefixChecked data len i with
          | none => none
          | some pre =>
            match parenWhileChecked data len MAX_PHONE_LENGTH (i + 6) pre 0 with
            | none => none
            | some st =>
              if st.2.2 == 7 then
                match domesticDigitsChecked (extractDigits st.2.1) with
                | none => none
                | some b2 =>
                  if b2 then
                    some (some (⟨PhoneType.FORMATTED_DOMESTIC, st.2.1, extractDigits st.2.1, i⟩,
                      st.1))
                  else some none
              else some none
        else some none
    else some none

/-- The separator of lines 322-323: `if (separator == 0) separator = data[i]`. -/
def pickSeparator (separator c : Nat) : Nat :=
  if separator == 0 then c else separator

/-- The `while` loop of lines 308-333 with checked reads. -/
def runWhileChecked (data : List Nat) (len : Nat) : Nat → RunState → Option RunState
  | 0, s => some s
  | fuel + 1, s =>
    if s.i < len && s.candidate.length < MAX_PHONE_LENGTH then
      match readAt data len s.i with
      | none => none
      | some c =>
        if isDigit c then
          runWhileChecked data len fuel
            ⟨s.i + 1, s.candidate ++ [c], s.digitCount + 1, s.separator, s.hasSeparator⟩
        else
          match scAnd
            (some ((c == 45 || c == 46 || c == 32) && s.digitCount > 0 && s.digitCount < 11 &&
              s.i + 1 < len))
            ((readAt data len (s.i + 1)).map isDigit) with
          | none => none
          | some b =>
            if b then
              if c == pickSeparator s.separator c then
                runWhileChecked data len fuel
                  ⟨s.i + 1, s.candidate ++ [c], s.digitCount, pickSeparator s.separator c, true⟩
              else
                some ⟨s.i, s.candidate, s.digitCount, pickSeparator s.separator c,
                  s.hasSeparator⟩
            else some s
    else some s

/-- The test of line 339 with checked reads. -/
def mobileDigitsChecked (digitCount separator : Nat) (digits : List Nat) : Option Bool :=
  scAnd
    (scAnd (some (digitCount == 10 && separator == 32))
      ((readAt digits digits.length 0).map fun c => decide (c ≥ 49)))
    ((readAt digits digits.length 0).map fun c => decide (c ≤ 57))

/-- The test of line 344 with checked reads. -/
def domesticRunChecked (digitCount : Nat) (digits : List Nat) : Option Bool :=
  scAnd
    (scAnd (some (digitCount == 10)) ((readAt digits digits.length 0).map fun c => c != 48))
    ((readAt digits digits.length 3).map fun c => decide (c ≥ 50))

/-- The test of line 349 with checked reads. -/
def tollFreeRunChecked (digitCount : Nat) (digits : List Nat) : Option Bool :=
  scAnd
    (scAnd (some (digitCount == 11)) ((readAt digits digits.length 0).map fun c => c == 49))
    ((readAt digits digits.length 1).map fun c => c != 48)

/-- The classification of lines 335-353 for the state `s` left by the `while`
loop, with checked reads. -/
def runClassifyChecked (s : RunState) (start : Nat) : Option (Option (PhoneMatch × Nat)) :=
  if s.hasSeparator && s.digitCount >= 10 && s.digitCount <= 11 then
    match mobileDigitsChecked s.digitCount s.separator (extractDigits s.candidate) with
    | none => none
    | some b1 =>
      if b1 then
        some (some (⟨PhoneType.MOBILE_10_DIGIT, s.candidate, extractDigits s.candidate, start⟩,
          s.i))
      else
        match domesticRunChecked s.digitCount (extractDigits s.candidate) with
        | none => none
        | some b2 =>
          if b2 then
            some (some (⟨PhoneType.FORMATTED_DOMESTIC, s.candidate, extractDigits s.candidate,
              start⟩, s.i))
          else
            match tollFreeRunChecked s.digitCount (extractDigits s.candidate) with
            | none => none
            | some b3 =>
              if b3 then
                some (some (⟨PhoneType.FORMATTED_TOLL_FREE, s.candidate,
                  extractDigits s.candidate, start⟩, s.i))
              else some none
  else some none

/-- The consistent-separator block of lines 300-356 with checked reads. -/
def runCandidateChecked (data : List Nat) (len : Nat) (i : Nat) :
    Option (Option (PhoneMatch × Nat)) :=
  match runWhileChecked data len MAX_PHONE_LENGTH ⟨i, [], 0, 0, false⟩ with
  | none => none
  | some s => runClassifyChecked s i

/-- The test of line 300 with checked reads. -/
def runStartChecked (data : List Nat) (len i : Nat) : Option Bool :=
  scAnd ((readAt data len i).map isDigit)
    (scOr (some (i == 0)) ((readAt data len (i - 1)).map fun c => !isDigit c))

/-- The `for` loop of lines 254-357 with checked reads. -/
def scanFormattedNumbersLoopChecked (data : List Nat) (len : Nat) :
    Nat → Nat → List PhoneMatch → Option (List PhoneMatch)
  | 0, _, m => some m
  | fuel + 1, i, m =>
    if i < len then
      match parenCandidateChecked data len i with
      | none => none
      | some (some (pm, e)) =>
        scanFormattedNumbersLoopChecked data len fuel (e - 1 + 1) (m ++ [pm])
      | some none =>
        match runStartChecked data len i with
        | none => none
        | some b =>
          if b then
            match runCandidateChecked data len i with
            | none => none
            | some (some (pm, i1)) =>
              scanFormattedNumbersLoopChecked data len fuel (i1 + 1) (m ++ [pm])
            | some none => scanFormattedNumbersLoopChecked data len fuel (i + 1) m
          else scanFormattedNumbersLoopChecked data len fuel (i + 1) m
    else some m

/-- `scanFormattedNumbers` (lines 252-358) with checked reads. -/
def scanFormattedNumbersChecked (data : List Nat) (len : Nat) (m : List PhoneMatch) :
    Option (List PhoneMatch) :=
  scanFormattedNumbersLoopChecked data len len 0 m

/-- The test `i < len && isDigit(data[i])` of lines 372 and 378 with checked
reads. -/
def digitAtChecked (data : List Nat) (len i : Nat) : Option Bool :=
  scAnd (some (decide (i < len))) ((readAt data len i).map isDigit)

/-- The `while` loop of lines 372-376 with checked reads. -/
def digitRunWhileChecked (data : List Nat) (len : Nat) : Nat → Nat → Nat → Option (Nat × Nat)
  | 0, i, digitCount => some (i, digitCount)
  | fuel + 1, i, digitCount =>
    match digitAtChecked data len i with
    | none => none
    | some b =>
      if b then digitRunWhileChecked data len fuel (i + 1) (digitCount + 1)
      else some (i, digitCount)

/-- The test of line 383 with checked reads. -/
def mobileHighChecked (candidate : List Nat) : Option Bool :=
  scAnd ((readAt candidate candidate.length 0).map fun c => decide (c ≥ 54))
    ((readAt candidate candidate.length 0).map fun c => decide (c ≤ 57))

/-- The test of line 388 with checked reads. -/
def plainTenChecked (candidate : List Nat) : Option Bool :=
  scAnd
    (scAnd ((readAt candidate candidate.length 0).map fun c => decide (c ≥ 50))
      ((readAt candidate candidate.length 0).map fun c => decide (c ≤ 53)))
    ((readAt candidate candidate.length 3).map fun c => decide (c ≥ 50))

/-- The test of line 393 with checked reads. -/
def mobileOneChecked (candidate : List Nat) : Option Bool :=
  (readAt candidate candidate.length 0).map fun c => c == 49

/-- The test of line 401 with checked reads. -/
def plainElevenChecked (candidate : List Nat) : Option Bool :=
  scAnd ((readAt candidate candidate.length 0).map fun c => c == 49)
    ((readAt candidate candidate.length 1).map fun c => c != 48)

/-- The classification of lines 383-408 of a `candidate` of `digitCount`
digits, with checked reads. -/
def plainClassifyChecked (candidate : List Nat) (start digitCount : Nat) :
    Option (Option PhoneMatch) :=
  if digitCount == 10 then
    match mobileHighChecked candidate with
    | none => none
    | some b1 =>
      if b1 then some (some ⟨PhoneType.MOBILE_10_DIGIT, candidate, candidate, start⟩)
      else
        match plainTenChecked candidate with
        | none => none
        | some b2 =>
          if b2 then some (some ⟨PhoneType.PLAIN_10_DIGIT, candidate, candidate, start⟩)
          else
            match mobileOneChecked candidate with
            | none => none
            | some b3 =>
              if b3 then some (some ⟨PhoneType.MOBILE_10_DIGIT, candidate, candidate, start⟩)
              else some none
  else if digitCount == 11 then
    match plainElevenChecked candidate with
    | none => none
    | some b =>
      if b then some (some ⟨PhoneType.PLAIN_11_DIGIT, candidate, candidate, start⟩)
      else some none
  else some none

/-- Lines 381-408 with checked reads: the construction of `candidate` from
`data[start .. start + digitCount)` and its classification. -/
def plainCandidateChecked (data : List Nat) (len start digitCount : Nat) :
    Option (Option PhoneMatch) :=
  match readRange data len start digitCount with
  | none => none
  | some candidate => plainClassifyChecked candidate start digitCount

/-- The test of line 366 with checked reads. -/
def digitBeforeChecked (data : List Nat) (len i : Nat) : Option Bool :=
  scAnd (some (decide (i > 0))) ((readAt data len (i - 1)).map isDigit)

/-- The `for` loop of lines 362-411 with checked reads. -/
def scanPlainDigitsLoopChecked (data : List Nat) (len : Nat) :
    Nat → Nat → List PhoneMatch → Option (List PhoneMatch)
  | 0, _, m => some m
  | fuel + 1, i, m =>
    if i < len then
      match (readAt data len i).map fun c => !isDigit c with
      | none => none
      | some b0 =>
        if b0 then scanPlainDigitsLoopChecked data len fuel (i + 1) m
        else
          match digitBeforeChecked data len i with
          | none => none
          | some b1 =>
            if b1 then scanPlainDigitsLoopChecked data len fuel (i + 1) m
            else
              match digitRunWhileChecked data len len i 0 with
              | none => none
              | some st =>
                match digitAtChecked data len st.1 with
                | none => none
                | some b2 =>
                  if b2 then scanPlainDigitsLoopChecked data len fuel (st.1 + 1) m
                  else
                    match plainCandidateChecked data len i st.2 with
                    | none => none
                    | some (some pm) =>
                      scanPlainDigitsLoopChecked data len fuel (st.1 + 1) (m ++ [pm])
                    | some none =>
                      scanPlainDigitsLoopChecked data len fuel (i + st.2 - 1 + 1) m
    else some m

/-- `scanPlainDigits` (lines 360-412) with checked reads. -/
def scanPlainDigitsChecked (data : List Nat) (len : Nat) (m : List PhoneMatch) :
    Option (List PhoneMatch) :=
  scanPlainDigitsLoopChecked data len len 0 m

/-! ## A text with eleven tied pairs of candidates -/

set_option maxRecDepth 8000 in
theorem charTable_length : charTable.length = 256 := by decide

theorem isDigit_iff (c : Nat) : isDigit c = true ↔ 48 ≤ c ∧ c ≤ 57 := by
  by_cases h : c < 256
  · interval_cases c <;> decide
  · have h1 : charTable.getD c 0 = 0 := by
      rw [List.getD_eq_default]
      rw [charTable_length]; omega
    have h2 : isDigit c = false := by
      unfold isDigit; rw [h1]; decide
    rw [h2]; constructor
    · intro h3; cases h3
    · intro h3; omega

theorem isDigit_getD_of_none (data : List Nat) (hd : ∀ c ∈ data, isDigit c = false) (j : Nat) :
    isDigit (data.getD j 0) = false := by
  by_cases h : j < data.length
  · rw [List.getD_eq_getElem data 0 h]
    exact hd _ (List.getElem_mem h)
  · rw [List.getD_eq_default _ _ (by omega)]
    decide

/-! ## The digit extractor -/

theorem extractDigitsLoop_eq (s acc : List Nat) :
    extractDigitsLoop s acc = acc ++ s.filter isDigit := by
  induction s generalizing acc with
  | nil => simp [extractDigitsLoop]
  | cons c rest ih =>
    rw [extractDigitsLoop]
    by_cases h : isDigit c = true
    · simp [h, ih]
    · simp [h, ih]

theorem extractDigits_eq_filter (s : List Nat) : extractDigits s = s.filter isDigit := by
  simp [extractDigits, extractDigitsLoop_eq]

theorem extractDigits_append (a b : List Nat) :
    extractDigits (a ++ b) = extractDigits a ++ extractDigits b := by
  simp [extractDigits_eq_filter]

theorem extractDigits_of_all (s : List Nat) (h : ∀ c ∈ s, isDigit c = true) :
    extractDigits s = s := by
  rw [extractDigits_eq_filter]
  exact List.filter_eq_self.2 h

theorem extractDigits_length_le (s : List Nat) : (extractDigits s).length ≤ s.length := by
  rw [extractDigits_eq_filter]
  exact List.length_filter_le _ _

/-! ## The merge loop -/

theorem mergeLoop_acc (l : List PhoneMatch) (lastEnd : Nat) (result : List PhoneMatch) :
    mergeLoop l lastEnd result = result ++ mergeLoop l lastEnd [] := by
  induction l generalizing lastEnd result with
  | nil => simp [mergeLoop]
  | cons x rest ih =>
    rw [mergeLoop, mergeLoop]
    by_cases h : x.position ≥ lastEnd
    · rw [if_pos h, if_pos h, ih _ (result ++ [x]), ih _ ([] ++ [x])]
      simp
    · rw [if_neg h, if_neg h, ih]

theorem mergeLoop_cons (x : PhoneMatch) (rest : List PhoneMatch) (lastEnd : Nat) :
    mergeLoop (x :: rest) lastEnd [] =
      if x.position ≥ lastEnd then x :: mergeLoop rest (x.position + x.value.length) []
      else mergeLoop rest lastEnd [] := by
  rw [mergeLoop]
  by_cases h : x.position ≥ lastEnd
  · rw [if_pos h, if_pos h, mergeLoop_acc]; rfl
  · rw [if_neg h, if_neg h]

/-- Every match that the merge loop keeps is one of its inputs and starts at
or after the `lastEnd` the loop was entered with. -/
theorem mem_mergeLoop (l : List PhoneMatch) (lastEnd : Nat) (y : PhoneMatch)
    (hy : y ∈ mergeLoop l lastEnd []) : y ∈ l ∧ lastEnd ≤ y.position := by
  induction l generalizing lastEnd with
  | nil => simp [mergeLoop] at hy
  | cons x rest ih =>
    rw [mergeLoop_cons] at hy
    by_cases h : x.position ≥ lastEnd
    · rw [if_pos h] at hy
      rcases List.mem_cons.1 hy with h1 | h1
      · subst h1
        exact ⟨List.mem_cons_self _ _, h⟩
      · have h2 := ih _ h1
        exact ⟨List.mem_cons_of_mem _ h2.1, by omega⟩
    · rw [if_neg h] at hy
      have h2 := ih _ hy
      exact ⟨List.mem_cons_of_mem _ h2.1, h2.2⟩

/-- Consecutive matches kept by the merge loop do not overlap. -/
theorem mergeLoop_chain (l : List PhoneMatch) (lastEnd : Nat) :
    List.Chain' (fun a b : PhoneMatch => a.position + a.value.length ≤ b.position)
      (mergeLoop l lastEnd []) := by
  induction l generalizing lastEnd with
  | nil => simp [mergeLoop]
  | cons x rest ih =>
    rw [mergeLoop_cons]
    by_cases h : x.position ≥ lastEnd
    · rw [if_pos h, List.chain'_cons']
      refine ⟨?_, ih _⟩
      intro y hy
      exact (mem_mergeLoop rest _ y (List.mem_of_mem_head? hy)).2
    · rw [if_neg h]
      exact ih _

/-- The matches kept by the merge loop have strictly ascending positions when
no input has an empty `value`. -/
theorem mergeLoop_pairwise (l : List PhoneMatch) (lastEnd : Nat)
    (hl : ∀ x ∈ l, 0 < x.value.length) :
    List.Pairwise (fun a b : PhoneMatch => a.position < b.position)
      (mergeLoop l lastEnd []) := by
  induction l generalizing lastEnd with
  | nil => simp [mergeLoop]
  | cons x rest ih =>
    have hrest : ∀ y ∈ rest, 0 < y.value.length := fun y hy => hl y (List.mem_cons_of_mem _ hy)
    rw [mergeLoop_cons]
    by_cases h : x.position ≥ lastEnd
    · rw [if_pos h, List.pairwise_cons]
      refine ⟨?_, ih _ hrest⟩
      intro y hy
      have h1 := (mem_mergeLoop rest _ y hy).2
      have h2 := hl x (List.mem_cons_self _ _)
      omega
    · rw [if_neg h]
      exact ih _ hrest

/-! ## The sort -/

theorem mem_insertByPosition (x y : PhoneMatch) (l : List PhoneMatch) :
    y ∈ insertByPosition x l ↔ y = x ∨ y ∈ l := by
  induction l with
  | nil => simp [insertByPosition]
  | cons z zs ih =>
    rw [insertByPosition]
    by_cases h : z.position < x.position
    · rw [if_pos h, List.mem_cons, ih, List.mem_cons]
      tauto
    · rw [if_neg h, List.mem_cons]

theorem mem_sortByPosition (y : PhoneMatch) (l : List PhoneMatch) :
    y ∈ sortByPosition l ↔ y ∈ l := by
  induction l with
  | nil => simp [sortByPosition]
  | cons x xs ih =>
    rw [sortByPosition, mem_insertByPosition, ih, List.mem_cons]

/-- A match of `extract` is a candidate of one of the three passes, and the
input passed the length gate of line 420. -/
theorem mem_extract (text : List Nat) (x : PhoneMatch) (hx : x ∈ extract text) :
    x ∈ candidates text ∧ MIN_DIGITS ≤ text.length ∧ text.length ≤ MAX_INPUT_SIZE := by
  unfold extract at hx
  dsimp only at hx
  split at hx
  · simp at hx
  · rename_i hlen
    simp only [Bool.or_eq_true, decide_eq_true_eq, not_or, not_lt] at hlen
    refine ⟨?_, hlen.2, hlen.1⟩
    split at hx
    · exact hx
    · exact (mem_sortByPosition _ _).1 (mem_mergeLoop _ _ _ hx).1

/-! ## Pass A: what is emitted -/

theorem mem_scanInternationalLoop (data : List Nat) (len fuel : Nat) :
    ∀ (i : Nat) (m : List PhoneMatch) (x : PhoneMatch),
      x ∈ scanInternationalLoop data len fuel i m → x ∈ m ∨ EmittedA data len x := by
  induction fuel with
  | zero =>
    intro i m x hx
    rw [scanInternationalLoop] at hx
    exact Or.inl hx
  | succ fuel ih =>
    intro i m x hx
    rw [scanInternationalLoop] at hx
    split at hx
    · rename_i hi
      split at hx
      · rename_i hplus
        dsimp only at hx
        simp only [Bool.and_eq_true, beq_iff_eq, decide_eq_true_eq] at hplus
        split at hx
        · rename_i hdig
          simp only [Bool.and_eq_true, decide_eq_true_eq, ge_iff_le] at hdig
          rcases ih _ _ _ hx with h | h
          · rcases List.mem_append.1 h with h | h
            · exact Or.inl h
            · right
              rw [List.mem_singleton] at h
              exact ⟨i, hi, hplus.1.1, hplus.1.2, hplus.2, hdig.1, hdig.2, h⟩
          · exact Or.inr h
        · exact ih _ _ _ hx
      · exact ih _ _ _ hx
    · exact Or.inl hx

/-- The `while` loop of Pass A lengthens the candidate by the bytes it
consumes, keeps what was already in it, and stays inside the input. -/
theorem scanInternationalWhile_spec (data : List Nat) (len fuel : Nat) :
    ∀ (i : Nat) (candidate : List Nat) (digitCount : Nat),
      (scanInternationalWhile data len fuel i candidate digitCount).1 + candidate.length =
        i + (scanInternationalWhile data len fuel i candidate digitCount).2.1.length ∧
      (i ≤ len → (scanInternationalWhile data len fuel i candidate digitCount).1 ≤ len) ∧
      ∃ t, (scanInternationalWhile data len fuel i candidate digitCount).2.1 = candidate ++ t := by
  induction fuel with
  | zero =>
    intro i candidate digitCount
    rw [scanInternationalWhile]
    exact ⟨rfl, fun h => h, [], by simp⟩
  | succ fuel ih =>
    intro i candidate digitCount
    rw [scanInternationalWhile]
    have step : ∀ dc : Nat, i < len →
        (scanInternationalWhile data len fuel (i + 1) (candidate ++ [data.getD i 0]) dc).1 +
            candidate.length =
          i + (scanInternationalWhile data len fuel (i + 1) (candidate ++ [data.getD i 0]) dc).2.1.length ∧
        (i ≤ len →
          (scanInternationalWhile data len fuel (i + 1) (candidate ++ [data.getD i 0]) dc).1 ≤ len) ∧
        ∃ t, (scanInternationalWhile data len fuel (i + 1) (candidate ++ [data.getD i 0]) dc).2.1 =
          candidate ++ t := by
      intro dc hi
      obtain ⟨h1, h2, t, h3⟩ := ih (i + 1) (candidate ++ [data.getD i 0]) dc
      refine ⟨?_, fun _ => h2 (by omega), [data.getD i 0] ++ t, by rw [h3]; simp⟩
      rw [List.length_append, List.length_singleton] at h1
      omega
    split
    · rename_i hc
      simp only [Bool.and_eq_true, decide_eq_true_eq] at hc
      split
      · exact step _ hc.1
      · split
        · exact step _ hc.1
        · split
          · exact step _ hc.1
          · exact ⟨rfl, fun h => h, [], by simp⟩
    · exact ⟨rfl, fun h => h, [], by simp⟩

/-! ## The validators as predicates -/

theorem formattedDomestic_isValid_iff (phone : List Nat) :
    FormattedDomesticValidator.isValid phone = true ↔
      (extractDigits phone).length = 10 ∧ (extractDigits phone).getD 0 0 ≠ 48 ∧
        50 ≤ (extractDigits phone).getD 3 0 := by
  unfold FormattedDomesticValidator.isValid
  dsimp only
  generalize extractDigits phone = d
  generalize d.getD 0 0 = a
  generalize d.getD 3 0 = b
  split_ifs with h1 h2 h3 <;> simp_all

theorem internationalPlus_isValid_iff (phone : List Nat) :
    InternationalPlusValidator.isValid phone = true ↔
      phone ≠ [] ∧ phone.getD 0 0 = 43 ∧ 7 ≤ (extractDigits phone).length ∧
        (extractDigits phone).length ≤ 15 := by
  unfold InternationalPlusValidator.isValid
  dsimp only
  generalize extractDigits phone = d
  generalize phone.getD 0 0 = a
  split_ifs with h1 h2
  · simp_all
    intro h3 h4
    rcases h1 with h1 | h1
    · exact absurd h1 h3
    · exact absurd h4 h1
  · simp_all
    omega
  · simp_all

theorem mobileDigit_isValid_iff (phone : List Nat) :
    MobileDigitValidator.isValid phone = true ↔
      ((extractDigits phone).length = 10 ∧ 49 ≤ (extractDigits phone).getD 0 0 ∧
          (extractDigits phone).getD 0 0 ≤ 57) ∨
      ((extractDigits phone).length = 12 ∧ (extractDigits phone).getD 0 0 = 57 ∧
          (extractDigits phone).getD 1 0 = 49 ∧ 49 ≤ (extractDigits phone).getD 2 0 ∧
          (extractDigits phone).getD 2 0 ≤ 57) := by
  unfold MobileDigitValidator.isValid
  dsimp only
  generalize extractDigits phone = d
  generalize d.getD 0 0 = a
  generalize d.getD 1 0 = b
  generalize d.getD 2 0 = c
  split_ifs with h1 h2
  · simp_all
  · simp_all
    tauto
  · simp_all

theorem plainDigit_isValid_ten_iff (phone : List Nat) :
    PlainDigitValidator.isValid 10 phone = true ↔
      phone.length = 10 ∧ (∀ c ∈ phone, isDigit c = true) ∧ phone.getD 0 0 ≠ 48 ∧
        50 ≤ phone.getD 3 0 := by
  unfold PlainDigitValidator.isValid
  generalize phone.getD 0 0 = a
  generalize phone.getD 3 0 = b
  generalize phone.getD 1 0 = c
  split_ifs with h1 h2 h3 h4 h5 <;> simp_all

theorem plainDigit_isValid_eleven_iff (phone : List Nat) :
    PlainDigitValidator.isValid 11 phone = true ↔
      phone.length = 11 ∧ (∀ c ∈ phone, isDigit c = true) ∧ phone.getD 0 0 = 49 ∧
        phone.getD 1 0 ≠ 48 := by
  unfold PlainDigitValidator.isValid
  generalize phone.getD 0 0 = a
  generalize phone.getD 3 0 = b
  generalize phone.getD 1 0 = c
  split_ifs with h1 h2 h3 h4 h5 <;> simp_all

/-! ## What every candidate satisfies -/

theorem good_of_emittedA (data : List Nat) (len : Nat) (x : PhoneMatch)
    (hx : EmittedA data len x) : Good len x := by
  obtain ⟨i, _, _, hi1, _, hmin, hmax, rfl⟩ := hx
  obtain ⟨h1, h2, t, h3⟩ := scanInternationalWhile_spec data len MAX_PHONE_LENGTH (i + 1) [43] 0
  have h4 := h2 (by omega)
  rw [List.length_singleton] at h1
  unfold MIN_DIGITS at hmin
  unfold MAX_DIGITS at hmax
  generalize scanInternationalWhile data len MAX_PHONE_LENGTH (i + 1) [43] 0 = st at *
  refine ⟨?_, rfl, ?_, ?_⟩
  · dsimp only
    omega
  · show InternationalPlusValidator.isValid st.2.1 = true
    unfold InternationalPlusValidator.isValid
    have e1 : st.2.1.isEmpty = false := by rw [h3]; rfl
    have e2 : st.2.1.getD 0 0 = 43 := by rw [h3]; rfl
    rw [e1, e2]
    simp
    omega
  · dsimp only
    rw [h3]; simp

/-! ## Pass B: what is emitted -/

theorem mem_scanFormattedNumbersLoop (data : List Nat) (len fuel : Nat) :
    ∀ (i : Nat) (m : List PhoneMatch) (x : PhoneMatch),
      x ∈ scanFormattedNumbersLoop data len fuel i m → x ∈ m ∨ EmittedB data len x := by
  induction fuel with
  | zero =>
    intro i m x hx
    rw [scanFormattedNumbersLoop] at hx
    exact Or.inl hx
  | succ fuel ih =>
    intro i m x hx
    rw [scanFormattedNumbersLoop] at hx
    split at hx
    · rename_i hi
      split at hx
      · rename_i pm e hp
        rcases ih _ _ _ hx with h | h
        · rcases List.mem_append.1 h with h | h
          · exact Or.inl h
          · rw [List.mem_singleton] at h
            subst h
            exact Or.inr ⟨i, hi, Or.inl ⟨e, hp⟩⟩
        · exact Or.inr h
      · split at hx
        · rename_i hd
          simp only [Bool.and_eq_true] at hd
          split at hx
          · rename_i pm i1 hr
            rcases ih _ _ _ hx with h | h
            · rcases List.mem_append.1 h with h | h
              · exact Or.inl h
              · rw [List.mem_singleton] at h
                subst h
                exact Or.inr ⟨i, hi, Or.inr ⟨hd.1, i1, hr⟩⟩
            · exact Or.inr h
          · exact ih _ _ _ hx
        · exact ih _ _ _ hx
    · exact Or.inl hx

/-- The `while` loop of the parenthesized block lengthens the candidate by the
bytes it consumes and stays inside the input. -/
theorem parenWhile_spec (data : List Nat) (len fuel : Nat) :
    ∀ (e : Nat) (candidate : List Nat) (digitCount : Nat),
      (parenWhile data len fuel e candidate digitCount).1 + candidate.length =
        e + (parenWhile data len fuel e candidate digitCount).2.1.length ∧
      (e ≤ len → (parenWhile data len fuel e candidate digitCount).1 ≤ len) := by
  induction fuel with
  | zero =>
    intro e candidate digitCount
    rw [parenWhile]
    exact ⟨rfl, fun h => h⟩
  | succ fuel ih =>
    intro e candidate digitCount
    rw [parenWhile]
    have step : ∀ dc : Nat, e < len →
        (parenWhile data len fuel (e + 1) (candidate ++ [data.getD e 0]) dc).1 + candidate.length =
          e + (parenWhile data len fuel (e + 1) (candidate ++ [data.getD e 0]) dc).2.1.length ∧
        (e ≤ len → (parenWhile data len fuel (e + 1) (candidate ++ [data.getD e 0]) dc).1 ≤ len) := by
      intro dc he
      obtain ⟨h1, h2⟩ := ih (e + 1) (candidate ++ [data.getD e 0]) dc
      refine ⟨?_, fun _ => h2 (by omega)⟩
      rw [List.length_append, List.length_singleton] at h1
      omega
    split
    · rename_i hc
      simp only [Bool.and_eq_true, decide_eq_true_eq] at hc
      split
      · exact step _ hc.1.1
      · split
        · exact step _ hc.1.1
        · exact ⟨rfl, fun h => h⟩
    · exact ⟨rfl, fun h => h⟩

theorem good_of_parenCandidate (data : List Nat) (len i e : Nat) (x : PhoneMatch)
    (hx : parenCandidate data len i = some (x, e)) : Good len x := by
  unfold parenCandidate at hx
  split at hx
  · rename_i h0
    simp only [Bool.and_eq_true, beq_iff_eq, decide_eq_true_eq] at h0
    split at hx
    · dsimp only at hx
      split at hx
      · split at hx
        · rename_i hd
          simp only [Bool.and_eq_true, beq_iff_eq, bne_iff_ne, ne_eq, decide_eq_true_eq,
            ge_iff_le] at hd
          obtain ⟨h1, h2⟩ := parenWhile_spec data len MAX_PHONE_LENGTH (i + 6)
            ([40] ++ [data.getD (i + 1) 0] ++ [data.getD (i + 2) 0] ++ [data.getD (i + 3) 0] ++
              [41, 32]) 0
          have h3 := h2 (by omega)
          have h4 : ([40] ++ [data.getD (i + 1) 0] ++ [data.getD (i + 2) 0] ++
              [data.getD (i + 3) 0] ++ [41, 32]).length = 6 := by simp
          rw [h4] at h1
          generalize parenWhile data len MAX_PHONE_LENGTH (i + 6)
            ([40] ++ [data.getD (i + 1) 0] ++ [data.getD (i + 2) 0] ++ [data.getD (i + 3) 0] ++
              [41, 32]) 0 = st at *
          have h5 := extractDigits_length_le st.2.1
          simp only [Option.some.injEq, Prod.mk.injEq] at hx
          obtain ⟨rfl, _⟩ := hx
          refine ⟨?_, rfl, ?_, ?_⟩
          · dsimp only
            omega
          · show FormattedDomesticValidator.isValid st.2.1 = true
            rw [formattedDomestic_isValid_iff]
            exact ⟨hd.1.1, hd.1.2, hd.2⟩
          · dsimp only
            omega
        · cases hx
      · cases hx
    · cases hx
  · cases hx

theorem extractDigits_snoc_digit (c : List Nat) (d : Nat) (hd : isDigit d = true) :
    (extractDigits (c ++ [d])).length = (extractDigits c).length + 1 := by
  simp [extractDigits_eq_filter, List.filter_cons, hd]

theorem extractDigits_snoc_other (c : List Nat) (d : Nat) (hd : ¬ isDigit d = true) :
    extractDigits (c ++ [d]) = extractDigits c := by
  simp [extractDigits_eq_filter, List.filter_cons, hd]

/-- The `while` loop of the consistent-separator block lengthens the candidate
by the bytes it consumes, stays inside the input, and keeps `digitCount` equal
to the number of digits in the candidate. -/
theorem runWhile_spec (data : List Nat) (len fuel : Nat) :
    ∀ s : RunState,
      (runWhile data len fuel s).i + s.candidate.length =
        s.i + (runWhile data len fuel s).candidate.length ∧
      (s.i ≤ len → (runWhile data len fuel s).i ≤ len) ∧
      ((extractDigits s.candidate).length = s.digitCount →
        (extractDigits (runWhile data len fuel s).candidate).length =
          (runWhile data len fuel s).digitCount) := by
  induction fuel with
  | zero =>
    intro s
    rw [runWhile]
    exact ⟨rfl, fun h => h, fun h => h⟩
  | succ fuel ih =>
    intro s
    rw [runWhile]
    split
    · rename_i hc
      simp only [Bool.and_eq_true, decide_eq_true_eq] at hc
      split
      · rename_i hdig
        obtain ⟨h1, h2, h3⟩ := ih ⟨s.i + 1, s.candidate ++ [data.getD s.i 0], s.digitCount + 1,
          s.separator, s.hasSeparator⟩
        dsimp only at h1 h2 h3
        rw [List.length_append, List.length_singleton] at h1
        refine ⟨by omega, fun _ => h2 (by omega), fun h => h3 ?_⟩
        rw [extractDigits_snoc_digit _ _ hdig, h]
      · rename_i hdig
        split
        · dsimp only
          generalize (if (s.separator == 0) = true then data.getD s.i 0 else s.separator) = sep
          split
          · obtain ⟨h1, h2, h3⟩ := ih ⟨s.i + 1, s.candidate ++ [data.getD s.i 0], s.digitCount,
              sep, true⟩
            dsimp only at h1 h2 h3
            rw [List.length_append, List.length_singleton] at h1
            refine ⟨by omega, fun _ => h2 (by omega), fun h => h3 ?_⟩
            rw [extractDigits_snoc_other _ _ hdig, h]
          · exact ⟨rfl, fun h => h, fun h => h⟩
        · exact ⟨rfl, fun h => h, fun h => h⟩
    · exact ⟨rfl, fun h => h, fun h => h⟩

theorem good_of_runCandidate (data : List Nat) (len i i1 : Nat) (x : PhoneMatch) (hi : i < len)
    (hx : runCandidate data len i = some (x, i1)) : Good len x := by
  unfold runCandidate at hx
  dsimp only at hx
  obtain ⟨h1, h2, h3⟩ := runWhile_spec data len MAX_PHONE_LENGTH ⟨i, [], 0, 0, false⟩
  dsimp only at h1 h2 h3
  have h4 := h2 (by omega)
  have h5 := h3 rfl
  rw [List.length_nil] at h1
  generalize runWhile data len MAX_PHONE_LENGTH ⟨i, [], 0, 0, false⟩ = s at *
  have h6 := extractDigits_length_le s.candidate
  split at hx
  · rename_i hs
    simp only [Bool.and_eq_true, decide_eq_true_eq, ge_iff_le] at hs
    split at hx
    · rename_i hm
      simp only [Bool.and_eq_true, beq_iff_eq, decide_eq_true_eq, ge_iff_le] at hm
      simp only [Option.some.injEq, Prod.mk.injEq] at hx
      obtain ⟨rfl, _⟩ := hx
      refine ⟨?_, rfl, ?_, ?_⟩
      · dsimp only
        omega
      · show MobileDigitValidator.isValid s.candidate = true
        rw [mobileDigit_isValid_iff]
        exact Or.inl ⟨by omega, hm.1.2, hm.2⟩
      · dsimp only
        omega
    · split at hx
      · rename_i hm
        simp only [Bool.and_eq_true, beq_iff_eq, bne_iff_ne, ne_eq, decide_eq_true_eq,
          ge_iff_le] at hm
        simp only [Option.some.injEq, Prod.mk.injEq] at hx
        obtain ⟨rfl, _⟩ := hx
        refine ⟨?_, rfl, ?_, ?_⟩
        · dsimp only
          omega
        · show FormattedDomesticValidator.isValid s.candidate = true
          rw [formattedDomestic_isValid_iff]
          exact ⟨by omega, hm.1.2, hm.2⟩
        · dsimp only
          omega
      · split at hx
        · rename_i hm
          simp only [Bool.and_eq_true, beq_iff_eq, bne_iff_ne, ne_eq] at hm
          simp only [Option.some.injEq, Prod.mk.injEq] at hx
          obtain ⟨rfl, _⟩ := hx
          refine ⟨?_, rfl, ?_, ?_⟩
          · dsimp only
            omega
          · show ((extractDigits s.candidate).length == 11 &&
              (extractDigits s.candidate).getD 0 0 == 49 &&
              (extractDigits s.candidate).getD 1 0 != 48) = true
            simp only [Bool.and_eq_true, beq_iff_eq, bne_iff_ne, ne_eq]
            exact ⟨⟨by omega, hm.1.2⟩, hm.2⟩
          · dsimp only
            omega
        · cases hx
  · cases hx

theorem good_of_emittedB (data : List Nat) (len : Nat) (x : PhoneMatch)
    (hx : EmittedB data len x) : Good len x := by
  obtain ⟨i, hi, ⟨e, h⟩ | ⟨_, i1, h⟩⟩ := hx
  · exact good_of_parenCandidate data len i e x h
  · exact good_of_runCandidate data len i i1 x hi h

/-! ## Pass C: what is emitted -/

theorem mem_scanPlainDigitsLoop (data : List Nat) (len fuel : Nat) :
    ∀ (i : Nat) (m : List PhoneMatch) (x : PhoneMatch),
      x ∈ scanPlainDigitsLoop data len fuel i m → x ∈ m ∨ EmittedC data len x := by
  induction fuel with
  | zero =>
    intro i m x hx
    rw [scanPlainDigitsLoop] at hx
    exact Or.inl hx
  | succ fuel ih =>
    intro i m x hx
    rw [scanPlainDigitsLoop] at hx
    split at hx
    · rename_i hi
      split at hx
      · exact ih _ _ _ hx
      · rename_i hd
        simp only [Bool.not_eq_true, Bool.not_eq_false, Bool.not_eq_true'] at hd
        split at hx
        · exact ih _ _ _ hx
        · dsimp only at hx
          split at hx
          · exact ih _ _ _ hx
          · split at hx
            · rename_i pm hp
              rcases ih _ _ _ hx with h | h
              · rcases List.mem_append.1 h with h | h
                · exact Or.inl h
                · rw [List.mem_singleton] at h
                  subst h
                  exact Or.inr ⟨i, hi, hd, hp⟩
              · exact Or.inr h
            · exact ih _ _ _ hx
    · exact Or.inl hx

/-- The `while` loop of Pass C counts the bytes it consumes, stays inside the
input, and consumes digits only. -/
theorem digitRunWhile_spec (data : List Nat) (len fuel : Nat) :
    ∀ (i digitCount : Nat),
      (digitRunWhile data len fuel i digitCount).1 + digitCount =
        i + (digitRunWhile data len fuel i digitCount).2 ∧
      (i ≤ len → (digitRunWhile data len fuel i digitCount).1 ≤ len) ∧
      ∀ j, i ≤ j → j < (digitRunWhile data len fuel i digitCount).1 →
        isDigit (data.getD j 0) = true := by
  induction fuel with
  | zero =>
    intro i digitCount
    rw [digitRunWhile]
    exact ⟨rfl, fun h => h, fun j h1 h2 => absurd h2 (by dsimp only; omega)⟩
  | succ fuel ih =>
    intro i digitCount
    rw [digitRunWhile]
    split
    · rename_i hc
      simp only [Bool.and_eq_true, decide_eq_true_eq] at hc
      obtain ⟨h1, h2, h3⟩ := ih (i + 1) (digitCount + 1)
      refine ⟨by omega, fun _ => h2 (by omega), ?_⟩
      intro j hj1 hj2
      by_cases hij : j = i
      · rw [hij]; exact hc.2
      · exact h3 j (by omega) hj2
    · exact ⟨rfl, fun h => h, fun j h1 h2 => absurd h2 (by dsimp only; omega)⟩

theorem mem_take_drop (data : List Nat) (a n c : Nat) (h : c ∈ (data.drop a).take n) :
    ∃ j, a ≤ j ∧ j < a + n ∧ data.getD j 0 = c := by
  obtain ⟨k, hk, rfl⟩ := List.mem_iff_getElem.1 h
  rw [List.length_take, List.length_drop] at hk
  refine ⟨a + k, by omega, by omega, ?_⟩
  rw [List.getElem_take, List.getElem_drop]
  exact List.getD_eq_getElem _ _ _

theorem good_of_emittedC (data : List Nat) (len : Nat) (x : PhoneMatch)
    (hlen : len ≤ data.length) (hx : EmittedC data len x) : Good len x := by
  obtain ⟨i, hi, _, hp⟩ := hx
  obtain ⟨h1, h2, h3⟩ := digitRunWhile_spec data len len i 0
  have h4 := h2 (by omega)
  generalize digitRunWhile data len len i 0 = st at *
  have hcl : ((data.drop i).take st.2).length = st.2 := by
    rw [List.length_take, List.length_drop]; omega
  have hall : ∀ c ∈ (data.drop i).take st.2, isDigit c = true := by
    intro c hc
    obtain ⟨j, hj1, hj2, rfl⟩ := mem_take_drop data i st.2 c hc
    exact h3 j hj1 (by omega)
  have hex := extractDigits_of_all _ hall
  unfold plainCandidate at hp
  dsimp only at hp
  generalize (data.drop i).take st.2 = cand at *
  split at hp
  · rename_i h10
    simp only [beq_iff_eq] at h10
    split at hp
    · rename_i hm
      simp only [Bool.and_eq_true, decide_eq_true_eq, ge_iff_le] at hm
      cases hp
      refine ⟨by dsimp only; omega, hex.symm, ?_, by dsimp only; omega⟩
      show MobileDigitValidator.isValid cand = true
      rw [mobileDigit_isValid_iff, hex]
      exact Or.inl ⟨by omega, by omega, hm.2⟩
    · split at hp
      · rename_i hm
        simp only [Bool.and_eq_true, decide_eq_true_eq, ge_iff_le] at hm
        cases hp
        refine ⟨by dsimp only; omega, hex.symm, ?_, by dsimp only; omega⟩
        show PlainDigitValidator.isValid 10 cand = true
        rw [plainDigit_isValid_ten_iff]
        exact ⟨by omega, hall, by omega, hm.2⟩
      · split at hp
        · rename_i hm
          simp only [beq_iff_eq] at hm
          cases hp
          refine ⟨by dsimp only; omega, hex.symm, ?_, by dsimp only; omega⟩
          show MobileDigitValidator.isValid cand = true
          rw [mobileDigit_isValid_iff, hex]
          exact Or.inl ⟨by omega, by omega, by omega⟩
        · cases hp
  · split at hp
    · rename_i h11
      simp only [beq_iff_eq] at h11
      split at hp
      · rename_i hm
        simp only [Bool.and_eq_true, beq_iff_eq, bne_iff_ne, ne_eq] at hm
        cases hp
        refine ⟨by dsimp only; omega, hex.symm, ?_, by dsimp only; omega⟩
        show PlainDigitValidator.isValid 11 cand = true
        rw [plainDigit_isValid_eleven_iff]
        exact ⟨by omega, hall, hm.1, hm.2⟩
      · cases hp
    · cases hp

/-! ## The candidates of `extract` -/

theorem mem_candidates (text : List Nat) (x : PhoneMatch) (hx : x ∈ candidates text) :
    EmittedA text text.length x ∨ EmittedB text text.length x ∨ EmittedC text text.length x := by
  unfold candidates scanPlainDigits scanFormattedNumbers scanInternational at hx
  rcases mem_scanPlainDigitsLoop _ _ _ _ _ _ hx with h | h
  · rcases mem_scanFormattedNumbersLoop _ _ _ _ _ _ h with h | h
    · rcases mem_scanInternationalLoop _ _ _ _ _ _ h with h | h
      · simp at h
      · exact Or.inl h
    · exact Or.inr (Or.inl h)
  · exact Or.inr (Or.inr h)

theorem good_of_mem_candidates (text : List Nat) (x : PhoneMatch) (hx : x ∈ candidates text) :
    Good text.length x := by
  rcases mem_candidates text x hx with h | h | h
  · exact good_of_emittedA _ _ _ h
  · exact good_of_emittedB _ _ _ h
  · exact good_of_emittedC _ _ _ (Nat.le_refl _) h

theorem good_of_mem_extract (text : List Nat) (x : PhoneMatch) (hx : x ∈ extract text) :
    Good text.length x :=
  good_of_mem_candidates text x (mem_extract text x hx).1

/-- Without a digit in the input no pass emits a candidate. -/
theorem candidates_eq_nil_of_no_digit (text : List Nat)
    (hd : ∀ c ∈ text, isDigit c = false) : candidates text = [] := by
  rw [List.eq_nil_iff_forall_not_mem]
  intro x hx
  have hno := isDigit_getD_of_none text hd
  rcases mem_candidates text x hx with h | h | h
  · obtain ⟨i, _, _, _, h1, _⟩ := h
    rw [hno] at h1; cases h1
  · obtain ⟨i, _, ⟨e, h1⟩ | ⟨h1, _⟩⟩ := h
    · unfold parenCandidate at h1
      rw [hno (i + 1)] at h1
      simp at h1
    · rw [hno] at h1; cases h1
  · obtain ⟨i, _, h1, _⟩ := h
    rw [hno] at h1; cases h1

/-! ## The tie-break of the merge -/

theorem insertByPosition_sorted (x : PhoneMatch) (l : List PhoneMatch)
    (hl : List.Pairwise (fun a b : PhoneMatch => a.position ≤ b.position) l) :
    List.Pairwise (fun a b : PhoneMatch => a.position ≤ b.position) (insertByPosition x l) := by
  induction l with
  | nil => simp [insertByPosition]
  | cons y ys ih =>
    rw [insertByPosition]
    rw [List.pairwise_cons] at hl
    by_cases h : y.position < x.position
    · rw [if_pos h, List.pairwise_cons]
      refine ⟨?_, ih hl.2⟩
      intro z hz
      rcases (mem_insertByPosition x z ys).1 hz with hz | hz
      · rw [hz]; omega
      · exact hl.1 z hz
    · rw [if_neg h, List.pairwise_cons]
      refine ⟨?_, List.pairwise_cons.2 hl⟩
      intro z hz
      rcases List.mem_cons.1 hz with hz | hz
      · rw [hz]; omega
      · have := hl.1 z hz
        omega

/-- The sort orders the candidates by ascending position. -/
theorem sortByPosition_sorted (l : List PhoneMatch) :
    List.Pairwise (fun a b : PhoneMatch => a.position ≤ b.position) (sortByPosition l) := by
  induction l with
  | nil => simp [sortByPosition]
  | cons x xs ih =>
    rw [sortByPosition]
    exact insertByPosition_sorted x _ ih

theorem scanInternationalWhile_fuel (data : List Nat) (len : Nat) :
    ∀ (fuel fuel1 i : Nat) (candidate : List Nat) (digitCount : Nat),
      MAX_PHONE_LENGTH ≤ fuel + candidate.length →
      MAX_PHONE_LENGTH ≤ fuel1 + candidate.length →
      scanInternationalWhile data len fuel i candidate digitCount =
        scanInternationalWhile data len fuel1 i candidate digitCount := by
  intro fuel
  induction fuel with
  | zero =>
    intro fuel1 i candidate digitCount h _
    cases fuel1 with
    | zero => rfl
    | succ f =>
      rw [scanInternationalWhile, scanInternationalWhile, if_neg]
      simp only [Bool.and_eq_true, decide_eq_true_eq]
      omega
  | succ fuel ih =>
    intro fuel1 i candidate digitCount h h1
    cases fuel1 with
    | zero =>
      rw [scanInternationalWhile, scanInternationalWhile, if_neg]
      simp only [Bool.and_eq_true, decide_eq_true_eq]
      omega
    | succ f =>
      rw [scanInternationalWhile, scanInternationalWhile]
      have step : ∀ dc, scanInternationalWhile data len fuel (i + 1)
            (candidate ++ [data.getD i 0]) dc =
          scanInternationalWhile data len f (i + 1) (candidate ++ [data.getD i 0]) dc := by
        intro dc
        apply ih <;> (rw [List.length_append, List.length_singleton]; omega)
      rw [step, step]

theorem parenWhile_fuel (data : List Nat) (len : Nat) :
    ∀ (fuel fuel1 e : Nat) (candidate : List Nat) (digitCount : Nat),
      MAX_PHONE_LENGTH ≤ fuel + candidate.length →
      MAX_PHONE_LENGTH ≤ fuel1 + candidate.length →
      parenWhile data len fuel e candidate digitCount =
        parenWhile data len fuel1 e candidate digitCount := by
  intro fuel
  induction fuel with
  | zero =>
    intro fuel1 e candidate digitCount h _
    cases fuel1 with
    | zero => rfl
    | succ f =>
      rw [parenWhile, parenWhile, if_neg]
      simp only [Bool.and_eq_true, decide_eq_true_eq]
      omega
  | succ fuel ih =>
    intro fuel1 e candidate digitCount h h1
    cases fuel1 with
    | zero =>
      rw [parenWhile, parenWhile, if_neg]
      simp only [Bool.and_eq_true, decide_eq_true_eq]
      omega
    | succ f =>
      rw [parenWhile, parenWhile]
      have step : ∀ dc, parenWhile data len fuel (e + 1) (candidate ++ [data.getD e 0]) dc =
          parenWhile data len f (e + 1) (candidate ++ [data.getD e 0]) dc := by
        intro dc
        apply ih <;> (rw [List.length_append, List.length_singleton]; omega)
      rw [step, step]

theorem runWhile_fuel (data : List Nat) (len : Nat) :
    ∀ (fuel fuel1 : Nat) (s : RunState),
      MAX_PHONE_LENGTH ≤ fuel + s.candidate.length →
      MAX_PHONE_LENGTH ≤ fuel1 + s.candidate.length →
      runWhile data len fuel s = runWhile data len fuel1 s := by
  intro fuel
  induction fuel with
  | zero =>
    intro fuel1 s h _
    cases fuel1 with
    | zero => rfl
    | succ f =>
      rw [runWhile, runWhile, if_neg]
      simp only [Bool.and_eq_true, decide_eq_true_eq]
      omega
  | succ fuel ih =>
    intro fuel1 s h h1
    cases fuel1 with
    | zero =>
      rw [runWhile, runWhile, if_neg]
      simp only [Bool.and_eq_true, decide_eq_true_eq]
      omega
    | succ f =>
      rw [runWhile, runWhile]
      have step : ∀ dc sep hs, runWhile data len fuel
            ⟨s.i + 1, s.candidate ++ [data.getD s.i 0], dc, sep, hs⟩ =
          runWhile data len f ⟨s.i + 1, s.candidate ++ [data.getD s.i 0], dc, sep, hs⟩ := by
        intro dc sep hs
        apply ih <;> (dsimp only; rw [List.length_append, List.length_singleton]; omega)
      dsimp only
      rw [step, step]

theorem digitRunWhile_fuel (data : List Nat) (len : Nat) :
    ∀ (fuel fuel1 i digitCount : Nat), len ≤ fuel + i → len ≤ fuel1 + i →
      digitRunWhile data len fuel i digitCount = digitRunWhile data len fuel1 i digitCount := by
  intro fuel
  induction fuel with
  | zero =>
    intro fuel1 i digitCount h _
    cases fuel1 with
    | zero => rfl
    | succ f =>
      rw [digitRunWhile, digitRunWhile, if_neg]
      simp only [Bool.and_eq_true, decide_eq_true_eq]
      omega
  | succ fuel ih =>
    intro fuel1 i digitCount h h1
    cases fuel1 with
    | zero =>
      rw [digitRunWhile, digitRunWhile, if_neg]
      simp only [Bool.and_eq_true, decide_eq_true_eq]
      omega
    | succ f =>
      rw [digitRunWhile, digitRunWhile, ih f (i + 1) (digitCount + 1) (by omega) (by omega)]

theorem scanInternationalWhile_progress (data : List Nat) (len fuel i : Nat) :
    i + 1 ≤ (scanInternationalWhile data len fuel (i + 1) [43] 0).1 := by
  obtain ⟨h1, _, t, h3⟩ := scanInternationalWhile_spec data len fuel (i + 1) [43] 0
  rw [h3, List.length_append, List.length_singleton] at h1
  omega

theorem scanInternationalLoop_fuel (data : List Nat) (len : Nat) :
    ∀ (fuel fuel1 i : Nat) (m : List PhoneMatch), len ≤ fuel + i → len ≤ fuel1 + i →
      scanInternationalLoop data len fuel i m = scanInternationalLoop data len fuel1 i m := by
  intro fuel
  induction fuel with
  | zero =>
    intro fuel1 i m h _
    cases fuel1 with
    | zero => rfl
    | succ f => rw [scanInternationalLoop, scanInternationalLoop, if_neg (by omega)]
  | succ fuel ih =>
    intro fuel1 i m h h1
    cases fuel1 with
    | zero => rw [scanInternationalLoop, scanInternationalLoop, if_neg (by omega)]
    | succ f =>
      have step : ∀ j m1, i + 1 ≤ j →
          scanInternationalLoop data len fuel j m1 = scanInternationalLoop data len f j m1 :=
        fun j m1 hj => ih f j m1 (by omega) (by omega)
      have hp := scanInternationalWhile_progress data len MAX_PHONE_LENGTH i
      rw [scanInternationalLoop, scanInternationalLoop]
      dsimp only
      rw [step _ _ (Nat.le_refl _), step _ _ (by omega)]

/-- Running `scanInternational` with more fuel than `len` changes nothing. -/
theorem scanInternational_fuel (data : List Nat) (len fuel : Nat) (m : List PhoneMatch)
    (h : len ≤ fuel) : scanInternationalLoop data len fuel 0 m = scanInternational data len m :=
  scanInternationalLoop_fuel data len fuel len 0 m (by omega) (by omega)

theorem parenCandidate_progress (data : List Nat) (len i e : Nat) (x : PhoneMatch)
    (hx : parenCandidate data len i = some (x, e)) : i + 1 ≤ e - 1 + 1 := by
  unfold parenCandidate at hx
  obtain ⟨h1, _⟩ := parenWhile_spec data len MAX_PHONE_LENGTH (i + 6)
    ([40] ++ [data.getD (i + 1) 0] ++ [data.getD (i + 2) 0] ++ [data.getD (i + 3) 0] ++
      [41, 32]) 0
  have h4 : ([40] ++ [data.getD (i + 1) 0] ++ [data.getD (i + 2) 0] ++
      [data.getD (i + 3) 0] ++ [41, 32]).length = 6 := by simp
  rw [h4] at h1
  generalize parenWhile data len MAX_PHONE_LENGTH (i + 6)
    ([40] ++ [data.getD (i + 1) 0] ++ [data.getD (i + 2) 0] ++ [data.getD (i + 3) 0] ++
      [41, 32]) 0 = st at *
  have h5 := extractDigits_length_le st.2.1
  split at hx
  · split at hx
    · dsimp only at hx
      split at hx
      · split at hx
        · rename_i hd
          simp only [Bool.and_eq_true, beq_iff_eq, bne_iff_ne, ne_eq, decide_eq_true_eq,
            ge_iff_le] at hd
          simp only [Option.some.injEq, Prod.mk.injEq] at hx
          obtain ⟨_, rfl⟩ := hx
          omega
        · cases hx
      · cases hx
    · cases hx
  · cases hx

theorem runCandidate_progress (data : List Nat) (len i i1 : Nat) (x : PhoneMatch)
    (hx : runCandidate data len i = some (x, i1)) : i ≤ i1 := by
  unfold runCandidate at hx
  dsimp only at hx
  obtain ⟨h1, _, _⟩ := runWhile_spec data len MAX_PHONE_LENGTH ⟨i, [], 0, 0, false⟩
  dsimp only at h1
  rw [List.length_nil] at h1
  generalize runWhile data len MAX_PHONE_LENGTH ⟨i, [], 0, 0, false⟩ = s at *
  split at hx
  · split at hx
    · simp only [Option.some.injEq, Prod.mk.injEq] at hx
      obtain ⟨_, rfl⟩ := hx
      omega
    · split at hx
      · simp only [Option.some.injEq, Prod.mk.injEq] at hx
        obtain ⟨_, rfl⟩ := hx
        omega
      · split at hx
        · simp only [Option.some.injEq, Prod.mk.injEq] at hx
          obtain ⟨_, rfl⟩ := hx
          omega
        · cases hx
  · cases hx

theorem scanFormattedNumbersLoop_fuel (data : List Nat) (len : Nat) :
    ∀ (fuel fuel1 i : Nat) (m : List PhoneMatch), len ≤ fuel + i → len ≤ fuel1 + i →
      scanFormattedNumbersLoop data len fuel i m =
        scanFormattedNumbersLoop data len fuel1 i m := by
  intro fuel
  induction fuel with
  | zero =>
    intro fuel1 i m h _
    cases fuel1 with
    | zero => rfl
    | succ f => rw [scanFormattedNumbersLoop, scanFormattedNumbersLoop, if_neg (by omega)]
  | succ fuel ih =>
    intro fuel1 i m h h1
    cases fuel1 with
    | zero => rw [scanFormattedNumbersLoop, scanFormattedNumbersLoop, if_neg (by omega)]
    | succ f =>
      have step : ∀ j m1, i + 1 ≤ j →
          scanFormattedNumbersLoop data len fuel j m1 =
            scanFormattedNumbersLoop data len f j m1 :=
        fun j m1 hj => ih f j m1 (by omega) (by omega)
      rw [scanFormattedNumbersLoop, scanFormattedNumbersLoop, step _ _ (Nat.le_refl _)]
      cases hp : parenCandidate data len i with
      | some r =>
        obtain ⟨pm, e⟩ := r
        dsimp only
        rw [step _ _ (parenCandidate_progress data len i e pm hp)]
      | none =>
        dsimp only
        cases hr : runCandidate data len i with
        | some r =>
          obtain ⟨pm, i1⟩ := r
          dsimp only
          have := runCandidate_progress data len i i1 pm hr
          rw [step _ _ (by omega)]
        | none => rfl

/-- Running `scanFormattedNumbers` with more fuel than `len` changes nothing. -/
theorem scanFormattedNumbers_fuel (data : List Nat) (len fuel : Nat) (m : List PhoneMatch)
    (h : len ≤ fuel) :
    scanFormattedNumbersLoop data len fuel 0 m = scanFormattedNumbers data len m :=
  scanFormattedNumbersLoop_fuel data len fuel len 0 m (by omega) (by omega)

theorem digitRunWhile_mono (data : List Nat) (len fuel : Nat) :
    ∀ (i digitCount : Nat), i ≤ (digitRunWhile data len fuel i digitCount).1 := by
  induction fuel with
  | zero =>
    intro i digitCount
    rw [digitRunWhile]
  | succ fuel ih =>
    intro i digitCount
    rw [digitRunWhile]
    split
    · have := ih (i + 1) (digitCount + 1)
      omega
    · exact Nat.le_refl _

theorem digitRunWhile_progress (data : List Nat) (len fuel i : Nat) (hi : i < len)
    (hd : isDigit (data.getD i 0) = true) (hf : 0 < fuel) :
    i + 1 ≤ (digitRunWhile data len fuel i 0).1 ∧
      i + 1 ≤ i + (digitRunWhile data len fuel i 0).2 - 1 + 1 := by
  obtain ⟨h1, _, _⟩ := digitRunWhile_spec data len fuel i 0
  have h2 : i + 1 ≤ (digitRunWhile data len fuel i 0).1 := by
    cases fuel with
    | zero => omega
    | succ f =>
      rw [digitRunWhile, if_pos (by rw [Bool.and_eq_true]; exact ⟨decide_eq_true hi, hd⟩)]
      exact digitRunWhile_mono data len f (i + 1) 1
  omega

theorem scanPlainDigitsLoop_fuel (data : List Nat) (len : Nat) :
    ∀ (fuel fuel1 i : Nat) (m : List PhoneMatch), len ≤ fuel + i → len ≤ fuel1 + i →
      scanPlainDigitsLoop data len fuel i m = scanPlainDigitsLoop data len fuel1 i m := by
  intro fuel
  induction fuel with
  | zero =>
    intro fuel1 i m h _
    cases fuel1 with
    | zero => rfl
    | succ f => rw [scanPlainDigitsLoop, scanPlainDigitsLoop, if_neg (by omega)]
  | succ fuel ih =>
    intro fuel1 i m h h1
    cases fuel1 with
    | zero => rw [scanPlainDigitsLoop, scanPlainDigitsLoop, if_neg (by omega)]
    | succ f =>
      have step : ∀ j m1, i + 1 ≤ j →
          scanPlainDigitsLoop data len fuel j m1 = scanPlainDigitsLoop data len f j m1 :=
        fun j m1 hj => ih f j m1 (by omega) (by omega)
      rw [scanPlainDigitsLoop, scanPlainDigitsLoop, step _ _ (Nat.le_refl _)]
      by_cases hi : i < len
      · rw [if_pos hi, if_pos hi]
        by_cases hd : isDigit (data.getD i 0) = true
        · have hp := digitRunWhile_progress data len len i hi hd (by omega)
          dsimp only
          rw [step _ _ (by omega : i + 1 ≤ (digitRunWhile data len len i 0).1 + 1)]
          cases hc : plainCandidate data i (digitRunWhile data len len i 0).2 with
          | some pm =>
            dsimp only
            rw [step _ _ (by omega : i + 1 ≤ (digitRunWhile data len len i 0).1 + 1)]
          | none =>
            dsimp only
            rw [step _ _ hp.2]
        · have hd1 : (!isDigit (data.getD i 0)) = true := by
            rw [Bool.not_eq_true', ← Bool.not_eq_true]; exact hd
          rw [if_pos hd1, if_pos hd1]
      · rw [if_neg hi, if_neg hi]

/-- Running `scanPlainDigits` with more fuel than `len` changes nothing. -/
theorem scanPlainDigits_fuel (data : List Nat) (len fuel : Nat) (m : List PhoneMatch)
    (h : len ≤ fuel) : scanPlainDigitsLoop data len fuel 0 m = scanPlainDigits data len m :=
  scanPlainDigitsLoop_fuel data len fuel len 0 m (by omega) (by omega)

/-! ## The properties of `extract` -/

/-- C1 (non-overlap): for every input text, any two consecutive matches of
`extract text` satisfy `position + value.length ≤ position` of the next one. -/
theorem extract_non_overlapping (text : List Nat) :
    List.Chain' (fun a b : PhoneMatch => a.position + a.value.length ≤ b.position)
      (extract text) := by
  unfold extract
  dsimp only
  split
  · exact List.chain'_nil
  · split
    · rename_i h
      rw [List.isEmpty_iff.1 h]
      exact List.chain'_nil
    · exact mergeLoop_chain _ _

/-- C2 (ordering): for every input text, the positions of the matches of
`extract text` are strictly ascending: every match has a smaller position than
every match after it, so no two matches share an offset. -/
theorem extract_positions_strictly_ascending (text : List Nat) :
    List.Pairwise (fun a b : PhoneMatch => a.position < b.position) (extract text) := by
  unfold extract
  dsimp only
  split
  · exact List.Pairwise.nil
  · split
    · rename_i h
      rw [List.isEmpty_iff.1 h]
      exact List.Pairwise.nil
    · apply mergeLoop_pairwise
      intro x hx
      exact (good_of_mem_candidates text x ((mem_sortByPosition _ _).1 hx)).nonempty

set_option maxRecDepth 20000 in
/-- C3 (locality) fails on the code: on `"(234)-567-8900"` the parenthesized
block of Pass B accepts the `-` after `)` at line 260 but line 267 appends
`") "` to the candidate, so the emitted `value` is `"(234) 567-8900"`, which is
not the substring of the text at the match's position. -/
theorem extract_paren_dash_value_not_substring :
    extract (bytes ("(234)-567-8900")) =
      [⟨PhoneType.FORMATTED_DOMESTIC, bytes ("(234) 567-8900"), bytes ("2345678900"), 0⟩] ∧
    ¬ ∀ m ∈ extract (bytes ("(234)-567-8900")),
      m.value = ((bytes ("(234)-567-8900")).drop m.position).take m.value.length := by
  decide

/-- C4 (digit projection): for every input text and every match `m` of
`extract text`, `m.normalized` equals `extractDigits m.value`. -/
theorem extract_normalized_eq_extractDigits (text : List Nat) (m : PhoneMatch)
    (hm : m ∈ extract text) : m.normalized = extractDigits m.value :=
  (good_of_mem_extract text m hm).proj

set_option maxRecDepth 20000 in
/-- Witness of C4 on `"My number is +91 9876543210"`. -/
theorem extract_normalized_eq_extractDigits_witness :
    (⟨PhoneType.INTERNATIONAL_PLUS, bytes ("+91 9876543210"), bytes ("919876543210"), 13⟩ :
        PhoneMatch) ∈ extract (bytes ("My number is +91 9876543210")) ∧
      bytes ("919876543210") = extractDigits (bytes ("+91 9876543210")) :=
  ⟨by decide,
   extract_normalized_eq_extractDigits (bytes ("My number is +91 9876543210"))
     ⟨PhoneType.INTERNATIONAL_PLUS, bytes ("+91 9876543210"), bytes ("919876543210"), 13⟩
     (by decide)⟩

/-- C5 (bounds): for every input text and every match `m` of `extract text`,
`m.position + m.value.length ≤ text.length`. -/
theorem extract_match_within_text (text : List Nat) (m : PhoneMatch)
    (hm : m ∈ extract text) : m.position + m.value.length ≤ text.length :=
  (good_of_mem_extract text m hm).bound

set_option maxRecDepth 20000 in
/-- Witness of C5 on `"Plain number: 2345678901"`, whose match ends at the
last byte of the text. -/
theorem extract_match_within_text_witness :
    (⟨PhoneType.PLAIN_10_DIGIT, bytes ("2345678901"), bytes ("2345678901"), 14⟩ :
        PhoneMatch) ∈ extract (bytes ("Plain number: 2345678901")) ∧
      14 + (bytes ("2345678901")).length ≤ (bytes ("Plain number: 2345678901")).length :=
  ⟨by decide,
   extract_match_within_text (bytes ("Plain number: 2345678901"))
     ⟨PhoneType.PLAIN_10_DIGIT, bytes ("2345678901"), bytes ("2345678901"), 14⟩ (by decide)⟩

/-- C6 (category soundness): for every input text and every match `m` of
`extract text`, the validator of the category of `m` accepts `m.value`
(`FormattedDomesticValidator`, `InternationalPlusValidator`,
`PlainDigitValidator(10)`, `PlainDigitValidator(11)`, `MobileDigitValidator`),
and a `FORMATTED_TOLL_FREE` match has an 11-digit `normalized` that begins
with `'1'` and whose second digit is not `'0'`. -/
theorem extract_category_sound (text : List Nat) (m : PhoneMatch) (hm : m ∈ extract text) :
    (m.type = PhoneType.FORMATTED_DOMESTIC →
      FormattedDomesticValidator.isValid m.value = true) ∧
    (m.type = PhoneType.INTERNATIONAL_PLUS →
      InternationalPlusValidator.isValid m.value = true) ∧
    (m.type = PhoneType.PLAIN_10_DIGIT → PlainDigitValidator.isValid 10 m.value = true) ∧
    (m.type = PhoneType.PLAIN_11_DIGIT → PlainDigitValidator.isValid 11 m.value = true) ∧
    (m.type = PhoneType.MOBILE_10_DIGIT → MobileDigitValidator.isValid m.value = true) ∧
    (m.type = PhoneType.FORMATTED_TOLL_FREE →
      m.normalized.length = 11 ∧ m.normalized.getD 0 0 = 49 ∧ m.normalized.getD 1 0 ≠ 48) := by
  have h := (good_of_mem_extract text m hm).sound
  unfold categorySound at h
  refine ⟨?_, ?_, ?_, ?_, ?_, ?_⟩
  · intro ht; rw [ht] at h; exact h
  · intro ht; rw [ht] at h; exact h
  · intro ht; rw [ht] at h; exact h
  · intro ht; rw [ht] at h; exact h
  · intro ht; rw [ht] at h; exact h
  · intro ht; rw [ht] at h
    simp only [Bool.and_eq_true, beq_iff_eq, bne_iff_ne, ne_eq] at h
    exact ⟨h.1.1, h.1.2, h.2⟩

set_option maxRecDepth 20000 in
/-- Witness of C6 on `"Toll free 1-800-555-0199"`. -/
theorem extract_category_sound_witness :
    (⟨PhoneType.FORMATTED_TOLL_FREE, bytes ("1-800-555-0199"), bytes ("18005550199"), 10⟩ :
        PhoneMatch) ∈ extract (bytes ("Toll free 1-800-555-0199")) ∧
      ((bytes ("18005550199")).length = 11 ∧ (bytes ("18005550199")).getD 0 0 = 49 ∧
        (bytes ("18005550199")).getD 1 0 ≠ 48) :=
  ⟨by decide,
   (extract_category_sound (bytes ("Toll free 1-800-555-0199"))
     ⟨PhoneType.FORMATTED_TOLL_FREE, bytes ("1-800-555-0199"), bytes ("18005550199"), 10⟩
     (by decide)).2.2.2.2.2 rfl⟩

set_option maxRecDepth 20000 in
/-- C7 (round trip) fails on the code: `"(234) 5678900 "` yields the 13-byte
match `"(234) 5678900"`, but `extract` of that value alone is empty, because
the parenthesized block of Pass B is entered only when `i + 14 <= len`
(line 256). -/
theorem extract_round_trip_fails_on_13_byte_paren :
    extract (bytes ("(234) 5678900 ")) =
      [⟨PhoneType.FORMATTED_DOMESTIC, bytes ("(234) 5678900"), bytes ("2345678900"), 0⟩] ∧
    7 ≤ (bytes ("(234) 5678900")).length ∧
    extract (bytes ("(234) 5678900")) = [] := by
  decide

/-- C8 (early exits): for every text longer than `10 * 2^20` bytes or shorter
than 7 bytes, `extract text` is the empty list. -/
theorem extract_early_exit (text : List Nat)
    (h : text.length > 10 * 2 ^ 20 ∨ text.length < 7) : extract text = [] := by
  unfold extract
  dsimp only
  rw [if_pos]
  simp only [Bool.or_eq_true, decide_eq_true_eq]
  unfold MAX_INPUT_SIZE MIN_DIGITS
  omega

/-- Witness of C8 on the 6-byte text `"234567"`. -/
theorem extract_early_exit_witness :
    ((bytes ("234567")).length > 10 * 2 ^ 20 ∨ (bytes ("234567")).length < 7) ∧
      extract (bytes ("234567")) = [] :=
  ⟨by decide, extract_early_exit (bytes ("234567")) (by decide)⟩

/-- C9 (no digit, no match): for every text that contains no digit byte
`'0'..'9'`, `extract text` is the empty list. -/
theorem extract_no_digit (text : List Nat) (h : ∀ c ∈ text, ¬ (48 ≤ c ∧ c ≤ 57)) :
    extract text = [] := by
  have hd : ∀ c ∈ text, isDigit c = false := by
    intro c hc
    have h1 := h c hc
    rw [← isDigit_iff] at h1
    exact Bool.eq_false_iff.2 h1
  have hc := candidates_eq_nil_of_no_digit text hd
  unfold extract
  dsimp only
  split
  · rfl
  · rw [hc]; rfl

set_option maxRecDepth 20000 in
/-- Witness of C9 on `"No phone numbers here!"`. -/
theorem extract_no_digit_witness :
    (∀ c ∈ bytes ("No phone numbers here!"), ¬ (48 ≤ c ∧ c ≤ 57)) ∧
      extract (bytes ("No phone numbers here!")) = [] :=
  ⟨by decide, extract_no_digit (bytes ("No phone numbers here!")) (by decide)⟩

set_option maxRecDepth 20000 in
/-- A tied pair inside an earlier match: in `"+1234 1234567890 1"` Pass B and
Pass C both propose a candidate at offset 6, and neither is kept, because the
Pass A match kept before them ends at offset 18. -/
theorem tied_pair_both_dropped :
    candidates (bytes ("+1234 1234567890 1")) =
      [⟨PhoneType.INTERNATIONAL_PLUS, bytes ("+1234 1234567890 1"),
          bytes ("123412345678901"), 0⟩,
       ⟨PhoneType.FORMATTED_TOLL_FREE, bytes ("1234567890 1"), bytes ("12345678901"), 6⟩,
       ⟨PhoneType.MOBILE_10_DIGIT, bytes ("1234567890"), bytes ("1234567890"), 6⟩] ∧
    extract (bytes ("+1234 1234567890 1")) =
      [⟨PhoneType.INTERNATIONAL_PLUS, bytes ("+1234 1234567890 1"),
          bytes ("123412345678901"), 0⟩] ∧
    (⟨PhoneType.FORMATTED_TOLL_FREE, bytes ("1234567890 1"), bytes ("12345678901"), 6⟩ :
        PhoneMatch) ∉ extract (bytes ("+1234 1234567890 1")) := by
  decide

theorem isSeparator_iff (c : Nat) :
    isSeparator c = true ↔ c = 32 ∨ c = 9 ∨ c = 45 ∨ c = 46 ∨ c = 40 ∨ c = 41 := by
  by_cases h : c < 256
  · interval_cases c <;> decide
  · have h1 : charTable.getD c 0 = 0 := by
      rw [List.getD_eq_default]
      rw [charTable_length]; omega
    have h2 : isSeparator c = false := by
      unfold isSeparator; rw [h1]; decide
    rw [h2]; constructor
    · intro h3; cases h3
    · intro h3; omega

theorem isPlus_iff (c : Nat) : isPlus c = true ↔ c = 43 := by
  by_cases h : c < 256
  · interval_cases c <;> decide
  · have h1 : charTable.getD c 0 = 0 := by
      rw [List.getD_eq_default]
      rw [charTable_length]; omega
    have h2 : isPlus c = false := by
      unfold isPlus; rw [h1]; decide
    rw [h2]; constructor
    · intro h3; cases h3
    · intro h3; omega

/-! ## The length of a candidate -/

theorem scanInternationalWhile_length_le (data : List Nat) (len fuel : Nat) :
    ∀ (i : Nat) (candidate : List Nat) (digitCount : Nat),
      candidate.length ≤ MAX_PHONE_LENGTH →
      (scanInternationalWhile data len fuel i candidate digitCount).2.1.length ≤
        MAX_PHONE_LENGTH := by
  induction fuel with
  | zero =>
    intro i candidate digitCount h
    rw [scanInternationalWhile]
    exact h
  | succ fuel ih =>
    intro i candidate digitCount h
    rw [scanInternationalWhile]
    split
    · rename_i hc
      simp only [Bool.and_eq_true, decide_eq_true_eq] at hc
      have hs : (candidate ++ [data.getD i 0]).length ≤ MAX_PHONE_LENGTH := by
        rw [List.length_append, List.length_singleton]; omega
      split
      · exact ih _ _ _ hs
      · split
        · exact ih _ _ _ hs
        · split
          · exact ih _ _ _ hs
          · exact h
    · exact h

theorem parenWhile_length_le (data : List Nat) (len fuel : Nat) :
    ∀ (e : Nat) (candidate : List Nat) (digitCount : Nat),
      candidate.length ≤ MAX_PHONE_LENGTH →
      (parenWhile data len fuel e candidate digitCount).2.1.length ≤ MAX_PHONE_LENGTH := by
  induction fuel with
  | zero =>
    intro e candidate digitCount h
    rw [parenWhile]
    exact h
  | succ fuel ih =>
    intro e candidate digitCount h
    rw [parenWhile]
    split
    · rename_i hc
      simp only [Bool.and_eq_true, decide_eq_true_eq] at hc
      have hs : (candidate ++ [data.getD e 0]).length ≤ MAX_PHONE_LENGTH := by
        rw [List.length_append, List.length_singleton]; omega
      split
      · exact ih _ _ _ hs
      · split
        · exact ih _ _ _ hs
        · exact h
    · exact h

theorem runWhile_length_le (data : List Nat) (len fuel : Nat) :
    ∀ s : RunState, s.candidate.length ≤ MAX_PHONE_LENGTH →
      (runWhile data len fuel s).candidate.length ≤ MAX_PHONE_LENGTH := by
  induction fuel with
  | zero =>
    intro s h
    rw [runWhile]
    exact h
  | succ fuel ih =>
    intro s h
    rw [runWhile]
    split
    · rename_i hc
      simp only [Bool.and_eq_true, decide_eq_true_eq] at hc
      have hs : (s.candidate ++ [data.getD s.i 0]).length ≤ MAX_PHONE_LENGTH := by
        rw [List.length_append, List.length_singleton]; omega
      split
      · exact ih ⟨s.i + 1, s.candidate ++ [data.getD s.i 0], s.digitCount + 1,
          s.separator, s.hasSeparator⟩ hs
      · split
        · dsimp only
          generalize (if (s.separator == 0) = true then data.getD s.i 0 else s.separator) = sep
          split
          · exact ih ⟨s.i + 1, s.candidate ++ [data.getD s.i 0], s.digitCount, sep, true⟩ hs
          · exact h
        · exact h
    · exact h

theorem value_length_le_of_emittedA (data : List Nat) (len : Nat) (x : PhoneMatch)
    (hx : EmittedA data len x) : x.value.length ≤ MAX_PHONE_LENGTH := by
  obtain ⟨i, _, _, _, _, _, _, rfl⟩ := hx
  exact scanInternationalWhile_length_le data len MAX_PHONE_LENGTH (i + 1) [43] 0 (by decide)

theorem value_length_le_of_emittedB (data : List Nat) (len : Nat) (x : PhoneMatch)
    (hx : EmittedB data len x) : x.value.length ≤ MAX_PHONE_LENGTH := by
  obtain ⟨i, _, ⟨e, h⟩ | ⟨_, i1, h⟩⟩ := hx
  · unfold parenCandidate at h
    have hl := parenWhile_length_le data len MAX_PHONE_LENGTH (i + 6)
      ([40] ++ [data.getD (i + 1) 0] ++ [data.getD (i + 2) 0] ++ [data.getD (i + 3) 0] ++
        [41, 32]) 0 (by simp [MAX_PHONE_LENGTH])
    split at h
    · split at h
      · dsimp only at h
        split at h
        · split at h
          · simp only [Option.some.injEq, Prod.mk.injEq] at h
            obtain ⟨rfl, _⟩ := h
            exact hl
          · cases h
        · cases h
      · cases h
    · cases h
  · unfold runCandidate at h
    dsimp only at h
    have hl := runWhile_length_le data len MAX_PHONE_LENGTH ⟨i, [], 0, 0, false⟩
      (by simp [MAX_PHONE_LENGTH])
    split at h
    · split at h
      · simp only [Option.some.injEq, Prod.mk.injEq] at h
        obtain ⟨rfl, _⟩ := h
        exact hl
      · split at h
        · simp only [Option.some.injEq, Prod.mk.injEq] at h
          obtain ⟨rfl, _⟩ := h
          exact hl
        · split at h
          · simp only [Option.some.injEq, Prod.mk.injEq] at h
            obtain ⟨rfl, _⟩ := h
            exact hl
          · cases h
    · cases h

theorem value_length_le_of_emittedC (data : List Nat) (len : Nat) (x : PhoneMatch)
    (hx : EmittedC data len x) : x.value.length ≤ MAX_PHONE_LENGTH := by
  obtain ⟨i, _, _, hp⟩ := hx
  unfold plainCandidate at hp
  dsimp only at hp
  have hl := List.length_take_le (digitRunWhile data len len i 0).2 (data.drop i)
  unfold MAX_PHONE_LENGTH
  split at hp
  · rename_i h10
    simp only [beq_iff_eq] at h10
    split at hp
    · cases hp; dsimp only; omega
    · split at hp
      · cases hp; dsimp only; omega
      · split at hp
        · cases hp; dsimp only; omega
        · cases hp
  · split at hp
    · rename_i h11
      simp only [beq_iff_eq] at h11
      split at hp
      · cases hp; dsimp only; omega
      · cases hp
    · cases hp

theorem value_length_le_of_mem_candidates (text : List Nat) (x : PhoneMatch)
    (hx : x ∈ candidates text) : x.value.length ≤ MAX_PHONE_LENGTH := by
  rcases mem_candidates text x hx with h | h | h
  · exact value_length_le_of_emittedA _ _ _ h
  · exact value_length_le_of_emittedB _ _ _ h
  · exact value_length_le_of_emittedC _ _ _ h

/-! ## Pass A copies the input bytes -/

theorem take_succ_drop (data : List Nat) (i n : Nat) (hi : i < data.length) :
    (data.drop i).take (n + 1) = data.getD i 0 :: (data.drop (i + 1)).take n := by
  rw [List.drop_eq_getElem_cons hi, List.take_succ_cons, List.getD_eq_getElem data 0 hi]

/-- The candidate of Pass A is what it held on entry followed by the input
bytes from the entry cursor to the exit cursor. -/
theorem scanInternationalWhile_local (data : List Nat) (len fuel : Nat)
    (hlen : len ≤ data.length) :
    ∀ (i : Nat) (candidate : List Nat) (digitCount : Nat),
      i ≤ (scanInternationalWhile data len fuel i candidate digitCount).1 ∧
      (scanInternationalWhile data len fuel i candidate digitCount).2.1 =
        candidate ++ (data.drop i).take
          ((scanInternationalWhile data len fuel i candidate digitCount).1 - i) := by
  induction fuel with
  | zero =>
    intro i candidate digitCount
    rw [scanInternationalWhile]
    simp
  | succ fuel ih =>
    intro i candidate digitCount
    rw [scanInternationalWhile]
    have step : ∀ dc : Nat, i < len →
        i ≤ (scanInternationalWhile data len fuel (i + 1) (candidate ++ [data.getD i 0]) dc).1 ∧
        (scanInternationalWhile data len fuel (i + 1) (candidate ++ [data.getD i 0]) dc).2.1 =
          candidate ++ (data.drop i).take
            ((scanInternationalWhile data len fuel (i + 1)
              (candidate ++ [data.getD i 0]) dc).1 - i) := by
      intro dc hi
      obtain ⟨h1, h2⟩ := ih (i + 1) (candidate ++ [data.getD i 0]) dc
      refine ⟨by omega, ?_⟩
      generalize scanInternationalWhile data len fuel (i + 1)
        (candidate ++ [data.getD i 0]) dc = st at *
      have h3 : st.1 - i = (st.1 - (i + 1)) + 1 := by omega
      rw [h2, h3, take_succ_drop data i _ (by omega)]
      simp
    split
    · rename_i hc
      simp only [Bool.and_eq_true, decide_eq_true_eq] at hc
      split
      · exact step _ hc.1
      · split
        · exact step _ hc.1
        · split
          · exact step _ hc.1
          · simp
    · simp

/-! ## The passes append to the matches they are given -/

theorem scanInternationalLoop_append (data : List Nat) (len fuel : Nat) :
    ∀ (i : Nat) (m : List PhoneMatch),
      scanInternationalLoop data len fuel i m = m ++ scanInternationalLoop data len fuel i [] := by
  induction fuel with
  | zero =>
    intro i m
    rw [scanInternationalLoop, scanInternationalLoop, List.append_nil]
  | succ fuel ih =>
    intro i m
    rw [scanInternationalLoop, scanInternationalLoop]
    split
    · split
      · dsimp only
        split
        · rw [ih _ (m ++ [_]), ih _ ([] ++ [_])]
          simp
        · exact ih _ _
      · exact ih _ _
    · simp

theorem scanFormattedNumbersLoop_append (data : List Nat) (len fuel : Nat) :
    ∀ (i : Nat) (m : List PhoneMatch),
      scanFormattedNumbersLoop data len fuel i m =
        m ++ scanFormattedNumbersLoop data len fuel i [] := by
  induction fuel with
  | zero =>
    intro i m
    rw [scanFormattedNumbersLoop, scanFormattedNumbersLoop, List.append_nil]
  | succ fuel ih =>
    intro i m
    rw [scanFormattedNumbersLoop, scanFormattedNumbersLoop]
    split
    · cases parenCandidate data len i with
      | some r =>
        dsimp only
        rw [ih _ (m ++ [_]), ih _ ([] ++ [_])]
        simp
      | none =>
        dsimp only
        split
        · cases runCandidate data len i with
          | some r =>
            dsimp only
            rw [ih _ (m ++ [_]), ih _ ([] ++ [_])]
            simp
          | none => exact ih _ _
        · exact ih _ _
    · simp

theorem scanPlainDigitsLoop_append (data : List Nat) (len fuel : Nat) :
    ∀ (i : Nat) (m : List PhoneMatch),
      scanPlainDigitsLoop data len fuel i m = m ++ scanPlainDigitsLoop data len fuel i [] := by
  induction fuel with
  | zero =>
    intro i m
    rw [scanPlainDigitsLoop, scanPlainDigitsLoop, List.append_nil]
  | succ fuel ih =>
    intro i m
    rw [scanPlainDigitsLoop, scanPlainDigitsLoop]
    split
    · split
      · exact ih _ _
      · split
        · exact ih _ _
        · dsimp only
          split
          · exact ih _ _
          · cases plainCandidate data i (digitRunWhile data len len i 0).2 with
            | some pm =>
              dsimp only
              rw [ih _ (m ++ [_]), ih _ ([] ++ [_])]
              simp
            | none => exact ih _ _
    · simp

/-- The candidate list is the output of Pass A, then of Pass B, then of
Pass C, each run on its own. -/
theorem candidates_eq_append (text : List Nat) :
    candidates text =
      scanInternational text text.length [] ++
        (scanFormattedNumbers text text.length [] ++ scanPlainDigits text text.length []) := by
  unfold candidates scanPlainDigits scanFormattedNumbers
  rw [scanPlainDigitsLoop_append, scanFormattedNumbersLoop_append, List.append_assoc]

/-! ## A candidate at offset 0 that comes first is kept -/

theorem sortByPosition_cons_zero (x : PhoneMatch) (l : List PhoneMatch)
    (hx : x.position = 0) : sortByPosition (x :: l) = x :: sortByPosition l := by
  rw [sortByPosition]
  cases sortByPosition l with
  | nil => rfl
  | cons y ys => rw [insertByPosition, if_neg (by omega)]

theorem extract_head_of_candidates_cons (text : List Nat) (x : PhoneMatch)
    (rest : List PhoneMatch) (hmin : MIN_DIGITS ≤ text.length)
    (hmax : text.length ≤ MAX_INPUT_SIZE) (hc : candidates text = x :: rest)
    (hx : x.position = 0) :
    extract text = x :: mergeLoop (sortByPosition rest) (0 + x.value.length) [] := by
  unfold extract
  dsimp only
  rw [if_neg (by simp only [Bool.or_eq_true, decide_eq_true_eq]; omega), hc,
    if_neg (by simp), sortByPosition_cons_zero x rest hx, mergeLoop_cons,
    if_pos (by omega), hx]

/-! ## The first step of Pass A and the categories of the passes -/

/-- One round of the `for` loop of Pass A at a `+` that is followed by a digit
and whose candidate holds 7 to 15 digits: the candidate is emitted and the
cursor moves to one past the exit cursor of the `while` loop. -/
theorem scanInternationalLoop_emit (data : List Nat) (len fuel i : Nat) (m : List PhoneMatch)
    (hplus : data.getD i 0 = 43) (h1 : i + 1 < len)
    (hd : isDigit (data.getD (i + 1) 0) = true)
    (hlo : MIN_DIGITS ≤ (extractDigits
      (scanInternationalWhile data len MAX_PHONE_LENGTH (i + 1) [43] 0).2.1).length)
    (hhi : (extractDigits
      (scanInternationalWhile data len MAX_PHONE_LENGTH (i + 1) [43] 0).2.1).length ≤ MAX_DIGITS) :
    scanInternationalLoop data len (fuel + 1) i m =
      scanInternationalLoop data len fuel
        ((scanInternationalWhile data len MAX_PHONE_LENGTH (i + 1) [43] 0).1 + 1)
        (m ++ [⟨PhoneType.INTERNATIONAL_PLUS,
          (scanInternationalWhile data len MAX_PHONE_LENGTH (i + 1) [43] 0).2.1,
          extractDigits (scanInternationalWhile data len MAX_PHONE_LENGTH (i + 1) [43] 0).2.1,
          i⟩]) := by
  rw [scanInternationalLoop, if_pos (by omega), if_pos]
  · dsimp only
    rw [if_pos]
    simp only [Bool.and_eq_true, decide_eq_true_eq, ge_iff_le]
    exact ⟨hlo, hhi⟩
  · simp only [Bool.and_eq_true, beq_iff_eq, decide_eq_true_eq]
    exact ⟨⟨hplus, h1⟩, hd⟩

theorem type_of_emittedA (data : List Nat) (len : Nat) (x : PhoneMatch)
    (hx : EmittedA data len x) : x.type = PhoneType.INTERNATIONAL_PLUS := by
  obtain ⟨i, _, _, _, _, _, _, rfl⟩ := hx
  rfl

theorem type_of_emittedB (data : List Nat) (len : Nat) (x : PhoneMatch)
    (hx : EmittedB data len x) :
    x.type = PhoneType.FORMATTED_DOMESTIC ∨ x.type = PhoneType.MOBILE_10_DIGIT ∨
      x.type = PhoneType.FORMATTED_TOLL_FREE := by
  obtain ⟨i, _, ⟨e, h⟩ | ⟨_, i1, h⟩⟩ := hx
  · unfold parenCandidate at h
    split at h
    · split at h
      · dsimp only at h
        split at h
        · split at h
          · simp only [Option.some.injEq, Prod.mk.injEq] at h
            obtain ⟨rfl, _⟩ := h
            exact Or.inl rfl
          · cases h
        · cases h
      · cases h
    · cases h
  · unfold runCandidate at h
    dsimp only at h
    split at h
    · split at h
      · simp only [Option.some.injEq, Prod.mk.injEq] at h
        obtain ⟨rfl, _⟩ := h
        exact Or.inr (Or.inl rfl)
      · split at h
        · simp only [Option.some.injEq, Prod.mk.injEq] at h
          obtain ⟨rfl, _⟩ := h
          exact Or.inl rfl
        · split at h
          · simp only [Option.some.injEq, Prod.mk.injEq] at h
            obtain ⟨rfl, _⟩ := h
            exact Or.inr (Or.inr rfl)
          · cases h
    · cases h

theorem type_of_emittedC (data : List Nat) (len : Nat) (x : PhoneMatch)
    (hx : EmittedC data len x) :
    x.type = PhoneType.MOBILE_10_DIGIT ∨ x.type = PhoneType.PLAIN_10_DIGIT ∨
      x.type = PhoneType.PLAIN_11_DIGIT := by
  obtain ⟨i, _, _, hp⟩ := hx
  unfold plainCandidate at hp
  dsimp only at hp
  split at hp
  · split at hp
    · cases hp; exact Or.inl rfl
    · split at hp
      · cases hp; exact Or.inr (Or.inl rfl)
      · split at hp
        · cases hp; exact Or.inl rfl
        · cases hp
  · split at hp
    · split at hp
      · cases hp; exact Or.inr (Or.inr rfl)
      · cases hp
    · cases hp

/-- An `INTERNATIONAL_PLUS` candidate comes from Pass A. -/
theorem emittedA_of_international (text : List Nat) (x : PhoneMatch)
    (hx : x ∈ candidates text) (ht : x.type = PhoneType.INTERNATIONAL_PLUS) :
    EmittedA text text.length x := by
  rcases mem_candidates text x hx with h | h | h
  · exact h
  · rcases type_of_emittedB _ _ _ h with h1 | h1 | h1 <;> rw [ht] at h1 <;> cases h1
  · rcases type_of_emittedC _ _ _ h with h1 | h1 | h1 <;> rw [ht] at h1 <;> cases h1

/-- A Pass A candidate from offset 0 that reaches 30 bytes is the first 30
bytes of the text. -/
theorem passA_candidate_eq_take (text : List Nat) (hplus : text.getD 0 0 = 43)
    (hne : 0 < text.length)
    (h30 : (scanInternationalWhile text text.length MAX_PHONE_LENGTH 1 [43] 0).2.1.length = 30) :
    (scanInternationalWhile text text.length MAX_PHONE_LENGTH 1 [43] 0).2.1 = text.take 30 := by
  obtain ⟨h1, _, _⟩ := scanInternationalWhile_spec text text.length MAX_PHONE_LENGTH 1 [43] 0
  obtain ⟨_, h2⟩ := scanInternationalWhile_local text text.length MAX_PHONE_LENGTH
    (Nat.le_refl _) 1 [43] 0
  rw [List.length_singleton, h30] at h1
  have h3 : (scanInternationalWhile text text.length MAX_PHONE_LENGTH 1 [43] 0).1 - 1 = 29 := by
    omega
  rw [h2, h3]
  cases text with
  | nil => simp at hne
  | cons c tail =>
    simp only [List.getD_cons_zero] at hplus
    subst hplus
    simp

/-! ## The candidate length, the validators and the classifier -/

/-- C11 (maximum candidate length): for every input text and every match `m`
of `extract text`, `m.value` has at most 30 bytes. -/
theorem extract_value_length_le_30 (text : List Nat) (m : PhoneMatch)
    (hm : m ∈ extract text) : m.value.length ≤ 30 :=
  value_length_le_of_mem_candidates text m (mem_extract text m hm).1

set_option maxRecDepth 20000 in
/-- Witness of C11 on `"Intl: +911 998 877 6655"`. -/
theorem extract_value_length_le_30_witness :
    (⟨PhoneType.INTERNATIONAL_PLUS, bytes ("+911 998 877 6655"), bytes ("9119988776655"), 6⟩ :
        PhoneMatch) ∈ extract (bytes ("Intl: +911 998 877 6655")) ∧
      (bytes ("+911 998 877 6655")).length ≤ 30 :=
  ⟨by decide,
   extract_value_length_le_30 (bytes ("Intl: +911 998 877 6655"))
     ⟨PhoneType.INTERNATIONAL_PLUS, bytes ("+911 998 877 6655"), bytes ("9119988776655"), 6⟩
     (by decide)⟩

set_option maxRecDepth 20000 in
/-- C12 as stated fails: in `"+1 2 3 4 5 6 7 8 9 0 1 2 3 4 5 6 7"` the Pass A
candidate reaches 30 bytes while the next bytes `" 6"` would extend it, and the
30-byte candidate, which holds 15 digits, is emitted. -/
theorem passA_candidate_emitted_at_30 :
    (scanInternationalWhile (bytes ("+1 2 3 4 5 6 7 8 9 0 1 2 3 4 5 6 7")) 34
        MAX_PHONE_LENGTH 1 [43] 0).2.1.length = 30 ∧
    extract (bytes ("+1 2 3 4 5 6 7 8 9 0 1 2 3 4 5 6 7")) =
      [⟨PhoneType.INTERNATIONAL_PLUS, bytes ("+1 2 3 4 5 6 7 8 9 0 1 2 3 4 5"),
          bytes ("123456789012345"), 0⟩] := by
  decide

/-- C12 (30-byte maximum, amended): a Pass A candidate that has reached 30
bytes is cut there, whatever the next input byte is, and is then emitted or
dropped by its digit count like any other candidate.  For a text that passes
the length gate, starts with `+` and a digit, and whose candidate from offset 0
reaches 30 bytes: that candidate is the first 30 bytes of the text; when it
holds 7 to 15 digits the first match of `extract text` is the
`INTERNATIONAL_PLUS` match with these 30 bytes at offset 0; otherwise
`extract text` has no `INTERNATIONAL_PLUS` match at offset 0. -/
theorem passA_candidate_cut_at_30 (text : List Nat)
    (hmin : 7 ≤ text.length) (hmax : text.length ≤ 10 * 2 ^ 20)
    (hplus : text.getD 0 0 = 43) (hdig : isDigit (text.getD 1 0) = true)
    (h30 : (scanInternationalWhile text text.length MAX_PHONE_LENGTH 1 [43] 0).2.1.length = 30) :
    (scanInternationalWhile text text.length MAX_PHONE_LENGTH 1 [43] 0).2.1 = text.take 30 ∧
    (7 ≤ (extractDigits (text.take 30)).length ∧ (extractDigits (text.take 30)).length ≤ 15 →
      (extract text).head? =
        some ⟨PhoneType.INTERNATIONAL_PLUS, text.take 30, extractDigits (text.take 30), 0⟩) ∧
    (¬ (7 ≤ (extractDigits (text.take 30)).length ∧
          (extractDigits (text.take 30)).length ≤ 15) →
      ∀ m ∈ extract text, m.type = PhoneType.INTERNATIONAL_PLUS → m.position ≠ 0) := by
  have htake := passA_candidate_eq_take text hplus (by omega) h30
  refine ⟨htake, ?_, ?_⟩
  · intro hd
    have hfuel : scanInternational text text.length [] =
        scanInternationalLoop text text.length (text.length - 1 + 1) 0 [] :=
      scanInternationalLoop_fuel text text.length _ _ 0 [] (by omega) (by omega)
    have hstep := scanInternationalLoop_emit text text.length (text.length - 1) 0 []
      hplus (by omega) hdig (by rw [htake]; exact hd.1) (by rw [htake]; exact hd.2)
    rw [htake, scanInternationalLoop_append text text.length (text.length - 1) _ ([] ++ [_])]
      at hstep
    have hc := candidates_eq_append text
    rw [hfuel, hstep] at hc
    simp only [List.nil_append, List.singleton_append, List.cons_append] at hc
    rw [extract_head_of_candidates_cons text _ _ hmin (by unfold MAX_INPUT_SIZE; omega) hc rfl]
    rfl
  · intro hd m hm ht h0
    have hA := emittedA_of_international text m (mem_extract text m hm).1 ht
    obtain ⟨i, _, _, _, _, hlo, hhi, rfl⟩ := hA
    have hi : i = 0 := h0
    subst hi
    rw [htake] at hlo hhi
    exact hd ⟨hlo, hhi⟩

set_option maxRecDepth 20000 in
/-- Witness of C12 (amended) on `"+1-2-3-4-5-6-7-8-9-0-1-2-3-4-5-6"`, whose
byte 30 is a `-` followed by a digit. -/
theorem passA_candidate_cut_at_30_witness :
    (scanInternationalWhile (bytes ("+1-2-3-4-5-6-7-8-9-0-1-2-3-4-5-6"))
        (bytes ("+1-2-3-4-5-6-7-8-9-0-1-2-3-4-5-6")).length
        MAX_PHONE_LENGTH 1 [43] 0).2.1.length = 30 ∧
    (bytes ("+1-2-3-4-5-6-7-8-9-0-1-2-3-4-5-6")).take 30 =
      bytes ("+1-2-3-4-5-6-7-8-9-0-1-2-3-4-5") ∧
    (extract (bytes ("+1-2-3-4-5-6-7-8-9-0-1-2-3-4-5-6"))).head? =
      some ⟨PhoneType.INTERNATIONAL_PLUS,
        (bytes ("+1-2-3-4-5-6-7-8-9-0-1-2-3-4-5-6")).take 30,
        extractDigits ((bytes ("+1-2-3-4-5-6-7-8-9-0-1-2-3-4-5-6")).take 30), 0⟩ :=
  ⟨by decide, by decide,
   (passA_candidate_cut_at_30 (bytes ("+1-2-3-4-5-6-7-8-9-0-1-2-3-4-5-6"))
    (by decide) (by decide) (by decide) (by decide) (by decide)).2.1 (by decide)⟩

/-- C13: `FormattedDomesticValidator.isValid s` is true if and only if
`d = extractDigits s` has length exactly 10, `d[0] != '0'` and `d[3] >= '2'`. -/
theorem formattedDomesticValidator_spec (s : List Nat) :
    FormattedDomesticValidator.isValid s = true ↔
      (extractDigits s).length = 10 ∧ (extractDigits s).getD 0 0 ≠ 48 ∧
        (extractDigits s).getD 3 0 ≥ 50 :=
  formattedDomestic_isValid_iff s

/-- C14: `InternationalPlusValidator.isValid s` is true if and only if `s` is
non-empty, `s[0] == '+'` and `extractDigits s` has 7 to 15 bytes. -/
theorem internationalPlusValidator_spec (s : List Nat) :
    InternationalPlusValidator.isValid s = true ↔
      s ≠ [] ∧ s.getD 0 0 = 43 ∧
        7 ≤ (extractDigits s).length ∧ (extractDigits s).length ≤ 15 :=
  internationalPlus_isValid_iff s

/-- C15: `PlainDigitValidator(10).isValid s` is true iff `s` has 10 bytes, all
digits, `s[0] != '0'` and `s[3] >= '2'`; `PlainDigitValidator(11).isValid s` is
true iff `s` has 11 bytes, all digits, `s[0] == '1'` and `s[1] != '0'`. -/
theorem plainDigitValidator_spec (s : List Nat) :
    (PlainDigitValidator.isValid 10 s = true ↔
      s.length = 10 ∧ (∀ c ∈ s, 48 ≤ c ∧ c ≤ 57) ∧ s.getD 0 0 ≠ 48 ∧ s.getD 3 0 ≥ 50) ∧
    (PlainDigitValidator.isValid 11 s = true ↔
      s.length = 11 ∧ (∀ c ∈ s, 48 ≤ c ∧ c ≤ 57) ∧ s.getD 0 0 = 49 ∧ s.getD 1 0 ≠ 48) := by
  have hall : (∀ c ∈ s, isDigit c = true) ↔ ∀ c ∈ s, 48 ≤ c ∧ c ≤ 57 := by
    constructor
    · intro h c hc
      exact (isDigit_iff c).1 (h c hc)
    · intro h c hc
      exact (isDigit_iff c).2 (h c hc)
  rw [plainDigit_isValid_ten_iff, plainDigit_isValid_eleven_iff, hall]
  exact ⟨Iff.rfl, Iff.rfl⟩

/-- C16: `MobileDigitValidator.isValid s` is true if and only if
`d = extractDigits s` has 10 bytes with `d[0]` in `'1'..'9'`, or has 12 bytes
with `d[0] == '9'`, `d[1] == '1'` and `d[2]` in `'1'..'9'`; every other digit
count is rejected. -/
theorem mobileDigitValidator_spec (s : List Nat) :
    MobileDigitValidator.isValid s = true ↔
      ((extractDigits s).length = 10 ∧ 49 ≤ (extractDigits s).getD 0 0 ∧
          (extractDigits s).getD 0 0 ≤ 57) ∨
      ((extractDigits s).length = 12 ∧ (extractDigits s).getD 0 0 = 57 ∧
          (extractDigits s).getD 1 0 = 49 ∧ 49 ≤ (extractDigits s).getD 2 0 ∧
          (extractDigits s).getD 2 0 ≤ 57) :=
  mobileDigit_isValid_iff s

/-- C17: for every byte `c` in `0..255`, `isDigit c` holds iff `'0' <= c <= '9'`,
`isSeparator c` holds iff `c` is space, tab, `-`, `.`, `(` or `)`, and
`isPlus c` holds iff `c == '+'`; `+` is not a separator, and a byte `>= 0x80`
is in none of the classes. -/
theorem characterClassifier_spec (c : Nat) (hc : c < 256) :
    (isDigit c = true ↔ 48 ≤ c ∧ c ≤ 57) ∧
    (isSeparator c = true ↔ c = 32 ∨ c = 9 ∨ c = 45 ∨ c = 46 ∨ c = 40 ∨ c = 41) ∧
    (isPlus c = true ↔ c = 43) ∧
    isSeparator 43 = false ∧
    (128 ≤ c → isDigit c = false ∧ isSeparator c = false ∧ isPlus c = false) := by
  refine ⟨isDigit_iff c, isSeparator_iff c, isPlus_iff c, by decide, ?_⟩
  intro h
  interval_cases c <;> decide

set_option maxRecDepth 20000 in
/-- Witness of C17 at the byte `0x80`. -/
theorem characterClassifier_spec_witness :
    (128 : Nat) < 256 ∧ isDigit 128 = false ∧ isSeparator 128 = false ∧ isPlus 128 = false :=
  ⟨by decide,
   ((characterClassifier_spec 128 (by decide)).2.2.2.2 (by decide)).1,
   ((characterClassifier_spec 128 (by decide)).2.2.2.2 (by decide)).2.1,
   ((characterClassifier_spec 128 (by decide)).2.2.2.2 (by decide)).2.2⟩

/-- C18: for every byte string `s`, `extractDigits s` is the subsequence of `s`
made of exactly its digit bytes `'0'..'9'` in their original order; its length
is the number of digit bytes of `s`, and every byte of it is a digit. -/
theorem extractDigits_spec (s : List Nat) :
    extractDigits s = s.filter (fun c => decide (48 ≤ c ∧ c ≤ 57)) ∧
    (extractDigits s).length = s.countP (fun c => decide (48 ≤ c ∧ c ≤ 57)) ∧
    ∀ c ∈ extractDigits s, 48 ≤ c ∧ c ≤ 57 := by
  have hf : isDigit = fun c => decide (48 ≤ c ∧ c ≤ 57) := by
    funext c
    rw [Bool.eq_iff_iff, isDigit_iff, decide_eq_true_eq]
  have h1 : extractDigits s = s.filter (fun c => decide (48 ≤ c ∧ c ≤ 57)) := by
    rw [extractDigits_eq_filter, hf]
  refine ⟨h1, ?_, ?_⟩
  · rw [h1, List.countP_eq_length_filter]
  · intro c hc
    rw [h1, List.mem_filter, decide_eq_true_eq] at hc
    exact hc.2

/-! ## The cursor after a match and the parenthesized block at the end of a text -/

set_option maxRecDepth 20000 in
/-- C19 fails on the code: after line 244 emits, `continue` runs the `++i` of
the `for` loop, so the byte right after the candidate is skipped.  In
`"+1234567+7654321"` the second `+` is that byte and only the first number is
matched; in `"+1234567+9876543210"` the digits after the skipped `+` are
matched by Pass C as `MOBILE_10_DIGIT` at offset 9. -/
theorem passA_skips_byte_after_match :
    extract (bytes ("+1234567+7654321")) =
      [⟨PhoneType.INTERNATIONAL_PLUS, bytes ("+1234567"), bytes ("1234567"), 0⟩] ∧
    scanInternational (bytes ("+1234567+7654321")) 16 [] =
      [⟨PhoneType.INTERNATIONAL_PLUS, bytes ("+1234567"), bytes ("1234567"), 0⟩] ∧
    extract (bytes ("+1234567+9876543210")) =
      [⟨PhoneType.INTERNATIONAL_PLUS, bytes ("+1234567"), bytes ("1234567"), 0⟩,
       ⟨PhoneType.MOBILE_10_DIGIT, bytes ("9876543210"), bytes ("9876543210"), 9⟩] := by
  decide

set_option maxRecDepth 20000 in
/-- C20 fails on the code: on the 13-byte text `"(234) 5678900"` the guard
`i + 14 <= len` of line 256 keeps the parenthesized block from running, so no
pass emits a candidate; with one more byte after the number the block emits
the match that the claim describes. -/
theorem paren_block_skipped_at_end_of_text :
    parenCandidate (bytes ("(234) 5678900")) 13 0 = none ∧
    candidates (bytes ("(234) 5678900")) = [] ∧
    extract (bytes ("(234) 5678900")) ≠
      [⟨PhoneType.FORMATTED_DOMESTIC, bytes ("(234) 5678900"), bytes ("2345678900"), 0⟩] ∧
    parenCandidate (bytes ("(234) 5678900.")) 14 0 =
      some (⟨PhoneType.FORMATTED_DOMESTIC, bytes ("(234) 5678900"), bytes ("2345678900"), 0⟩,
        13) := by
  decide

/-! ## The bytes of a candidate -/

/-- The bytes that the `while` loop of Pass A appends are digits or bytes of
the separator class. -/
theorem scanInternationalWhile_bytes (data : List Nat) (len fuel : Nat) :
    ∀ (i : Nat) (candidate : List Nat) (digitCount : Nat),
      ∃ t, (scanInternationalWhile data len fuel i candidate digitCount).2.1 = candidate ++ t ∧
        ∀ b ∈ t, isDigit b = true ∨ isSeparator b = true := by
  induction fuel with
  | zero =>
    intro i candidate digitCount
    rw [scanInternationalWhile]
    exact ⟨[], by simp, by simp⟩
  | succ fuel ih =>
    intro i candidate digitCount
    rw [scanInternationalWhile]
    have step : ∀ dc : Nat,
        (isDigit (data.getD i 0) = true ∨ isSeparator (data.getD i 0) = true) →
        ∃ t, (scanInternationalWhile data len fuel (i + 1)
            (candidate ++ [data.getD i 0]) dc).2.1 = candidate ++ t ∧
          ∀ b ∈ t, isDigit b = true ∨ isSeparator b = true := by
      intro dc hb
      obtain ⟨t, h1, h2⟩ := ih (i + 1) (candidate ++ [data.getD i 0]) dc
      refine ⟨data.getD i 0 :: t, by rw [h1]; simp, ?_⟩
      intro b hb1
      rcases List.mem_cons.1 hb1 with h | h
      · rw [h]; exact hb
      · exact h2 b h
    split
    · split
      · rename_i hd
        exact step _ (Or.inl hd)
      · split
        · rename_i hs
          simp only [Bool.and_eq_true, Bool.or_eq_true, beq_iff_eq, decide_eq_true_eq] at hs
          refine step _ (Or.inr ?_)
          rcases hs.1.1.1 with h | h
          · exact h
          · rw [h]; decide
        · split
          · rename_i hp
            simp only [Bool.and_eq_true, beq_iff_eq, decide_eq_true_eq] at hp
            refine step _ (Or.inr ?_)
            rw [hp.1]; decide
          · exact ⟨[], by simp, by simp⟩
    · exact ⟨[], by simp, by simp⟩

/-- The bytes that the `while` loop of the parenthesized block appends are
digits or bytes of the separator class. -/
theorem parenWhile_bytes (data : List Nat) (len fuel : Nat) :
    ∀ (e : Nat) (candidate : List Nat) (digitCount : Nat),
      ∃ t, (parenWhile data len fuel e candidate digitCount).2.1 = candidate ++ t ∧
        ∀ b ∈ t, isDigit b = true ∨ isSeparator b = true := by
  induction fuel with
  | zero =>
    intro e candidate digitCount
    rw [parenWhile]
    exact ⟨[], by simp, by simp⟩
  | succ fuel ih =>
    intro e candidate digitCount
    rw [parenWhile]
    have step : ∀ dc : Nat,
        (isDigit (data.getD e 0) = true ∨ isSeparator (data.getD e 0) = true) →
        ∃ t, (parenWhile data len fuel (e + 1) (candidate ++ [data.getD e 0]) dc).2.1 =
            candidate ++ t ∧
          ∀ b ∈ t, isDigit b = true ∨ isSeparator b = true := by
      intro dc hb
      obtain ⟨t, h1, h2⟩ := ih (e + 1) (candidate ++ [data.getD e 0]) dc
      refine ⟨data.getD e 0 :: t, by rw [h1]; simp, ?_⟩
      intro b hb1
      rcases List.mem_cons.1 hb1 with h | h
      · rw [h]; exact hb
      · exact h2 b h
    split
    · split
      · rename_i hd
        exact step _ (Or.inl hd)
      · split
        · rename_i hs
          simp only [Bool.and_eq_true, decide_eq_true_eq] at hs
          exact step _ (Or.inr hs.1.1)
        · exact ⟨[], by simp, by simp⟩
    · exact ⟨[], by simp, by simp⟩

/-- The bytes that the `while` loop of the consistent-separator block appends
are digits, `-`, `.` or spaces. -/
theorem runWhile_bytes (data : List Nat) (len fuel : Nat) :
    ∀ s : RunState,
      ∃ t, (runWhile data len fuel s).candidate = s.candidate ++ t ∧
        ∀ b ∈ t, isDigit b = true ∨ b = 45 ∨ b = 46 ∨ b = 32 := by
  induction fuel with
  | zero =>
    intro s
    rw [runWhile]
    exact ⟨[], by simp, by simp⟩
  | succ fuel ih =>
    intro s
    rw [runWhile]
    have step : ∀ (dc sep : Nat) (hs : Bool),
        (isDigit (data.getD s.i 0) = true ∨ data.getD s.i 0 = 45 ∨ data.getD s.i 0 = 46 ∨
          data.getD s.i 0 = 32) →
        ∃ t, (runWhile data len fuel
            ⟨s.i + 1, s.candidate ++ [data.getD s.i 0], dc, sep, hs⟩).candidate =
            s.candidate ++ t ∧
          ∀ b ∈ t, isDigit b = true ∨ b = 45 ∨ b = 46 ∨ b = 32 := by
      intro dc sep hs hb
      obtain ⟨t, h1, h2⟩ := ih ⟨s.i + 1, s.candidate ++ [data.getD s.i 0], dc, sep, hs⟩
      dsimp only at h1
      refine ⟨data.getD s.i 0 :: t, by rw [h1]; simp, ?_⟩
      intro b hb1
      rcases List.mem_cons.1 hb1 with h | h
      · rw [h]; exact hb
      · exact h2 b h
    split
    · split
      · rename_i hd
        exact step _ _ _ (Or.inl hd)
      · split
        · rename_i hsep
          simp only [Bool.and_eq_true, Bool.or_eq_true, beq_iff_eq, decide_eq_true_eq] at hsep
          dsimp only
          generalize (if (s.separator == 0) = true then data.getD s.i 0 else s.separator) = sep
          split
          · exact step _ _ _ (Or.inr (by tauto))
          · exact ⟨[], by simp, by simp⟩
        · exact ⟨[], by simp, by simp⟩
    · exact ⟨[], by simp, by simp⟩

/-- A candidate of the parenthesized block is `(`, three digits, `)`, a space,
and then digits and bytes of the separator class. -/
theorem parenCandidate_value (data : List Nat) (len i e : Nat) (x : PhoneMatch)
    (hx : parenCandidate data len i = some (x, e)) :
    ∃ t, x.value = [40, data.getD (i + 1) 0, data.getD (i + 2) 0, data.getD (i + 3) 0, 41, 32]
        ++ t ∧ ∀ b ∈ t, isDigit b = true ∨ isSeparator b = true := by
  unfold parenCandidate at hx
  obtain ⟨t, h1, h2⟩ := parenWhile_bytes data len MAX_PHONE_LENGTH (i + 6)
    ([40] ++ [data.getD (i + 1) 0] ++ [data.getD (i + 2) 0] ++ [data.getD (i + 3) 0] ++
      [41, 32]) 0
  split at hx
  · split at hx
    · dsimp only at hx
      split at hx
      · split at hx
        · simp only [Option.some.injEq, Prod.mk.injEq] at hx
          obtain ⟨rfl, _⟩ := hx
          exact ⟨t, by rw [h1]; rfl, h2⟩
        · cases hx
      · cases hx
    · cases hx
  · cases hx

/-- A candidate of the consistent-separator block consists of digits, `-`,
`.` and spaces. -/
theorem runCandidate_value (data : List Nat) (len i i1 : Nat) (x : PhoneMatch)
    (hx : runCandidate data len i = some (x, i1)) :
    ∀ b ∈ x.value, isDigit b = true ∨ b = 45 ∨ b = 46 ∨ b = 32 := by
  unfold runCandidate at hx
  dsimp only at hx
  obtain ⟨t, h1, h2⟩ := runWhile_bytes data len MAX_PHONE_LENGTH ⟨i, [], 0, 0, false⟩
  rw [List.nil_append] at h1
  split at hx
  · split at hx
    · simp only [Option.some.injEq, Prod.mk.injEq] at hx
      obtain ⟨rfl, _⟩ := hx
      intro b hb
      exact h2 b (by rw [← h1]; exact hb)
    · split at hx
      · simp only [Option.some.injEq, Prod.mk.injEq] at hx
        obtain ⟨rfl, _⟩ := hx
        intro b hb
        exact h2 b (by rw [← h1]; exact hb)
      · split at hx
        · simp only [Option.some.injEq, Prod.mk.injEq] at hx
          obtain ⟨rfl, _⟩ := hx
          intro b hb
          exact h2 b (by rw [← h1]; exact hb)
        · cases hx
  · cases hx

/-- A candidate of Pass C is the run of digits it was cut from. -/
theorem plainCandidate_value (data : List Nat) (i n : Nat) (x : PhoneMatch)
    (hx : plainCandidate data i n = some x) :
    x.value = (data.drop i).take n ∧ x.normalized = (data.drop i).take n ∧ x.position = i ∧
      (n = 10 ∨ n = 11) := by
  unfold plainCandidate at hx
  dsimp only at hx
  split at hx
  · rename_i h10
    simp only [beq_iff_eq] at h10
    split at hx
    · cases hx; exact ⟨rfl, rfl, rfl, Or.inl h10⟩
    · split at hx
      · cases hx; exact ⟨rfl, rfl, rfl, Or.inl h10⟩
      · split at hx
        · cases hx; exact ⟨rfl, rfl, rfl, Or.inl h10⟩
        · cases hx
  · split at hx
    · rename_i h11
      simp only [beq_iff_eq] at h11
      split at hx
      · cases hx; exact ⟨rfl, rfl, rfl, Or.inr h11⟩
      · cases hx
    · cases hx

/-- The digit run of Pass C: the candidate has `digitCount` bytes, all of them
digits. -/
theorem emittedC_value (data : List Nat) (len i : Nat) (x : PhoneMatch)
    (hlen : len ≤ data.length) (hi : i < len)
    (hp : plainCandidate data i (digitRunWhile data len len i 0).2 = some x) :
    (∀ b ∈ x.value, isDigit b = true) ∧ x.normalized = x.value ∧
      x.value.length = (digitRunWhile data len len i 0).2 := by
  obtain ⟨h1, h2, h3⟩ := digitRunWhile_spec data len len i 0
  have h4 := h2 (by omega)
  obtain ⟨hv, hn, _, hk⟩ := plainCandidate_value data i _ x hp
  generalize digitRunWhile data len len i 0 = st at *
  have hcl : ((data.drop i).take st.2).length = st.2 := by
    rw [List.length_take, List.length_drop]; omega
  refine ⟨?_, by rw [hv, hn], by rw [hv, hcl]⟩
  intro b hb
  rw [hv] at hb
  obtain ⟨j, hj1, hj2, rfl⟩ := mem_take_drop data i st.2 b hb
  exact h3 j hj1 (by omega)

/-! ## The category and digit count of a candidate -/

theorem kindOK_of_emittedA (data : List Nat) (len : Nat) (x : PhoneMatch)
    (hx : EmittedA data len x) : KindOK x := by
  obtain ⟨i, _, _, _, _, hlo, hhi, rfl⟩ := hx
  exact Or.inl ⟨rfl, hlo, hhi⟩

theorem kindOK_of_parenCandidate (data : List Nat) (len i e : Nat) (x : PhoneMatch)
    (hx : parenCandidate data len i = some (x, e)) : KindOK x := by
  unfold parenCandidate at hx
  split at hx
  · split at hx
    · dsimp only at hx
      split at hx
      · split at hx
        · rename_i hd
          simp only [Bool.and_eq_true, beq_iff_eq, bne_iff_ne, ne_eq, decide_eq_true_eq,
            ge_iff_le] at hd
          simp only [Option.some.injEq, Prod.mk.injEq] at hx
          obtain ⟨rfl, _⟩ := hx
          exact Or.inr (Or.inl ⟨Or.inl rfl, hd.1.1⟩)
        · cases hx
      · cases hx
    · cases hx
  · cases hx

theorem kindOK_of_runCandidate (data : List Nat) (len i i1 : Nat) (x : PhoneMatch)
    (hx : runCandidate data len i = some (x, i1)) : KindOK x := by
  unfold runCandidate at hx
  dsimp only at hx
  obtain ⟨_, _, h3⟩ := runWhile_spec data len MAX_PHONE_LENGTH ⟨i, [], 0, 0, false⟩
  have h5 := h3 rfl
  generalize runWhile data len MAX_PHONE_LENGTH ⟨i, [], 0, 0, false⟩ = s at *
  split at hx
  · split at hx
    · rename_i hm
      simp only [Bool.and_eq_true, beq_iff_eq, decide_eq_true_eq, ge_iff_le] at hm
      simp only [Option.some.injEq, Prod.mk.injEq] at hx
      obtain ⟨rfl, _⟩ := hx
      exact Or.inr (Or.inl ⟨Or.inr (Or.inr rfl), by rw [h5]; exact hm.1.1.1⟩)
    · split at hx
      · rename_i hm
        simp only [Bool.and_eq_true, beq_iff_eq, bne_iff_ne, ne_eq, decide_eq_true_eq,
          ge_iff_le] at hm
        simp only [Option.some.injEq, Prod.mk.injEq] at hx
        obtain ⟨rfl, _⟩ := hx
        exact Or.inr (Or.inl ⟨Or.inl rfl, by rw [h5]; exact hm.1.1⟩)
      · split at hx
        · rename_i hm
          simp only [Bool.and_eq_true, beq_iff_eq, bne_iff_ne, ne_eq] at hm
          simp only [Option.some.injEq, Prod.mk.injEq] at hx
          obtain ⟨rfl, _⟩ := hx
          exact Or.inr (Or.inr ⟨Or.inl rfl, by rw [h5]; exact hm.1.1⟩)
        · cases hx
  · cases hx

theorem kindOK_of_emittedC (data : List Nat) (len : Nat) (x : PhoneMatch)
    (hlen : len ≤ data.length) (hx : EmittedC data len x) : KindOK x := by
  obtain ⟨i, hi, _, hp⟩ := hx
  obtain ⟨_, hn, hl⟩ := emittedC_value data len i x hlen hi hp
  rw [← hn] at hl
  unfold plainCandidate at hp
  dsimp only at hp
  split at hp
  · rename_i h10
    simp only [beq_iff_eq] at h10
    rw [h10] at hl
    split at hp
    · cases hp; exact Or.inr (Or.inl ⟨Or.inr (Or.inr rfl), hl⟩)
    · split at hp
      · cases hp; exact Or.inr (Or.inl ⟨Or.inr (Or.inl rfl), hl⟩)
      · split at hp
        · cases hp; exact Or.inr (Or.inl ⟨Or.inr (Or.inr rfl), hl⟩)
        · cases hp
  · split at hp
    · rename_i h11
      simp only [beq_iff_eq] at h11
      rw [h11] at hl
      split at hp
      · cases hp; exact Or.inr (Or.inr ⟨Or.inr rfl, hl⟩)
      · cases hp
    · cases hp

theorem kindOK_of_mem_candidates (text : List Nat) (x : PhoneMatch)
    (hx : x ∈ candidates text) : KindOK x := by
  rcases mem_candidates text x hx with h | h | h
  · exact kindOK_of_emittedA _ _ _ h
  · obtain ⟨i, _, ⟨e, h1⟩ | ⟨_, i1, h1⟩⟩ := h
    · exact kindOK_of_parenCandidate _ _ _ _ _ h1
    · exact kindOK_of_runCandidate _ _ _ _ _ h1
  · exact kindOK_of_emittedC _ _ _ (Nat.le_refl _) h

/-! ## The bytes and the categories of the matches -/

set_option maxRecDepth 20000 in
/-- C23 as stated fails: the tab is a byte of the separator class (entry `0x09`
of `charTable`), so Pass A appends it; `"+1\t2345678"` is matched whole, with
the tab in `value`. -/
theorem passA_value_with_tab :
    extract (bytes ("+1\t2345678")) =
      [⟨PhoneType.INTERNATIONAL_PLUS, bytes ("+1\t2345678"), bytes ("12345678"), 0⟩] ∧
    (bytes ("+1\t2345678")).getD 2 0 = 9 ∧ isSeparator 9 = true := by
  decide

/-- C23 (bytes of an international match, amended): for every input text and
every `INTERNATIONAL_PLUS` match `m` of `extract text`, `m.value` starts with
`+` and each of its other bytes is a digit, a space, a tab, `-`, `.`, `(` or
`)`. -/
theorem international_value_bytes (text : List Nat) (m : PhoneMatch)
    (hm : m ∈ extract text) (ht : m.type = PhoneType.INTERNATIONAL_PLUS) :
    ∃ rest, m.value = 43 :: rest ∧
      ∀ b ∈ rest, (48 ≤ b ∧ b ≤ 57) ∨ b = 32 ∨ b = 9 ∨ b = 45 ∨ b = 46 ∨ b = 40 ∨ b = 41 := by
  obtain ⟨i, _, _, _, _, _, _, rfl⟩ :=
    emittedA_of_international text m (mem_extract text m hm).1 ht
  obtain ⟨t, h1, h2⟩ :=
    scanInternationalWhile_bytes text text.length MAX_PHONE_LENGTH (i + 1) [43] 0
  refine ⟨t, h1, ?_⟩
  intro b hb
  rcases h2 b hb with h | h
  · exact Or.inl ((isDigit_iff b).1 h)
  · exact Or.inr ((isSeparator_iff b).1 h)

set_option maxRecDepth 20000 in
/-- Witness of C23 (amended) on `"fax +44 (20) 1234.5678"`. -/
theorem international_value_bytes_witness :
    (⟨PhoneType.INTERNATIONAL_PLUS, bytes ("+44 (20) 1234.5678"), bytes ("442012345678"), 4⟩ :
        PhoneMatch) ∈ extract (bytes ("fax +44 (20) 1234.5678")) ∧
    ∃ rest, bytes ("+44 (20) 1234.5678") = 43 :: rest ∧
      ∀ b ∈ rest, (48 ≤ b ∧ b ≤ 57) ∨ b = 32 ∨ b = 9 ∨ b = 45 ∨ b = 46 ∨ b = 40 ∨ b = 41 :=
  ⟨by decide,
   international_value_bytes (bytes ("fax +44 (20) 1234.5678"))
     ⟨PhoneType.INTERNATIONAL_PLUS, bytes ("+44 (20) 1234.5678"), bytes ("442012345678"), 4⟩
     (by decide) rfl⟩

set_option maxRecDepth 20000 in
/-- C24 as stated fails: the `while` loop of the parenthesized block (lines
270-285) appends every byte of the separator class between the trailing
digits; `"(234) 5-6.78900"` is matched whole, with a `-` and a `.` after its
first six bytes. -/
theorem paren_value_with_two_separators :
    extract (bytes ("(234) 5-6.78900")) =
      [⟨PhoneType.FORMATTED_DOMESTIC, bytes ("(234) 5-6.78900"), bytes ("2345678900"), 0⟩] ∧
    (bytes ("(234) 5-6.78900")).drop 6 = bytes ("5-6.78900") ∧
    (bytes ("5-6.78900")).getD 1 0 = 45 ∧ (bytes ("5-6.78900")).getD 3 0 = 46 := by
  decide

/-- C24 (separators of the parenthesized fast path, amended): for every input
text and every match `m` of `extract text` whose value begins with `(`, every
non-digit byte of `m.value` after its first six bytes is a byte of the
separator class (space, tab, `-`, `.`, `(` or `)`); these bytes need not be
equal to one another. -/
theorem paren_value_tail_bytes (text : List Nat) (m : PhoneMatch)
    (hm : m ∈ extract text) (h0 : m.value.head? = some 40) :
    ∀ b ∈ m.value.drop 6,
      (48 ≤ b ∧ b ≤ 57) ∨ b = 32 ∨ b = 9 ∨ b = 45 ∨ b = 46 ∨ b = 40 ∨ b = 41 := by
  have hc := (mem_extract text m hm).1
  have hg := good_of_mem_candidates text m hc
  have hhead : 40 ∈ m.value := List.mem_of_mem_head? (by rw [h0]; rfl)
  rcases mem_candidates text m hc with h | h | h
  · obtain ⟨i, _, _, _, _, _, _, rfl⟩ := h
    obtain ⟨t, h1, _⟩ :=
      scanInternationalWhile_bytes text text.length MAX_PHONE_LENGTH (i + 1) [43] 0
    dsimp only at h0
    rw [h1] at h0
    cases h0
  · obtain ⟨i, _, ⟨e, h1⟩ | ⟨_, i1, h1⟩⟩ := h
    · obtain ⟨t, h2, h3⟩ := parenCandidate_value text text.length i e m h1
      intro b hb
      rw [h2] at hb
      have hb1 : b ∈ t := by simpa using hb
      rcases h3 b hb1 with h | h
      · exact Or.inl ((isDigit_iff b).1 h)
      · exact Or.inr ((isSeparator_iff b).1 h)
    · rcases runCandidate_value text text.length i i1 m h1 40 hhead with h | h | h | h
      · cases h
      · cases h
      · cases h
      · cases h
  · obtain ⟨i, hi, _, hp⟩ := h
    have h1 := (emittedC_value text text.length i m (Nat.le_refl _) hi hp).1 40 hhead
    cases h1

set_option maxRecDepth 20000 in
/-- Witness of C24 (amended) on `"Call me at (123) 456-7890"`. -/
theorem paren_value_tail_bytes_witness :
    (⟨PhoneType.FORMATTED_DOMESTIC, bytes ("(123) 456-7890"), bytes ("1234567890"), 11⟩ :
        PhoneMatch) ∈ extract (bytes ("Call me at (123) 456-7890")) ∧
    ∀ b ∈ (bytes ("(123) 456-7890")).drop 6,
      (48 ≤ b ∧ b ≤ 57) ∨ b = 32 ∨ b = 9 ∨ b = 45 ∨ b = 46 ∨ b = 40 ∨ b = 41 :=
  ⟨by decide,
   paren_value_tail_bytes (bytes ("Call me at (123) 456-7890"))
     ⟨PhoneType.FORMATTED_DOMESTIC, bytes ("(123) 456-7890"), bytes ("1234567890"), 11⟩
     (by decide) rfl⟩

/-- C26 (category and digit count): for every input text and every match `m`
of `extract text`, `m` is `INTERNATIONAL_PLUS` with 7 to 15 digits, or
`FORMATTED_DOMESTIC`, `PLAIN_10_DIGIT` or `MOBILE_10_DIGIT` with exactly 10
digits, or `FORMATTED_TOLL_FREE` or `PLAIN_11_DIGIT` with exactly 11 digits; in
particular `m` is neither `INTERNATIONAL_00` nor `UNKNOWN` and has at least 7
digits. -/
theorem extract_type_and_digit_count (text : List Nat) (m : PhoneMatch)
    (hm : m ∈ extract text) :
    ((m.type = PhoneType.INTERNATIONAL_PLUS ∧ 7 ≤ m.normalized.length ∧
        m.normalized.length ≤ 15) ∨
      ((m.type = PhoneType.FORMATTED_DOMESTIC ∨ m.type = PhoneType.PLAIN_10_DIGIT ∨
          m.type = PhoneType.MOBILE_10_DIGIT) ∧ m.normalized.length = 10) ∨
      ((m.type = PhoneType.FORMATTED_TOLL_FREE ∨ m.type = PhoneType.PLAIN_11_DIGIT) ∧
        m.normalized.length = 11)) ∧
    m.type ≠ PhoneType.INTERNATIONAL_00 ∧ m.type ≠ PhoneType.UNKNOWN ∧
    (m.type ≠ PhoneType.INTERNATIONAL_PLUS → 10 ≤ m.normalized.length) := by
  have hk := kindOK_of_mem_candidates text m (mem_extract text m hm).1
  refine ⟨hk, ?_, ?_, ?_⟩
  · intro h
    rcases hk with ⟨h1, _⟩ | ⟨h1 | h1 | h1, _⟩ | ⟨h1 | h1, _⟩ <;> rw [h] at h1 <;> cases h1
  · intro h
    rcases hk with ⟨h1, _⟩ | ⟨h1 | h1 | h1, _⟩ | ⟨h1 | h1, _⟩ <;> rw [h] at h1 <;> cases h1
  · intro h
    rcases hk with ⟨h1, _⟩ | ⟨_, h2⟩ | ⟨_, h2⟩
    · exact absurd h1 h
    · omega
    · omega

set_option maxRecDepth 20000 in
/-- Witness of C26 on `"Contact: 123-456-7890 or 987-654-3210"`; the 7-digit
`"456-7890"` alone gives no match. -/
theorem extract_type_and_digit_count_witness :
    (⟨PhoneType.FORMATTED_DOMESTIC, bytes ("987-654-3210"), bytes ("9876543210"), 25⟩ :
        PhoneMatch) ∈ extract (bytes ("Contact: 123-456-7890 or 987-654-3210")) ∧
    10 ≤ (bytes ("9876543210")).length ∧
    extract (bytes ("456-7890")) = [] :=
  ⟨by decide,
   (extract_type_and_digit_count (bytes ("Contact: 123-456-7890 or 987-654-3210"))
     ⟨PhoneType.FORMATTED_DOMESTIC, bytes ("987-654-3210"), bytes ("9876543210"), 25⟩
     (by decide)).2.2.2 (by decide),
   by decide⟩

/-! ## Texts on which a pass emits nothing, and the merge of one candidate -/

/-- The merge loop drops every candidate that starts before `lastEnd`. -/
theorem mergeLoop_eq_nil_of_lt (l : List PhoneMatch) (lastEnd : Nat)
    (hl : ∀ x ∈ l, x.position < lastEnd) : mergeLoop l lastEnd [] = [] := by
  induction l with
  | nil => rfl
  | cons y rest ih =>
    have hy := hl y (List.mem_cons_self _ _)
    rw [mergeLoop_cons, if_neg (by omega)]
    exact ih (fun x hx => hl x (List.mem_cons_of_mem _ hx))

/-- Pass A emits nothing on a text without `+`. -/
theorem scanInternational_eq_nil (data : List Nat) (len : Nat)
    (hp : ∀ j, data.getD j 0 ≠ 43) : scanInternational data len [] = [] := by
  rw [List.eq_nil_iff_forall_not_mem]
  intro x hx
  unfold scanInternational at hx
  rcases mem_scanInternationalLoop _ _ _ _ _ _ hx with h | h
  · cases h
  · obtain ⟨i, _, h1, _⟩ := h
    exact hp i h1

theorem scanInternationalLoop_done (data : List Nat) (len fuel i : Nat) (m : List PhoneMatch)
    (h : len ≤ i) : scanInternationalLoop data len fuel i m = m := by
  cases fuel with
  | zero => rfl
  | succ f => rw [scanInternationalLoop, if_neg (by omega)]

theorem scanFormattedNumbersLoop_done (data : List Nat) (len fuel i : Nat)
    (m : List PhoneMatch) (h : len ≤ i) : scanFormattedNumbersLoop data len fuel i m = m := by
  cases fuel with
  | zero => rfl
  | succ f => rw [scanFormattedNumbersLoop, if_neg (by omega)]

theorem scanPlainDigitsLoop_done (data : List Nat) (len fuel i : Nat) (m : List PhoneMatch)
    (h : len ≤ i) : scanPlainDigitsLoop data len fuel i m = m := by
  cases fuel with
  | zero => rfl
  | succ f => rw [scanPlainDigitsLoop, if_neg (by omega)]

/-- On bytes that are all digits the `while` loop of the consistent-separator
block sees no separator. -/
theorem runWhile_hasSeparator_of_digits (data : List Nat) (len fuel : Nat)
    (hd : ∀ j, j < len → isDigit (data.getD j 0) = true) :
    ∀ s : RunState, (runWhile data len fuel s).hasSeparator = s.hasSeparator := by
  induction fuel with
  | zero =>
    intro s
    rw [runWhile]
  | succ fuel ih =>
    intro s
    rw [runWhile]
    split
    · rename_i hc
      simp only [Bool.and_eq_true, decide_eq_true_eq] at hc
      rw [if_pos (hd s.i hc.1)]
      exact ih _
    · rfl

/-- Pass B emits nothing on a text made of digits only. -/
theorem scanFormattedNumbers_eq_nil_of_digits (data : List Nat) (len : Nat)
    (hd : ∀ j, j < len → isDigit (data.getD j 0) = true) :
    scanFormattedNumbers data len [] = [] := by
  rw [List.eq_nil_iff_forall_not_mem]
  intro x hx
  unfold scanFormattedNumbers at hx
  rcases mem_scanFormattedNumbersLoop _ _ _ _ _ _ hx with h | h
  · cases h
  · obtain ⟨i, hi, ⟨e, h1⟩ | ⟨_, i1, h1⟩⟩ := h
    · unfold parenCandidate at h1
      have h40 : ¬ data.getD i 0 = 40 := by
        intro h
        have := hd i hi
        rw [h] at this
        exact absurd this (by decide)
      rw [if_neg (by simp only [Bool.and_eq_true, beq_iff_eq, decide_eq_true_eq]; tauto)] at h1
      cases h1
    · unfold runCandidate at h1
      dsimp only at h1
      have hs := runWhile_hasSeparator_of_digits data len MAX_PHONE_LENGTH hd
        ⟨i, [], 0, 0, false⟩
      dsimp only at hs
      rw [hs] at h1
      simp at h1

/-- On a run of digits that reaches the end of the text the `while` loop of
Pass C stops at `len`. -/
theorem digitRunWhile_of_digits (data : List Nat) (len fuel : Nat) :
    ∀ (i digitCount : Nat),
      (∀ j, i ≤ j → j < len → isDigit (data.getD j 0) = true) → i ≤ len → len ≤ fuel + i →
      digitRunWhile data len fuel i digitCount = (len, digitCount + (len - i)) := by
  induction fuel with
  | zero =>
    intro i digitCount _ h1 h2
    rw [digitRunWhile]
    have : i = len := by omega
    subst this
    simp
  | succ fuel ih =>
    intro i digitCount hd h1 h2
    rw [digitRunWhile]
    by_cases hi : i < len
    · rw [if_pos (by rw [Bool.and_eq_true]; exact ⟨decide_eq_true hi, hd i (Nat.le_refl _) hi⟩),
        ih (i + 1) (digitCount + 1) (fun j hj => hd j (by omega)) (by omega) (by omega)]
      congr 1
      omega
    · rw [if_neg (by simp only [Bool.and_eq_true, decide_eq_true_eq]; tauto)]
      have : i = len := by omega
      subst this
      simp

/-- Pass C on a text made of digits only: the classification of the whole
text as one run. -/
theorem scanPlainDigits_of_digits (data : List Nat) (len : Nat) (hpos : 0 < len)
    (hd : ∀ j, j < len → isDigit (data.getD j 0) = true) :
    scanPlainDigits data len [] = (plainCandidate data 0 len).toList := by
  unfold scanPlainDigits
  obtain ⟨n, rfl⟩ : ∃ n, len = n + 1 := ⟨len - 1, by omega⟩
  have hrun : digitRunWhile data (n + 1) (n + 1) 0 0 = (n + 1, n + 1) := by
    rw [digitRunWhile_of_digits data (n + 1) (n + 1) 0 0 (fun j _ hj => hd j hj)
      (by omega) (by omega)]
    simp
  rw [scanPlainDigitsLoop, if_pos (by omega),
    if_neg (by rw [hd 0 (by omega)]; decide), if_neg (by simp)]
  dsimp only
  rw [hrun]
  dsimp only
  rw [if_neg (by simp)]
  cases hpc : plainCandidate data 0 (n + 1) with
  | none =>
    dsimp only
    rw [scanPlainDigitsLoop_done _ _ _ _ _ (by omega)]
    rfl
  | some pm =>
    dsimp only
    rw [scanPlainDigitsLoop_done _ _ _ _ _ (by omega)]
    rfl

/-! ## Texts that are one number -/

/-- On a text made of digits only, `extract` returns what Pass C emits for the
whole text as one run. -/
theorem extract_of_digits (t : List Nat) (hd : ∀ c ∈ t, isDigit c = true)
    (hmin : 7 ≤ t.length) (hmax : t.length ≤ MAX_INPUT_SIZE) :
    extract t = (plainCandidate t 0 t.length).toList := by
  have hdig : ∀ j, j < t.length → isDigit (t.getD j 0) = true := by
    intro j hj
    rw [List.getD_eq_getElem t 0 hj]
    exact hd _ (List.getElem_mem hj)
  have hplus : ∀ j, t.getD j 0 ≠ 43 := by
    intro j h
    by_cases hj : j < t.length
    · have := hdig j hj
      rw [h] at this
      exact absurd this (by decide)
    · rw [List.getD_eq_default _ _ (by omega)] at h
      cases h
  have hc : candidates t = (plainCandidate t 0 t.length).toList := by
    rw [candidates_eq_append, scanInternational_eq_nil t _ hplus,
      scanFormattedNumbers_eq_nil_of_digits t _ hdig,
      scanPlainDigits_of_digits t _ (by omega) hdig]
    rfl
  cases hp : plainCandidate t 0 t.length with
  | none =>
    rw [hp] at hc
    unfold extract
    dsimp only
    rw [hc]
    split <;> rfl
  | some pm =>
    rw [hp] at hc
    have h0 := (plainCandidate_value t 0 _ pm hp).2.2.1
    rw [extract_head_of_candidates_cons t pm [] (by unfold MIN_DIGITS; omega) hmax hc h0]
    rfl

/-- C22 (plain-run classification): for every text `t` made only of digit
bytes with `7 <= len(t) <= 10*2^20`: a 10-byte `t` gives the single match
`MOBILE_10_DIGIT` when `t[0]` is in `'6'..'9'` or is `'1'`, the single match
`PLAIN_10_DIGIT` when `t[0]` is in `'2'..'5'` and `t[3] >= '2'`, and nothing
otherwise; an 11-byte `t` gives the single match `PLAIN_11_DIGIT` when
`t[0] == '1'` and `t[1] != '0'`, and nothing otherwise; every other length
gives nothing.  Each match has `value = normalized = t` at position 0. -/
theorem extract_plain_run (t : List Nat) (hd : ∀ c ∈ t, 48 ≤ c ∧ c ≤ 57)
    (hmin : 7 ≤ t.length) (hmax : t.length ≤ 10 * 2 ^ 20) :
    extract t =
      if t.length = 10 then
        if (54 ≤ t.getD 0 0 ∧ t.getD 0 0 ≤ 57) ∨ t.getD 0 0 = 49 then
          [⟨PhoneType.MOBILE_10_DIGIT, t, t, 0⟩]
        else if 50 ≤ t.getD 0 0 ∧ t.getD 0 0 ≤ 53 ∧ 50 ≤ t.getD 3 0 then
          [⟨PhoneType.PLAIN_10_DIGIT, t, t, 0⟩]
        else []
      else if t.length = 11 then
        if t.getD 0 0 = 49 ∧ t.getD 1 0 ≠ 48 then [⟨PhoneType.PLAIN_11_DIGIT, t, t, 0⟩]
        else []
      else [] := by
  rw [extract_of_digits t (fun c hc => (isDigit_iff c).2 (hd c hc)) hmin
    (by unfold MAX_INPUT_SIZE; omega)]
  unfold plainCandidate
  simp only [List.drop_zero, List.take_length]
  generalize t.getD 0 0 = a
  generalize t.getD 1 0 = b
  generalize t.getD 3 0 = c
  generalize t.length = n
  by_cases h10 : n = 10
  · subst h10
    simp only [beq_self_eq_true, if_true]
    by_cases h1 : 54 ≤ a ∧ a ≤ 57
    · rw [if_pos (by simpa using h1), if_pos (Or.inl h1)]
      rfl
    · rw [if_neg (by simpa using h1)]
      by_cases h2 : 50 ≤ a ∧ a ≤ 53 ∧ 50 ≤ c
      · rw [if_pos (by simp only [Bool.and_eq_true, decide_eq_true_eq, ge_iff_le]; tauto),
          if_neg (by omega), if_pos h2]
        rfl
      · rw [if_neg (by simp only [Bool.and_eq_true, decide_eq_true_eq, ge_iff_le]; tauto)]
        by_cases h3 : a = 49
        · rw [if_pos (by simpa using h3), if_pos (Or.inr h3)]
          rfl
        · rw [if_neg (by simpa using h3), if_neg (by tauto), if_neg h2]
          rfl
  · rw [if_neg (by simpa using h10), if_neg h10]
    by_cases h11 : n = 11
    · subst h11
      simp only [beq_self_eq_true, if_true]
      by_cases h1 : a = 49 ∧ b ≠ 48
      · rw [if_pos (by simpa using h1), if_pos h1]
        rfl
      · rw [if_neg (by simpa using h1), if_neg h1]
        rfl
    · rw [if_neg (by simpa using h11), if_neg h11]
      rfl

set_option maxRecDepth 20000 in
/-- Witness of C22 on `"2345678901"`. -/
theorem extract_plain_run_witness :
    (∀ c ∈ bytes ("2345678901"), 48 ≤ c ∧ c ≤ 57) ∧
    extract (bytes ("2345678901")) =
      [⟨PhoneType.PLAIN_10_DIGIT, bytes ("2345678901"), bytes ("2345678901"), 0⟩] :=
  ⟨by decide,
   (extract_plain_run (bytes ("2345678901")) (by decide) (by decide) (by decide)).trans
     (by decide)⟩

/-! ## The consistent-separator loop on groups of digits -/

theorem intercalate_eq_sepTail (c : Nat) (g : List Nat) (gs : List (List Nat)) :
    List.intercalate [c] (g :: gs) = g ++ sepTail c gs := by
  induction gs generalizing g with
  | nil => simp [List.intercalate, List.intersperse, sepTail]
  | cons h gs ih =>
    have h1 := ih h
    simp only [List.intercalate, List.intersperse, List.flatten_cons] at h1 ⊢
    rw [h1, sepTail]
    simp

theorem getD_append_cons (pre suf : List Nat) (b : Nat) :
    (pre ++ b :: suf).getD pre.length 0 = b := by
  rw [List.getD_append_right _ _ _ _ (Nat.le_refl _), Nat.sub_self]
  rfl

theorem getD_append_cons_cons (pre suf : List Nat) (a b : Nat) :
    (pre ++ a :: b :: suf).getD (pre.length + 1) 0 = b := by
  rw [List.getD_append_right _ _ _ _ (by omega), Nat.add_sub_cancel_left]
  rfl

theorem runWhile_done (data : List Nat) (len fuel : Nat) (s : RunState) (h : len ≤ s.i) :
    runWhile data len fuel s = s := by
  cases fuel with
  | zero => rfl
  | succ f =>
    rw [runWhile, if_neg]
    simp only [Bool.and_eq_true, decide_eq_true_eq]
    omega

/-- The loop appends a group of digits. -/
theorem runWhile_digits (data : List Nat) (len : Nat) (suf : List Nat) :
    ∀ (g pre cand : List Nat) (dc sep : Nat) (hs : Bool) (fuel : Nat),
      data = pre ++ (g ++ suf) → len = data.length → (∀ b ∈ g, isDigit b = true) →
      g.length ≤ fuel → cand.length + g.length ≤ MAX_PHONE_LENGTH →
      runWhile data len fuel ⟨pre.length, cand, dc, sep, hs⟩ =
        runWhile data len (fuel - g.length)
          ⟨pre.length + g.length, cand ++ g, dc + g.length, sep, hs⟩ := by
  intro g
  induction g with
  | nil =>
    intro pre cand dc sep hs fuel _ _ _ _ _
    simp
  | cons b g ih =>
    intro pre cand dc sep hs fuel hdata hlen hd hf hc
    obtain ⟨f, rfl⟩ : ∃ f, fuel = f + 1 := ⟨fuel - 1, by
      rw [List.length_cons] at hf; omega⟩
    rw [List.length_cons] at hf hc
    have hb : data.getD pre.length 0 = b := by
      rw [hdata]; exact getD_append_cons pre (g ++ suf) b
    rw [runWhile]
    dsimp only
    rw [if_pos, hb, if_pos (hd b (List.mem_cons_self _ _))]
    · have h1 := ih (pre ++ [b]) (cand ++ [b]) (dc + 1) sep hs f
        (by rw [hdata]; simp) hlen (fun x hx => hd x (List.mem_cons_of_mem _ hx))
        (by omega) (by rw [List.length_append, List.length_singleton]; omega)
      rw [List.length_append, List.length_singleton] at h1
      rw [h1, List.length_cons]
      have e1 : f + 1 - (g.length + 1) = f - g.length := by omega
      have e2 : pre.length + 1 + g.length = pre.length + (g.length + 1) := by omega
      have e3 : dc + 1 + g.length = dc + (g.length + 1) := by omega
      rw [e1, e2, e3, List.append_assoc, List.singleton_append]
    · simp only [Bool.and_eq_true, decide_eq_true_eq]
      rw [hlen, hdata]
      simp only [List.length_append, List.length_cons]
      omega

/-- The loop appends the separator byte in front of a digit. -/
theorem runWhile_separator (data : List Nat) (len : Nat) (pre suf cand : List Nat)
    (c b dc sep : Nat) (hs : Bool) (fuel : Nat)
    (hdata : data = pre ++ c :: b :: suf) (hlen : len = data.length)
    (hc : c = 45 ∨ c = 46 ∨ c = 32) (hb : isDigit b = true)
    (hdc : 0 < dc) (hdc1 : dc < 11) (hsep : sep = 0 ∨ sep = c)
    (hcand : cand.length < MAX_PHONE_LENGTH) :
    runWhile data len (fuel + 1) ⟨pre.length, cand, dc, sep, hs⟩ =
      runWhile data len fuel ⟨pre.length + 1, cand ++ [c], dc, c, true⟩ := by
  have h1 : data.getD pre.length 0 = c := by
    rw [hdata]; exact getD_append_cons pre (b :: suf) c
  have h2 : data.getD (pre.length + 1) 0 = b := by
    rw [hdata]; exact getD_append_cons_cons pre suf c b
  have hnd : ¬ isDigit c = true := by
    rcases hc with h | h | h <;> rw [h] <;> decide
  have hc0 : c ≠ 0 := by omega
  have hsel : (if (sep == 0) = true then c else sep) = c := by
    rcases hsep with h | h
    · rw [h]; rfl
    · rw [h, if_neg (by simpa using hc0)]
  rw [runWhile]
  dsimp only
  rw [h1, h2, if_pos, if_neg hnd, if_pos, hsel, if_pos (by simp)]
  · simp only [Bool.and_eq_true, Bool.or_eq_true, beq_iff_eq, decide_eq_true_eq]
    refine ⟨⟨⟨⟨by tauto, hdc⟩, hdc1⟩, ?_⟩, hb⟩
    rw [hlen, hdata]
    simp only [List.length_append, List.length_cons]
    omega
  · simp only [Bool.and_eq_true, decide_eq_true_eq]
    refine ⟨?_, hcand⟩
    rw [hlen, hdata]
    simp only [List.length_append, List.length_cons]
    omega

theorem length_sepTail_pos (c : Nat) (h : List Nat) (gs : List (List Nat)) :
    (sepTail c (h :: gs)).length = 1 + h.length + (sepTail c gs).length := by
  rw [sepTail, List.length_cons, List.length_append]
  omega

/-- The loop run over digit groups joined by one separator byte: it reaches
the end of the text with the whole text as candidate. -/
theorem runWhile_groups (data : List Nat) (len c : Nat) (hc : c = 45 ∨ c = 46 ∨ c = 32) :
    ∀ (gs : List (List Nat)) (g pre cand : List Nat) (dc sep : Nat) (hs : Bool) (fuel : Nat),
      data = pre ++ (g ++ sepTail c gs) → len = data.length →
      g ≠ [] → (∀ b ∈ g, isDigit b = true) →
      (∀ h ∈ gs, h ≠ [] ∧ ∀ b ∈ h, isDigit b = true) →
      (sep = 0 ∨ sep = c) →
      dc + g.length + gs.flatten.length ≤ 11 →
      cand.length + (g ++ sepTail c gs).length ≤ MAX_PHONE_LENGTH →
      (g ++ sepTail c gs).length ≤ fuel →
      runWhile data len fuel ⟨pre.length, cand, dc, sep, hs⟩ =
        ⟨len, cand ++ (g ++ sepTail c gs), dc + g.length + gs.flatten.length,
          if gs = [] then sep else c, hs || !gs.isEmpty⟩ := by
  intro gs
  induction gs with
  | nil =>
    intro g pre cand dc sep hs fuel hdata hlen _ hg _ _ _ hcand hfuel
    simp only [sepTail, List.append_nil] at hdata hcand hfuel ⊢
    rw [runWhile_digits data len [] g pre cand dc sep hs fuel (by rw [hdata]; simp) hlen hg
      hfuel hcand]
    rw [runWhile_done _ _ _ _ (by dsimp only; rw [hlen, hdata, List.length_append])]
    have e : pre.length + g.length = len := by rw [hlen, hdata, List.length_append]
    simp [e]
  | cons h gs ih =>
    intro g pre cand dc sep hs fuel hdata hlen hgne hg hgs hsep hdc hcand hfuel
    obtain ⟨hhne, hh⟩ := hgs h (List.mem_cons_self _ _)
    obtain ⟨b, h1, rfl⟩ : ∃ b h1, h = b :: h1 := by
      cases h with
      | nil => exact absurd rfl hhne
      | cons b h1 => exact ⟨b, h1, rfl⟩
    have hglen : 0 < g.length := List.length_pos.2 hgne
    rw [List.length_append, length_sepTail_pos, List.length_cons] at hcand hfuel
    rw [List.flatten_cons, List.length_append, List.length_cons] at hdc
    -- the first group
    rw [runWhile_digits data len (sepTail c ((b :: h1) :: gs)) g pre cand dc sep hs fuel hdata
      hlen hg (by omega) (by omega)]
    -- the separator
    obtain ⟨f, hf⟩ : ∃ f, fuel - g.length = f + 1 := ⟨fuel - g.length - 1, by omega⟩
    rw [hf, ← List.length_append]
    rw [runWhile_separator data len (pre ++ g) (h1 ++ sepTail c gs) (cand ++ g) c b
      (dc + g.length) sep hs f (by rw [hdata, sepTail]; simp) hlen hc
      (hh b (List.mem_cons_self _ _)) (by omega) (by omega) hsep
      (by rw [List.length_append]; omega)]
    -- the remaining groups
    have e1 : (pre ++ g).length + 1 = (pre ++ g ++ [c]).length := by
      rw [List.length_append (pre ++ g), List.length_singleton]
    rw [e1]
    rw [ih (b :: h1) (pre ++ g ++ [c]) (cand ++ g ++ [c]) (dc + g.length) c true f
      (by rw [hdata, sepTail]; simp) hlen hhne hh
      (fun x hx => hgs x (List.mem_cons_of_mem _ hx)) (Or.inr rfl)
      (by rw [List.length_cons]; omega)
      (by simp only [List.length_append, List.length_cons, List.length_singleton,
            List.length_nil]; omega)
      (by simp only [List.length_append, List.length_cons]; omega)]
    simp only [sepTail, List.flatten_cons, List.length_append, List.length_cons,
      List.append_assoc, List.singleton_append, List.cons_append, List.nil_append,
      reduceCtorEq, if_false, ite_self, List.isEmpty_cons, Bool.not_false, Bool.or_true,
      Bool.true_or, RunState.mk.injEq, and_true, true_and]
    omega

theorem extractDigits_sepTail (c : Nat) (hc : c = 45 ∨ c = 46 ∨ c = 32)
    (gs : List (List Nat)) (hgs : ∀ h ∈ gs, h ≠ [] ∧ ∀ b ∈ h, isDigit b = true) :
    extractDigits (sepTail c gs) = gs.flatten := by
  induction gs with
  | nil => rfl
  | cons h gs ih =>
    have hnd : ¬ isDigit c = true := by
      rcases hc with h | h | h <;> rw [h] <;> decide
    have e : c :: (h ++ sepTail c gs) = [c] ++ (h ++ sepTail c gs) := rfl
    rw [sepTail, e, extractDigits_append, extractDigits_append,
      ih (fun x hx => hgs x (List.mem_cons_of_mem _ hx)),
      extractDigits_of_all h (hgs h (List.mem_cons_self _ _)).2, List.flatten_cons]
    have e0 : extractDigits [c] = [] := by
      rw [extractDigits_eq_filter, List.filter_cons_of_neg hnd]; rfl
    rw [e0, List.nil_append]

theorem length_sepTail_le (c : Nat) (gs : List (List Nat))
    (hgs : ∀ h ∈ gs, h ≠ [] ∧ ∀ b ∈ h, isDigit b = true) :
    (sepTail c gs).length ≤ 2 * gs.flatten.length := by
  induction gs with
  | nil => simp [sepTail]
  | cons h gs ih =>
    have h1 := ih (fun x hx => hgs x (List.mem_cons_of_mem _ hx))
    have h2 : 0 < h.length := List.length_pos.2 (hgs h (List.mem_cons_self _ _)).1
    rw [length_sepTail_pos, List.flatten_cons, List.length_append]
    omega

theorem length_sepTail_ge (c : Nat) (gs : List (List Nat)) :
    gs.flatten.length ≤ (sepTail c gs).length := by
  induction gs with
  | nil => simp [sepTail]
  | cons h gs ih =>
    rw [length_sepTail_pos, List.flatten_cons, List.length_append]
    omega

theorem mem_sepTail (c : Nat) (gs : List (List Nat))
    (hgs : ∀ h ∈ gs, h ≠ [] ∧ ∀ b ∈ h, isDigit b = true) :
    ∀ b ∈ sepTail c gs, isDigit b = true ∨ b = c := by
  induction gs with
  | nil => intro b hb; simp [sepTail] at hb
  | cons h gs ih =>
    intro b hb
    rw [sepTail, List.mem_cons, List.mem_append] at hb
    rcases hb with hb | hb | hb
    · exact Or.inr hb
    · exact Or.inl ((hgs h (List.mem_cons_self _ _)).2 b hb)
    · exact ih (fun x hx => hgs x (List.mem_cons_of_mem _ hx)) b hb

/-- A text whose consistent-separator candidate from offset 0 is the whole
text, and that holds no `+`, has that candidate as its only match. -/
theorem extract_of_runCandidate_whole (text : List Nat) (x : PhoneMatch)
    (hmin : MIN_DIGITS ≤ text.length) (hmax : text.length ≤ MAX_INPUT_SIZE)
    (hplus : ∀ j, text.getD j 0 ≠ 43) (hd0 : isDigit (text.getD 0 0) = true)
    (hrun : runCandidate text text.length 0 = some (x, text.length))
    (hpos : x.position = 0) (hval : x.value.length = text.length) :
    extract text = [x] := by
  have hB : scanFormattedNumbers text text.length [] = [x] := by
    unfold scanFormattedNumbers
    obtain ⟨n, hn⟩ : ∃ n, text.length = n + 1 := ⟨text.length - 1, by
      unfold MIN_DIGITS at hmin; omega⟩
    have hparen : parenCandidate text text.length 0 = none := by
      unfold parenCandidate
      rw [if_neg]
      simp only [Bool.and_eq_true, beq_iff_eq, decide_eq_true_eq, not_and]
      intro h
      rw [h] at hd0
      exact absurd hd0 (by decide)
    have hfuel : scanFormattedNumbersLoop text text.length text.length 0 [] =
        scanFormattedNumbersLoop text text.length (n + 1) 0 [] :=
      scanFormattedNumbersLoop_fuel text text.length _ _ 0 [] (by omega) (by omega)
    rw [hfuel, scanFormattedNumbersLoop, if_pos (by omega), hparen]
    dsimp only
    rw [if_pos (by rw [hd0]; rfl), hrun]
    dsimp only
    rw [scanFormattedNumbersLoop_done _ _ _ _ _ (by omega)]
    rfl
  have hc : candidates text = x :: scanPlainDigits text text.length [] := by
    rw [candidates_eq_append, scanInternational_eq_nil text _ hplus, hB]
    rfl
  rw [extract_head_of_candidates_cons text x _ hmin hmax hc hpos, List.cons.injEq]
  refine ⟨rfl, ?_⟩
  apply mergeLoop_eq_nil_of_lt
  intro y hy
  have hy1 : y ∈ candidates text := by
    rw [hc]
    exact List.mem_cons_of_mem _ ((mem_sortByPosition _ _).1 hy)
  have hg := good_of_mem_candidates text y hy1
  have h1 := hg.bound
  have h2 := hg.nonempty
  omega

/-- The consistent-separator block on a text of digit groups joined by one
separator byte, with 10 or 11 digits: the loop returns the whole text. -/
theorem runWhile_of_groups (c : Nat) (g : List Nat) (gs : List (List Nat))
    (hc : c = 45 ∨ c = 46 ∨ c = 32) (hgne : g ≠ []) (hg : ∀ b ∈ g, isDigit b = true)
    (hgs : ∀ h ∈ gs, h ≠ [] ∧ ∀ b ∈ h, isDigit b = true) (hne : gs ≠ [])
    (hn : g.length + gs.flatten.length ≤ 11) :
    runWhile (g ++ sepTail c gs) (g ++ sepTail c gs).length MAX_PHONE_LENGTH
        ⟨0, [], 0, 0, false⟩ =
      ⟨(g ++ sepTail c gs).length, g ++ sepTail c gs, g.length + gs.flatten.length, c, true⟩ := by
  have hl := length_sepTail_le c gs hgs
  have h1 := runWhile_groups (g ++ sepTail c gs) (g ++ sepTail c gs).length c hc gs g [] [] 0 0
    false MAX_PHONE_LENGTH rfl rfl hgne hg hgs (Or.inl rfl) (by omega)
    (by rw [List.length_append, List.length_nil]; unfold MAX_PHONE_LENGTH; omega)
    (by rw [List.length_append]; unfold MAX_PHONE_LENGTH; omega)
  rw [List.length_nil] at h1
  rw [h1, if_neg hne]
  cases gs with
  | nil => exact absurd rfl hne
  | cons h gs => simp

/-- The consistent-separator block at offset 0 of a text of digit groups
joined by one separator byte, with 10 or 11 digits: the classification of
lines 339-353 applied to the whole text. -/
theorem runCandidate_of_groups (c : Nat) (g : List Nat) (gs : List (List Nat))
    (hc : c = 45 ∨ c = 46 ∨ c = 32) (hgne : g ≠ []) (hg : ∀ b ∈ g, isDigit b = true)
    (hgs : ∀ h ∈ gs, h ≠ [] ∧ ∀ b ∈ h, isDigit b = true) (hne : gs ≠ [])
    (hlo : 10 ≤ g.length + gs.flatten.length) (hn : g.length + gs.flatten.length ≤ 11) :
    runCandidate (g ++ sepTail c gs) (g ++ sepTail c gs).length 0 =
      if (g.length + gs.flatten.length == 10 && c == 32 && (g ++ gs.flatten).getD 0 0 >= 49 &&
          (g ++ gs.flatten).getD 0 0 <= 57) = true then
        some (⟨PhoneType.MOBILE_10_DIGIT, g ++ sepTail c gs, g ++ gs.flatten, 0⟩,
          (g ++ sepTail c gs).length)
      else if (g.length + gs.flatten.length == 10 && (g ++ gs.flatten).getD 0 0 != 48 &&
          (g ++ gs.flatten).getD 3 0 >= 50) = true then
        some (⟨PhoneType.FORMATTED_DOMESTIC, g ++ sepTail c gs, g ++ gs.flatten, 0⟩,
          (g ++ sepTail c gs).length)
      else if (g.length + gs.flatten.length == 11 && (g ++ gs.flatten).getD 0 0 == 49 &&
          (g ++ gs.flatten).getD 1 0 != 48) = true then
        some (⟨PhoneType.FORMATTED_TOLL_FREE, g ++ sepTail c gs, g ++ gs.flatten, 0⟩,
          (g ++ sepTail c gs).length)
      else none := by
  have hrun := runWhile_of_groups c g gs hc hgne hg hgs hne hn
  have hdig : extractDigits (g ++ sepTail c gs) = g ++ gs.flatten := by
    rw [extractDigits_append, extractDigits_of_all g hg, extractDigits_sepTail c hc gs hgs]
  unfold runCandidate
  dsimp only
  rw [hrun]
  dsimp only
  rw [hdig, if_pos]
  simp only [Bool.and_eq_true, decide_eq_true_eq, ge_iff_le, true_and]
  exact ⟨hlo, hn⟩

/-- A text of digit groups joined by one separator byte whose
consistent-separator candidate is emitted has that candidate as its only
match. -/
theorem extract_of_groups (c : Nat) (g : List Nat) (gs : List (List Nat)) (x : PhoneMatch)
    (hc : c = 45 ∨ c = 46 ∨ c = 32) (hgne : g ≠ []) (hg : ∀ b ∈ g, isDigit b = true)
    (hgs : ∀ h ∈ gs, h ≠ [] ∧ ∀ b ∈ h, isDigit b = true)
    (hlo : 10 ≤ g.length + gs.flatten.length) (hn : g.length + gs.flatten.length ≤ 11)
    (hrun : runCandidate (g ++ sepTail c gs) (g ++ sepTail c gs).length 0 =
      some (x, (g ++ sepTail c gs).length))
    (hpos : x.position = 0) (hval : x.value = g ++ sepTail c gs) :
    extract (g ++ sepTail c gs) = [x] := by
  have hl := length_sepTail_le c gs hgs
  have hl1 := length_sepTail_ge c gs
  have hmem : ∀ b ∈ g ++ sepTail c gs, isDigit b = true ∨ b = c := by
    intro b hb
    rcases List.mem_append.1 hb with h | h
    · exact Or.inl (hg b h)
    · exact mem_sepTail c gs hgs b h
  apply extract_of_runCandidate_whole _ x _ _ _ _ hrun hpos (by rw [hval])
  · unfold MIN_DIGITS
    rw [List.length_append]; omega
  · unfold MAX_INPUT_SIZE
    rw [List.length_append]; omega
  · intro j h
    by_cases hj : j < (g ++ sepTail c gs).length
    · rw [List.getD_eq_getElem _ 0 hj] at h
      rcases hmem _ (List.getElem_mem hj) with h1 | h1
      · rw [h] at h1
        exact absurd h1 (by decide)
      · rw [h] at h1
        omega
    · rw [List.getD_eq_default _ _ (by omega)] at h
      cases h
  · cases g with
    | nil => exact absurd rfl hgne
    | cons b g1 => exact hg b (List.mem_cons_self _ _)

/-- C21 (consistent-separator classification): for every text formed from two
or more non-empty digit groups joined by single occurrences of one separator
byte `c` in `{'-', '.', ' '}`, with digit string `d`: if `d` has 10 digits,
`c` is a space and `d[0]` is in `'1'..'9'`, `extract` returns the single match
`MOBILE_10_DIGIT`; if `d` has 10 digits, `c` is not a space, `d[0] != '0'` and
`d[3] >= '2'`, the single match `FORMATTED_DOMESTIC`; if `d` has 11 digits,
`d[0] == '1'` and `d[1] != '0'`, the single match `FORMATTED_TOLL_FREE`; each
with the text as `value`, `d` as `normalized` and position 0. -/
theorem extract_consistent_separator (c : Nat) (groups : List (List Nat))
    (hc : c = 45 ∨ c = 46 ∨ c = 32) (h2 : 2 ≤ groups.length)
    (hgroups : ∀ g ∈ groups, g ≠ [] ∧ ∀ b ∈ g, 48 ≤ b ∧ b ≤ 57) :
    (groups.flatten.length = 10 → c = 32 →
      49 ≤ groups.flatten.getD 0 0 → groups.flatten.getD 0 0 ≤ 57 →
      extract (List.intercalate [c] groups) =
        [⟨PhoneType.MOBILE_10_DIGIT, List.intercalate [c] groups, groups.flatten, 0⟩]) ∧
    (groups.flatten.length = 10 → c ≠ 32 →
      groups.flatten.getD 0 0 ≠ 48 → 50 ≤ groups.flatten.getD 3 0 →
      extract (List.intercalate [c] groups) =
        [⟨PhoneType.FORMATTED_DOMESTIC, List.intercalate [c] groups, groups.flatten, 0⟩]) ∧
    (groups.flatten.length = 11 →
      groups.flatten.getD 0 0 = 49 → groups.flatten.getD 1 0 ≠ 48 →
      extract (List.intercalate [c] groups) =
        [⟨PhoneType.FORMATTED_TOLL_FREE, List.intercalate [c] groups, groups.flatten, 0⟩]) := by
  obtain ⟨g, gs, rfl, hne⟩ : ∃ g gs, groups = g :: gs ∧ gs ≠ [] := by
    cases groups with
    | nil => simp at h2
    | cons g gs =>
      cases gs with
      | nil => simp at h2
      | cons h gs => exact ⟨g, h :: gs, rfl, by simp⟩
  have hdig : ∀ h ∈ g :: gs, h ≠ [] ∧ ∀ b ∈ h, isDigit b = true := by
    intro h hh
    exact ⟨(hgroups h hh).1, fun b hb => (isDigit_iff b).2 ((hgroups h hh).2 b hb)⟩
  have hgne := (hdig g (List.mem_cons_self _ _)).1
  have hg := (hdig g (List.mem_cons_self _ _)).2
  have hgs : ∀ h ∈ gs, h ≠ [] ∧ ∀ b ∈ h, isDigit b = true :=
    fun h hh => hdig h (List.mem_cons_of_mem _ hh)
  rw [intercalate_eq_sepTail, List.flatten_cons, List.length_append]
  generalize hd0 : (g ++ gs.flatten).getD 0 0 = d0
  generalize hd1 : (g ++ gs.flatten).getD 1 0 = d1
  generalize hd3 : (g ++ gs.flatten).getD 3 0 = d3
  refine ⟨?_, ?_, ?_⟩
  · intro hn hsp h49 h57
    have hrun := runCandidate_of_groups c g gs hc hgne hg hgs hne (by omega) (by omega)
    rw [hd0, hd1, hd3, if_pos (by
      simp only [Bool.and_eq_true, beq_iff_eq, decide_eq_true_eq, ge_iff_le]
      exact ⟨⟨⟨hn, hsp⟩, h49⟩, h57⟩)] at hrun
    exact extract_of_groups c g gs _ hc hgne hg hgs (by omega) (by omega) hrun rfl rfl
  · intro hn hsp h48 h50
    have hrun := runCandidate_of_groups c g gs hc hgne hg hgs hne (by omega) (by omega)
    rw [hd0, hd1, hd3, if_neg (by
      simp only [Bool.and_eq_true, beq_iff_eq, decide_eq_true_eq, ge_iff_le]
      tauto), if_pos (by
      simp only [Bool.and_eq_true, beq_iff_eq, bne_iff_ne, ne_eq, decide_eq_true_eq, ge_iff_le]
      exact ⟨⟨hn, h48⟩, h50⟩)] at hrun
    exact extract_of_groups c g gs _ hc hgne hg hgs (by omega) (by omega) hrun rfl rfl
  · intro hn h49 h48
    have hrun := runCandidate_of_groups c g gs hc hgne hg hgs hne (by omega) (by omega)
    rw [hd0, hd1, hd3, if_neg (by
      simp only [Bool.and_eq_true, beq_iff_eq, decide_eq_true_eq, ge_iff_le]
      omega), if_neg (by
      simp only [Bool.and_eq_true, beq_iff_eq, bne_iff_ne, ne_eq, decide_eq_true_eq, ge_iff_le]
      omega), if_pos (by
      simp only [Bool.and_eq_true, beq_iff_eq, bne_iff_ne, ne_eq]
      exact ⟨⟨hn, h49⟩, h48⟩)] at hrun
    exact extract_of_groups c g gs _ hc hgne hg hgs (by omega) (by omega) hrun rfl rfl

set_option maxRecDepth 20000 in
/-- Witness of C21 on `"1-800-555-0199"`, the groups `1`, `800`, `555`, `0199`
joined by `-`. -/
theorem extract_consistent_separator_witness :
    List.intercalate [45] [bytes ("1"), bytes ("800"), bytes ("555"), bytes ("0199")] =
      bytes ("1-800-555-0199") ∧
    extract (List.intercalate [45]
        [bytes ("1"), bytes ("800"), bytes ("555"), bytes ("0199")]) =
      [⟨PhoneType.FORMATTED_TOLL_FREE,
        List.intercalate [45] [bytes ("1"), bytes ("800"), bytes ("555"), bytes ("0199")],
        [bytes ("1"), bytes ("800"), bytes ("555"), bytes ("0199")].flatten, 0⟩] :=
  ⟨by decide,
   (extract_consistent_separator 45
     [bytes ("1"), bytes ("800"), bytes ("555"), bytes ("0199")]
     (by decide) (by decide) (by decide)).2.2 (by decide) (by decide) (by decide)⟩

/-! ## Termination of the loops -/

/-- A fuel-indexed loop `W` whose rounds are those of `next`, with a measure
`μ` that every round decreases, is left within `μ s` rounds. -/
theorem runLoop_eq {σ ρ : Type} (next : σ → Option σ) (W : Nat → σ → ρ) (out : σ → ρ)
    (μ : σ → Nat) (hW0 : ∀ s, W 0 s = out s)
    (hWn : ∀ f s, next s = none → W (f + 1) s = out s)
    (hWs : ∀ f s s1, next s = some s1 → W (f + 1) s = W f s1)
    (hμ : ∀ s s1, next s = some s1 → μ s1 < μ s) :
    ∀ fuel s, μ s ≤ fuel → (runLoop next fuel s).map out = some (W fuel s) := by
  intro fuel
  induction fuel with
  | zero =>
    intro s hs
    rw [runLoop]
    cases hn : next s with
    | none => simp only [Option.map_some', hW0]
    | some s1 =>
      have := hμ s s1 hn
      omega
  | succ fuel ih =>
    intro s hs
    rw [runLoop]
    cases hn : next s with
    | none => simp only [Option.map_some', hWn fuel s hn]
    | some s1 =>
      have := hμ s s1 hn
      rw [hWs fuel s s1 hn]
      exact ih s1 (by omega)

theorem scanInternationalWhile_succ (data : List Nat) (len f : Nat) (s : Nat × List Nat × Nat) :
    scanInternationalWhile data len (f + 1) s.1 s.2.1 s.2.2 =
      match scanInternationalWhileNext data len s with
      | none => s
      | some s1 => scanInternationalWhile data len f s1.1 s1.2.1 s1.2.2 := by
  rw [scanInternationalWhile, scanInternationalWhileNext]
  split
  · split
    · rfl
    · split
      · rfl
      · split
        · rfl
        · rfl
  · rfl

theorem scanInternationalWhileNext_lt (data : List Nat) (len : Nat)
    (s s1 : Nat × List Nat × Nat) (h : scanInternationalWhileNext data len s = some s1) :
    s.1 < s1.1 ∧ s.2.1.length < MAX_PHONE_LENGTH ∧ s1.2.1.length = s.2.1.length + 1 := by
  rw [scanInternationalWhileNext] at h
  split at h
  · rename_i hc
    simp only [Bool.and_eq_true, decide_eq_true_eq] at hc
    split at h
    · cases h; simp [hc.2]
    · split at h
      · cases h; simp [hc.2]
      · split at h
        · cases h; simp [hc.2]
        · cases h
  · cases h

theorem parenWhile_succ (data : List Nat) (len f : Nat) (s : Nat × List Nat × Nat) :
    parenWhile data len (f + 1) s.1 s.2.1 s.2.2 =
      match parenWhileNext data len s with
      | none => s
      | some s1 => parenWhile data len f s1.1 s1.2.1 s1.2.2 := by
  rw [parenWhile, parenWhileNext]
  split
  · split
    · rfl
    · split
      · rfl
      · rfl
  · rfl

theorem parenWhileNext_lt (data : List Nat) (len : Nat)
    (s s1 : Nat × List Nat × Nat) (h : parenWhileNext data len s = some s1) :
    s.1 < s1.1 ∧ s.2.1.length < MAX_PHONE_LENGTH ∧ s1.2.1.length = s.2.1.length + 1 := by
  rw [parenWhileNext] at h
  split at h
  · rename_i hc
    simp only [Bool.and_eq_true, decide_eq_true_eq] at hc
    split at h
    · cases h; simp [hc.2]
    · split at h
      · cases h; simp [hc.2]
      · cases h
  · cases h

theorem runWhile_succ (data : List Nat) (len f : Nat) (s : RunState) :
    runWhile data len (f + 1) s =
      match runWhileNext data len s with
      | none => s
      | some s1 => runWhile data len f s1 := by
  rw [runWhile, runWhileNext]
  split
  · split
    · rfl
    · split
      · dsimp only
        cases h0 : (s.separator == 0) with
        | true => simp only [if_true, beq_self_eq_true]
        | false =>
          simp only [Bool.false_eq_true, if_false]
          by_cases hc : (data.getD s.i 0 == s.separator) = true
          · rw [if_pos hc, if_pos hc]
          · rw [if_neg hc, if_neg hc]
      · rfl
  · rfl

theorem runWhileNext_lt (data : List Nat) (len : Nat) (s s1 : RunState)
    (h : runWhileNext data len s = some s1) :
    s.i < s1.i ∧ s.candidate.length < MAX_PHONE_LENGTH ∧
      s1.candidate.length = s.candidate.length + 1 := by
  rw [runWhileNext] at h
  split at h
  · rename_i hc
    simp only [Bool.and_eq_true, decide_eq_true_eq] at hc
    split at h
    · cases h; simp [hc.2]
    · split at h
      · dsimp only at h
        generalize (if (s.separator == 0) = true then data.getD s.i 0 else s.separator) = sep
          at h
        split at h
        · cases h; simp [hc.2]
        · cases h
      · cases h
  · cases h

theorem digitRunWhile_succ (data : List Nat) (len f : Nat) (s : Nat × Nat) :
    digitRunWhile data len (f + 1) s.1 s.2 =
      match digitRunWhileNext data len s with
      | none => s
      | some s1 => digitRunWhile data len f s1.1 s1.2 := by
  rw [digitRunWhile, digitRunWhileNext]
  split
  · rfl
  · rfl

theorem digitRunWhileNext_lt (data : List Nat) (len : Nat) (s s1 : Nat × Nat)
    (h : digitRunWhileNext data len s = some s1) : s.1 < len ∧ s1.1 = s.1 + 1 := by
  rw [digitRunWhileNext] at h
  split at h
  · rename_i hc
    simp only [Bool.and_eq_true, decide_eq_true_eq] at hc
    cases h
    exact ⟨hc.1, rfl⟩
  · cases h

theorem scanInternationalLoop_succ (data : List Nat) (len f : Nat) (s : Nat × List PhoneMatch) :
    scanInternationalLoop data len (f + 1) s.1 s.2 =
      match scanInternationalNext data len s with
      | none => s.2
      | some s1 => scanInternationalLoop data len f s1.1 s1.2 := by
  rw [scanInternationalLoop, scanInternationalNext]
  split
  · split
    · dsimp only
      split
      · rfl
      · rfl
    · rfl
  · rfl

theorem scanInternationalNext_lt (data : List Nat) (len : Nat) (s s1 : Nat × List PhoneMatch)
    (h : scanInternationalNext data len s = some s1) : s.1 < len ∧ s.1 < s1.1 := by
  rw [scanInternationalNext] at h
  have hp := scanInternationalWhile_progress data len MAX_PHONE_LENGTH s.1
  split at h
  · rename_i hi
    refine ⟨hi, ?_⟩
    split at h
    · dsimp only at h
      split at h
      · cases h
        show s.1 < _ + 1
        omega
      · cases h
        exact Nat.lt_succ_self _
    · cases h
      exact Nat.lt_succ_self _
  · cases h

theorem scanFormattedNumbersLoop_succ (data : List Nat) (len f : Nat)
    (s : Nat × List PhoneMatch) :
    scanFormattedNumbersLoop data len (f + 1) s.1 s.2 =
      match scanFormattedNumbersNext data len s with
      | none => s.2
      | some s1 => scanFormattedNumbersLoop data len f s1.1 s1.2 := by
  rw [scanFormattedNumbersLoop, scanFormattedNumbersNext]
  split
  · cases parenCandidate data len s.1 with
    | some r => rfl
    | none =>
      dsimp only
      split
      · cases runCandidate data len s.1 with
        | some r => rfl
        | none => rfl
      · rfl
  · rfl

theorem scanFormattedNumbersNext_lt (data : List Nat) (len : Nat)
    (s s1 : Nat × List PhoneMatch)
    (h : scanFormattedNumbersNext data len s = some s1) : s.1 < len ∧ s.1 < s1.1 := by
  rw [scanFormattedNumbersNext] at h
  split at h
  · rename_i hi
    refine ⟨hi, ?_⟩
    cases hp : parenCandidate data len s.1 with
    | some r =>
      obtain ⟨pm, e⟩ := r
      rw [hp] at h
      cases h
      have := parenCandidate_progress data len s.1 e pm hp
      show s.1 < e - 1 + 1
      omega
    | none =>
      rw [hp] at h
      dsimp only at h
      split at h
      · cases hr : runCandidate data len s.1 with
        | some r =>
          obtain ⟨pm, i1⟩ := r
          rw [hr] at h
          cases h
          have := runCandidate_progress data len s.1 i1 pm hr
          show s.1 < i1 + 1
          omega
        | none =>
          rw [hr] at h
          cases h
          exact Nat.lt_succ_self _
      · cases h
        exact Nat.lt_succ_self _
  · cases h

theorem scanPlainDigitsLoop_succ (data : List Nat) (len f : Nat) (s : Nat × List PhoneMatch) :
    scanPlainDigitsLoop data len (f + 1) s.1 s.2 =
      match scanPlainDigitsNext data len s with
      | none => s.2
      | some s1 => scanPlainDigitsLoop data len f s1.1 s1.2 := by
  rw [scanPlainDigitsLoop, scanPlainDigitsNext]
  split
  · split
    · rfl
    · split
      · rfl
      · dsimp only
        split
        · rfl
        · cases plainCandidate data s.1 (digitRunWhile data len len s.1 0).2 with
          | some pm => rfl
          | none => rfl
  · rfl

theorem scanPlainDigitsNext_lt (data : List Nat) (len : Nat) (s s1 : Nat × List PhoneMatch)
    (h : scanPlainDigitsNext data len s = some s1) : s.1 < len ∧ s.1 < s1.1 := by
  rw [scanPlainDigitsNext] at h
  split at h
  · rename_i hi
    refine ⟨hi, ?_⟩
    split at h
    · cases h
      exact Nat.lt_succ_self _
    · rename_i hd
      have hd1 : isDigit (data.getD s.1 0) = true := by
        cases hx : isDigit (data.getD s.1 0) with
        | true => rfl
        | false => rw [hx] at hd; exact absurd rfl hd
      have hp := digitRunWhile_progress data len len s.1 hi hd1 (by omega)
      split at h
      · cases h
        exact Nat.lt_succ_self _
      · dsimp only at h
        split at h
        · cases h
          show s.1 < _ + 1
          omega
        · cases hc : plainCandidate data s.1 (digitRunWhile data len len s.1 0).2 with
          | some pm =>
            rw [hc] at h
            cases h
            show s.1 < _ + 1
            omega
          | none =>
            rw [hc] at h
            cases h
            show s.1 < _ + 1
            omega
  · cases h

theorem scanInternational_runLoop (data : List Nat) (len fuel : Nat) (m : List PhoneMatch)
    (hf : len ≤ fuel) :
    (runLoop (scanInternationalNext data len) fuel (0, m)).map Prod.snd =
      some (scanInternational data len m) := by
  rw [← scanInternational_fuel data len fuel m hf]
  exact runLoop_eq (scanInternationalNext data len)
    (fun f s => scanInternationalLoop data len f s.1 s.2) Prod.snd (fun s => len - s.1)
    (fun _ => rfl)
    (fun f s h => by dsimp only; rw [scanInternationalLoop_succ, h])
    (fun f s s1 h => by dsimp only; rw [scanInternationalLoop_succ, h])
    (fun s s1 h => by
      have := scanInternationalNext_lt data len s s1 h
      show len - s1.1 < len - s.1
      omega) fuel (0, m) (by show len - 0 ≤ fuel; omega)

theorem scanFormattedNumbers_runLoop (data : List Nat) (len fuel : Nat) (m : List PhoneMatch)
    (hf : len ≤ fuel) :
    (runLoop (scanFormattedNumbersNext data len) fuel (0, m)).map Prod.snd =
      some (scanFormattedNumbers data len m) := by
  rw [← scanFormattedNumbers_fuel data len fuel m hf]
  exact runLoop_eq (scanFormattedNumbersNext data len)
    (fun f s => scanFormattedNumbersLoop data len f s.1 s.2) Prod.snd (fun s => len - s.1)
    (fun _ => rfl)
    (fun f s h => by dsimp only; rw [scanFormattedNumbersLoop_succ, h])
    (fun f s s1 h => by dsimp only; rw [scanFormattedNumbersLoop_succ, h])
    (fun s s1 h => by
      have := scanFormattedNumbersNext_lt data len s s1 h
      show len - s1.1 < len - s.1
      omega) fuel (0, m) (by show len - 0 ≤ fuel; omega)

theorem scanPlainDigits_runLoop (data : List Nat) (len fuel : Nat) (m : List PhoneMatch)
    (hf : len ≤ fuel) :
    (runLoop (scanPlainDigitsNext data len) fuel (0, m)).map Prod.snd =
      some (scanPlainDigits data len m) := by
  rw [← scanPlainDigits_fuel data len fuel m hf]
  exact runLoop_eq (scanPlainDigitsNext data len)
    (fun f s => scanPlainDigitsLoop data len f s.1 s.2) Prod.snd (fun s => len - s.1)
    (fun _ => rfl)
    (fun f s h => by dsimp only; rw [scanPlainDigitsLoop_succ, h])
    (fun f s s1 h => by dsimp only; rw [scanPlainDigitsLoop_succ, h])
    (fun s s1 h => by
      have := scanPlainDigitsNext_lt data len s s1 h
      show len - s1.1 < len - s.1
      omega) fuel (0, m) (by show len - 0 ≤ fuel; omega)

theorem scanInternationalWhile_runLoop (data : List Nat) (len : Nat)
    (s : Nat × List Nat × Nat) :
    runLoop (scanInternationalWhileNext data len) MAX_PHONE_LENGTH s =
      some (scanInternationalWhile data len MAX_PHONE_LENGTH s.1 s.2.1 s.2.2) := by
  have h := runLoop_eq (scanInternationalWhileNext data len)
    (fun f s => scanInternationalWhile data len f s.1 s.2.1 s.2.2) (fun s => s)
    (fun s => MAX_PHONE_LENGTH - s.2.1.length)
    (fun _ => rfl)
    (fun f s h => by dsimp only; rw [scanInternationalWhile_succ, h])
    (fun f s s1 h => by dsimp only; rw [scanInternationalWhile_succ, h])
    (fun s s1 h => by
      have := scanInternationalWhileNext_lt data len s s1 h
      show MAX_PHONE_LENGTH - s1.2.1.length < MAX_PHONE_LENGTH - s.2.1.length
      omega) MAX_PHONE_LENGTH s (Nat.sub_le _ _)
  rw [Option.map_id_fun', id] at h
  exact h

theorem parenWhile_runLoop (data : List Nat) (len : Nat) (s : Nat × List Nat × Nat) :
    runLoop (parenWhileNext data len) MAX_PHONE_LENGTH s =
      some (parenWhile data len MAX_PHONE_LENGTH s.1 s.2.1 s.2.2) := by
  have h := runLoop_eq (parenWhileNext data len)
    (fun f s => parenWhile data len f s.1 s.2.1 s.2.2) (fun s => s)
    (fun s => MAX_PHONE_LENGTH - s.2.1.length)
    (fun _ => rfl)
    (fun f s h => by dsimp only; rw [parenWhile_succ, h])
    (fun f s s1 h => by dsimp only; rw [parenWhile_succ, h])
    (fun s s1 h => by
      have := parenWhileNext_lt data len s s1 h
      show MAX_PHONE_LENGTH - s1.2.1.length < MAX_PHONE_LENGTH - s.2.1.length
      omega) MAX_PHONE_LENGTH s (Nat.sub_le _ _)
  rw [Option.map_id_fun', id] at h
  exact h

theorem runWhile_runLoop (data : List Nat) (len : Nat) (s : RunState) :
    runLoop (runWhileNext data len) MAX_PHONE_LENGTH s =
      some (runWhile data len MAX_PHONE_LENGTH s) := by
  have h := runLoop_eq (runWhileNext data len) (fun f s => runWhile data len f s) (fun s => s)
    (fun s => MAX_PHONE_LENGTH - s.candidate.length)
    (fun _ => rfl)
    (fun f s h => by dsimp only; rw [runWhile_succ, h])
    (fun f s s1 h => by dsimp only; rw [runWhile_succ, h])
    (fun s s1 h => by
      have := runWhileNext_lt data len s s1 h
      show MAX_PHONE_LENGTH - s1.candidate.length < MAX_PHONE_LENGTH - s.candidate.length
      omega) MAX_PHONE_LENGTH s (Nat.sub_le _ _)
  rw [Option.map_id_fun', id] at h
  exact h

theorem digitRunWhile_runLoop (data : List Nat) (len : Nat) (s : Nat × Nat) :
    runLoop (digitRunWhileNext data len) len s = some (digitRunWhile data len len s.1 s.2) := by
  have h := runLoop_eq (digitRunWhileNext data len)
    (fun f s => digitRunWhile data len f s.1 s.2) (fun s => s) (fun s => len - s.1)
    (fun _ => rfl)
    (fun f s h => by dsimp only; rw [digitRunWhile_succ, h])
    (fun f s s1 h => by dsimp only; rw [digitRunWhile_succ, h])
    (fun s s1 h => by
      have := digitRunWhileNext_lt data len s s1 h
      show len - s1.1 < len - s.1
      omega) len s (Nat.sub_le _ _)
  rw [Option.map_id_fun', id] at h
  exact h

theorem candidates_runLoop (text : List Nat) (fuel : Nat) (hf : text.length ≤ fuel) :
    ((runLoop (scanInternationalNext text text.length) fuel (0, [])).bind fun a =>
      (runLoop (scanFormattedNumbersNext text text.length) fuel (0, a.2)).bind fun b =>
        (runLoop (scanPlainDigitsNext text text.length) fuel (0, b.2)).map Prod.snd) =
      some (candidates text) := by
  have ha := scanInternational_runLoop text text.length fuel [] hf
  cases hra : runLoop (scanInternationalNext text text.length) fuel (0, []) with
  | none => rw [hra] at ha; cases ha
  | some a =>
    rw [hra, Option.map_some', Option.some.injEq] at ha
    have hb := scanFormattedNumbers_runLoop text text.length fuel a.2 hf
    cases hrb : runLoop (scanFormattedNumbersNext text text.length) fuel (0, a.2) with
    | none => rw [hrb] at hb; cases hb
    | some b =>
      rw [hrb, Option.map_some', Option.some.injEq] at hb
      rw [Option.some_bind, hrb, Option.some_bind, scanPlainDigits_runLoop text text.length fuel
        b.2 hf, hb, ha]
      rfl

/-! ## C27: termination -/

/-- C27: each of the three passes terminates on every input.  A round of
each outer loop that is followed by another loop test ends with a cursor
strictly greater than the one it began with, also when the candidate was
rejected and the cursor reset to its start.  So each pass, run as a loop that
may use up its rounds, is left within `len` rounds with the result of the
pass; the inner `while` loops are left within `MAX_PHONE_LENGTH` rounds (the
digit-run loop of Pass C within `len`); and the three passes in sequence give
the candidates from which `extract` computes its result. -/
theorem passes_terminate (data : List Nat) (len fuel : Nat) (m : List PhoneMatch)
    (hf : len ≤ fuel) :
    (∀ s s1, scanInternationalNext data len s = some s1 → s.1 < s1.1) ∧
    (∀ s s1, scanFormattedNumbersNext data len s = some s1 → s.1 < s1.1) ∧
    (∀ s s1, scanPlainDigitsNext data len s = some s1 → s.1 < s1.1) ∧
    (runLoop (scanInternationalNext data len) fuel (0, m)).map Prod.snd =
      some (scanInternational data len m) ∧
    (runLoop (scanFormattedNumbersNext data len) fuel (0, m)).map Prod.snd =
      some (scanFormattedNumbers data len m) ∧
    (runLoop (scanPlainDigitsNext data len) fuel (0, m)).map Prod.snd =
      some (scanPlainDigits data len m) ∧
    (∀ s, runLoop (scanInternationalWhileNext data len) MAX_PHONE_LENGTH s =
      some (scanInternationalWhile data len MAX_PHONE_LENGTH s.1 s.2.1 s.2.2)) ∧
    (∀ s, runLoop (parenWhileNext data len) MAX_PHONE_LENGTH s =
      some (parenWhile data len MAX_PHONE_LENGTH s.1 s.2.1 s.2.2)) ∧
    (∀ s, runLoop (runWhileNext data len) MAX_PHONE_LENGTH s =
      some (runWhile data len MAX_PHONE_LENGTH s)) ∧
    (∀ s, runLoop (digitRunWhileNext data len) len s =
      some (digitRunWhile data len len s.1 s.2)) ∧
    (len = data.length →
      ((runLoop (scanInternationalNext data len) fuel (0, [])).bind fun a =>
        (runLoop (scanFormattedNumbersNext data len) fuel (0, a.2)).bind fun b =>
          (runLoop (scanPlainDigitsNext data len) fuel (0, b.2)).map Prod.snd) =
        some (candidates data)) :=
  ⟨fun s s1 h => (scanInternationalNext_lt data len s s1 h).2,
   fun s s1 h => (scanFormattedNumbersNext_lt data len s s1 h).2,
   fun s s1 h => (scanPlainDigitsNext_lt data len s s1 h).2,
   scanInternational_runLoop data len fuel m hf,
   scanFormattedNumbers_runLoop data len fuel m hf,
   scanPlainDigits_runLoop data len fuel m hf,
   scanInternationalWhile_runLoop data len,
   parenWhile_runLoop data len,
   runWhile_runLoop data len,
   digitRunWhile_runLoop data len,
   fun hl => by
     subst hl
     exact candidates_runLoop data fuel hf⟩

set_option maxRecDepth 20000 in
/-- C27 at the text `"+1 234-567-8900"` with 15 rounds: Pass A is left with
its one candidate. -/
theorem passes_terminate_witness :
    (15 : Nat) ≤ 15 ∧
    (runLoop (scanInternationalNext (bytes ("+1 234-567-8900")) 15) 15 (0, [])).map Prod.snd =
      some [⟨PhoneType.INTERNATIONAL_PLUS, bytes ("+1 234-567-8900"),
        bytes ("12345678900"), 0⟩] :=
  ⟨by decide, (passes_terminate (bytes ("+1 234-567-8900")) 15 15 [] (by decide)).2.2.2.1.trans
    (by decide)⟩

/-! ## Pass A candidates and the merge -/

/-- The bytes that the `while` loop of the parenthesized block consumes are
digits or separators. -/
theorem parenWhile_span (data : List Nat) (len fuel : Nat) :
    ∀ (e : Nat) (candidate : List Nat) (digitCount j : Nat), e ≤ j →
      j < (parenWhile data len fuel e candidate digitCount).1 →
      isDigit (data.getD j 0) = true ∨ isSeparator (data.getD j 0) = true := by
  induction fuel with
  | zero =>
    intro e candidate digitCount j h1 h2
    rw [parenWhile] at h2
    exact absurd h2 (by dsimp only; omega)
  | succ fuel ih =>
    intro e candidate digitCount j h1 h2
    rw [parenWhile] at h2
    split at h2
    · split at h2
      · rename_i hd
        by_cases hj : j = e
        · rw [hj]; exact Or.inl hd
        · exact ih _ _ _ j (by omega) h2
      · split at h2
        · rename_i hs
          simp only [Bool.and_eq_true] at hs
          by_cases hj : j = e
          · rw [hj]; exact Or.inr hs.1.1
          · exact ih _ _ _ j (by omega) h2
        · exact absurd h2 (by dsimp only; omega)
    · exact absurd h2 (by dsimp only; omega)

/-- The bytes that the `while` loop of the consistent-separator block consumes
are digits, `-`, `.` or spaces. -/
theorem runWhile_span (data : List Nat) (len fuel : Nat) :
    ∀ (s : RunState) (j : Nat), s.i ≤ j → j < (runWhile data len fuel s).i →
      isDigit (data.getD j 0) = true ∨ data.getD j 0 = 45 ∨ data.getD j 0 = 46 ∨
        data.getD j 0 = 32 := by
  induction fuel with
  | zero =>
    intro s j h1 h2
    rw [runWhile] at h2
    omega
  | succ fuel ih =>
    intro s j h1 h2
    rw [runWhile] at h2
    split at h2
    · split at h2
      · rename_i hd
        by_cases hj : j = s.i
        · rw [hj]; exact Or.inl hd
        · exact ih _ j (by dsimp only; omega) h2
      · split at h2
        · rename_i hs
          simp only [Bool.and_eq_true, Bool.or_eq_true, beq_iff_eq] at hs
          dsimp only at h2
          generalize (if (s.separator == 0) = true then data.getD s.i 0 else s.separator) = sep
            at h2
          split at h2
          · by_cases hj : j = s.i
            · rw [hj]
              rcases hs.1.1.1.1 with (h | h) | h
              · exact Or.inr (Or.inl h)
              · exact Or.inr (Or.inr (Or.inl h))
              · exact Or.inr (Or.inr (Or.inr h))
            · exact ih _ j (by dsimp only; omega) h2
          · dsimp only at h2
            omega
        · omega
    · omega

/-- What the parenthesized block emits: the candidate and the cursor of its
`while` loop, at a `(` followed by three digits, `)` and a space or `-`. -/
theorem parenCandidate_shape (data : List Nat) (len i e : Nat) (x : PhoneMatch)
    (hx : parenCandidate data len i = some (x, e)) :
    x.position = i ∧
    x.value = (parenWhile data len MAX_PHONE_LENGTH (i + 6)
      ([40] ++ [data.getD (i + 1) 0] ++ [data.getD (i + 2) 0] ++ [data.getD (i + 3) 0] ++
        [41, 32]) 0).2.1 ∧
    e = (parenWhile data len MAX_PHONE_LENGTH (i + 6)
      ([40] ++ [data.getD (i + 1) 0] ++ [data.getD (i + 2) 0] ++ [data.getD (i + 3) 0] ++
        [41, 32]) 0).1 ∧
    data.getD i 0 = 40 ∧ i + 14 ≤ len ∧ isDigit (data.getD (i + 1) 0) = true ∧
    isDigit (data.getD (i + 2) 0) = true ∧ isDigit (data.getD (i + 3) 0) = true ∧
    data.getD (i + 4) 0 = 41 ∧ (data.getD (i + 5) 0 = 32 ∨ data.getD (i + 5) 0 = 45) := by
  unfold parenCandidate at hx
  split at hx
  · rename_i h0
    simp only [Bool.and_eq_true, beq_iff_eq, decide_eq_true_eq] at h0
    split at hx
    · rename_i h1
      simp only [Bool.and_eq_true, Bool.or_eq_true, beq_iff_eq] at h1
      dsimp only at hx
      split at hx
      · split at hx
        · simp only [Option.some.injEq, Prod.mk.injEq] at hx
          obtain ⟨rfl, rfl⟩ := hx
          exact ⟨rfl, rfl, rfl, h0.1, h0.2, h1.1.1.1.1, h1.1.1.1.2, h1.1.1.2, h1.1.2, h1.2⟩
        · cases hx
      · cases hx
    · cases hx
  · cases hx

/-- What the consistent-separator block emits: the candidate and the cursor
of its `while` loop. -/
theorem runCandidate_shape (data : List Nat) (len i i1 : Nat) (x : PhoneMatch)
    (hx : runCandidate data len i = some (x, i1)) :
    x.position = i ∧
    x.value = (runWhile data len MAX_PHONE_LENGTH ⟨i, [], 0, 0, false⟩).candidate ∧
    i1 = (runWhile data len MAX_PHONE_LENGTH ⟨i, [], 0, 0, false⟩).i := by
  unfold runCandidate at hx
  dsimp only at hx
  split at hx
  · split at hx
    · simp only [Option.some.injEq, Prod.mk.injEq] at hx
      obtain ⟨rfl, rfl⟩ := hx
      exact ⟨rfl, rfl, rfl⟩
    · split at hx
      · simp only [Option.some.injEq, Prod.mk.injEq] at hx
        obtain ⟨rfl, rfl⟩ := hx
        exact ⟨rfl, rfl, rfl⟩
      · split at hx
        · simp only [Option.some.injEq, Prod.mk.injEq] at hx
          obtain ⟨rfl, rfl⟩ := hx
          exact ⟨rfl, rfl, rfl⟩
        · cases hx
  · cases hx

/-- No byte of the input under a Pass B candidate is a `+`. -/
theorem noPlus_of_emittedB (data : List Nat) (len : Nat) (x : PhoneMatch)
    (hx : EmittedB data len x) (j : Nat) (h1 : x.position ≤ j)
    (h2 : j < x.position + x.value.length) : data.getD j 0 ≠ 43 := by
  obtain ⟨i, _, ⟨e, h⟩ | ⟨_, i1, h⟩⟩ := hx
  · obtain ⟨hp, hv, _, c0, _, c1, c2, c3, c4, c5⟩ := parenCandidate_shape data len i e x h
    obtain ⟨s1, _⟩ := parenWhile_spec data len MAX_PHONE_LENGTH (i + 6)
      ([40] ++ [data.getD (i + 1) 0] ++ [data.getD (i + 2) 0] ++ [data.getD (i + 3) 0] ++
        [41, 32]) 0
    have h4 : ([40] ++ [data.getD (i + 1) 0] ++ [data.getD (i + 2) 0] ++
        [data.getD (i + 3) 0] ++ [41, 32]).length = 6 := by simp
    rw [h4, ← hv] at s1
    rw [hp] at h1 h2
    have hdig : ∀ k, isDigit (data.getD k 0) = true → data.getD k 0 ≠ 43 := by
      intro k hk hc
      rw [hc] at hk
      exact absurd hk (by decide)
    by_cases hj : i + 6 ≤ j
    · have hs := parenWhile_span data len MAX_PHONE_LENGTH (i + 6)
        ([40] ++ [data.getD (i + 1) 0] ++ [data.getD (i + 2) 0] ++ [data.getD (i + 3) 0] ++
          [41, 32]) 0 j hj (by omega)
      intro hc
      rw [hc] at hs
      rcases hs with hs | hs <;> exact absurd hs (by decide)
    · have hcases : j = i ∨ j = i + 1 ∨ j = i + 2 ∨ j = i + 3 ∨ j = i + 4 ∨ j = i + 5 := by
        omega
      rcases hcases with rfl | rfl | rfl | rfl | rfl | rfl
      · rw [c0]; decide
      · exact hdig _ c1
      · exact hdig _ c2
      · exact hdig _ c3
      · rw [c4]; decide
      · rcases c5 with c5 | c5 <;> rw [c5] <;> decide
  · obtain ⟨hp, hv, _⟩ := runCandidate_shape data len i i1 x h
    obtain ⟨s1, _, _⟩ := runWhile_spec data len MAX_PHONE_LENGTH ⟨i, [], 0, 0, false⟩
    dsimp only at s1
    rw [List.length_nil, ← hv] at s1
    rw [hp] at h1 h2
    have hs := runWhile_span data len MAX_PHONE_LENGTH ⟨i, [], 0, 0, false⟩ j h1 (by omega)
    intro hc
    rw [hc] at hs
    rcases hs with hs | hs | hs | hs
    · exact absurd hs (by decide)
    · omega
    · omega
    · omega

/-- No byte of the input under a Pass C candidate is a `+`. -/
theorem noPlus_of_emittedC (data : List Nat) (len : Nat) (x : PhoneMatch)
    (hlen : len ≤ data.length) (hx : EmittedC data len x) (j : Nat) (h1 : x.position ≤ j)
    (h2 : j < x.position + x.value.length) : data.getD j 0 ≠ 43 := by
  obtain ⟨i, hi, _, hp⟩ := hx
  obtain ⟨_, _, hl⟩ := emittedC_value data len i x hlen hi hp
  obtain ⟨_, _, hpos, _⟩ := plainCandidate_value data i _ x hp
  obtain ⟨s1, _, s3⟩ := digitRunWhile_spec data len len i 0
  rw [hpos] at h1 h2
  have hd := s3 j h1 (by omega)
  intro hc
  rw [hc] at hd
  exact absurd hd (by decide)

/-- A candidate that Pass A emits from cursor `i` on starts at or after `i`. -/
theorem scanInternationalLoop_lower (data : List Nat) (len fuel : Nat) :
    ∀ (i : Nat) (x : PhoneMatch), x ∈ scanInternationalLoop data len fuel i [] →
      i ≤ x.position := by
  induction fuel with
  | zero =>
    intro i x hx
    rw [scanInternationalLoop] at hx
    cases hx
  | succ fuel ih =>
    intro i x hx
    rw [scanInternationalLoop] at hx
    have hp := scanInternationalWhile_progress data len MAX_PHONE_LENGTH i
    split at hx
    · split at hx
      · dsimp only at hx
        split at hx
        · rw [scanInternationalLoop_append, List.nil_append] at hx
          rcases List.mem_append.1 hx with h | h
          · rw [List.mem_singleton] at h
            rw [h]
          · have := ih _ x h
            omega
        · have := ih _ x hx
          omega
      · have := ih _ x hx
        omega
    · cases hx

/-- The candidates of Pass A do not overlap: each ends at or before the start
of every later one. -/
theorem scanInternationalLoop_disjoint (data : List Nat) (len fuel : Nat) :
    ∀ i : Nat, List.Pairwise
      (fun a b : PhoneMatch => a.position + a.value.length ≤ b.position)
      (scanInternationalLoop data len fuel i []) := by
  induction fuel with
  | zero =>
    intro i
    rw [scanInternationalLoop]
    exact List.Pairwise.nil
  | succ fuel ih =>
    intro i
    rw [scanInternationalLoop]
    split
    · split
      · dsimp only
        split
        · rw [scanInternationalLoop_append, List.nil_append, List.singleton_append,
            List.pairwise_cons]
          refine ⟨?_, ih _⟩
          intro b hb
          have h1 := scanInternationalLoop_lower data len fuel _ b hb
          obtain ⟨h2, _⟩ := scanInternationalWhile_spec data len MAX_PHONE_LENGTH (i + 1) [43] 0
          rw [List.length_singleton] at h2
          dsimp only
          omega
        · exact ih _
      · exact ih _
    · exact List.Pairwise.nil

/-- The matches kept by the merge loop do not overlap pairwise. -/
theorem mergeLoop_disjoint (l : List PhoneMatch) (lastEnd : Nat) :
    List.Pairwise (fun a b : PhoneMatch => a.position + a.value.length ≤ b.position)
      (mergeLoop l lastEnd []) := by
  induction l generalizing lastEnd with
  | nil => simp [mergeLoop]
  | cons x rest ih =>
    rw [mergeLoop_cons]
    by_cases h : x.position ≥ lastEnd
    · rw [if_pos h, List.pairwise_cons]
      exact ⟨fun y hy => (mem_mergeLoop rest _ y hy).2, ih _⟩
    · rw [if_neg h]
      exact ih _

/-- The merge loop keeps a candidate `a` of a sorted list when it is entered
with `lastEnd ≤ a.position` and every other candidate either ends at or
before the start of `a` or starts after it. -/
theorem mergeLoop_keeps (a : PhoneMatch) (l : List PhoneMatch) (lastEnd : Nat)
    (hs : List.Pairwise (fun a b : PhoneMatch => a.position ≤ b.position) l)
    (ha : a ∈ l) (hle : lastEnd ≤ a.position)
    (hall : ∀ y ∈ l, y = a ∨ y.position + y.value.length ≤ a.position ∨
      a.position < y.position) :
    a ∈ mergeLoop l lastEnd [] := by
  induction l generalizing lastEnd with
  | nil => cases ha
  | cons x rest ih =>
    rw [List.pairwise_cons] at hs
    rw [mergeLoop_cons]
    have hrest : ∀ y ∈ rest, y = a ∨ y.position + y.value.length ≤ a.position ∨
        a.position < y.position := fun y hy => hall y (List.mem_cons_of_mem _ hy)
    by_cases hxa : x = a
    · subst hxa
      rw [if_pos hle]
      exact List.mem_cons_self _ _
    · have har : a ∈ rest := by
        rcases List.mem_cons.1 ha with h | h
        · exact absurd h.symm hxa
        · exact h
      have hxle := hs.1 a har
      have hx := hall x (List.mem_cons_self _ _)
      have hend : x.position + x.value.length ≤ a.position := by
        rcases hx with h | h | h
        · exact absurd h hxa
        · exact h
        · omega
      by_cases h : x.position ≥ lastEnd
      · rw [if_pos h]
        exact List.mem_cons_of_mem _ (ih _ hs.2 har hend hrest)
      · rw [if_neg h]
        exact ih _ hs.2 har hle hrest

/-- Under the length gate of line 420 the result is the merge of the sorted
candidates. -/
theorem extract_eq_mergeLoop (text : List Nat) (hmin : MIN_DIGITS ≤ text.length)
    (hmax : text.length ≤ MAX_INPUT_SIZE) :
    extract text = mergeLoop (sortByPosition (candidates text)) 0 [] := by
  unfold extract
  dsimp only
  rw [if_neg (by simp only [Bool.or_eq_true, decide_eq_true_eq]; omega)]
  split
  · rename_i h
    rw [List.isEmpty_iff.1 h]
    rfl
  · rfl

/-- A Pass A candidate starts at a `+` of the input and is not empty. -/
theorem emittedA_plus (data : List Nat) (len : Nat) (x : PhoneMatch)
    (hx : EmittedA data len x) : data.getD x.position 0 = 43 := by
  obtain ⟨i, _, hplus, _, _, _, _, rfl⟩ := hx
  exact hplus

/-- Every candidate of Pass A is kept by the merge. -/
theorem passA_mem_extract (text : List Nat) (hmin : MIN_DIGITS ≤ text.length)
    (hmax : text.length ≤ MAX_INPUT_SIZE) (a : PhoneMatch)
    (ha : a ∈ scanInternational text text.length []) : a ∈ extract text := by
  have hac : a ∈ candidates text := by
    rw [candidates_eq_append]
    exact List.mem_append_left _ ha
  have hA : EmittedA text text.length a := by
    rcases mem_scanInternationalLoop _ _ _ _ _ _ ha with h | h
    · cases h
    · exact h
  have hplus := emittedA_plus _ _ _ hA
  have hga := good_of_emittedA _ _ _ hA
  rw [extract_eq_mergeLoop text hmin hmax]
  apply mergeLoop_keeps a _ 0 (sortByPosition_sorted _) ((mem_sortByPosition _ _).2 hac)
    (Nat.zero_le _)
  intro y hy
  rw [mem_sortByPosition, candidates_eq_append] at hy
  rcases List.mem_append.1 hy with hyA | hyBC
  · by_cases hya : y = a
    · exact Or.inl hya
    · have hpw := scanInternationalLoop_disjoint text text.length text.length 0
      have hsym := List.Pairwise.forall
        (R := fun a b : PhoneMatch => a.position + a.value.length ≤ b.position ∨
          b.position + b.value.length ≤ a.position)
        (fun _ _ h => h.symm) (hpw.imp (fun h => Or.inl h)) hyA ha hya
      have hlen := hga.nonempty
      rcases hsym with h | h
      · exact Or.inr (Or.inl h)
      · exact Or.inr (Or.inr (by omega))
  · have hno : ∀ j, y.position ≤ j → j < y.position + y.value.length →
        text.getD j 0 ≠ 43 := by
      rcases List.mem_append.1 hyBC with h | h
      · rcases mem_scanFormattedNumbersLoop _ _ _ _ _ _ h with h1 | h1
        · cases h1
        · exact noPlus_of_emittedB _ _ _ h1
      · rcases mem_scanPlainDigitsLoop _ _ _ _ _ _ h with h1 | h1
        · cases h1
        · exact noPlus_of_emittedC _ _ _ (Nat.le_refl _) h1
    by_cases h1 : y.position ≤ a.position
    · by_cases h2 : a.position < y.position + y.value.length
      · exact absurd hplus (hno _ h1 h2)
      · exact Or.inr (Or.inl (by omega))
    · exact Or.inr (Or.inr (by omega))

/-! ## C25: international matches are never dropped -/

/-- C25: for every text of 7 to `10 * 2^20` bytes, every candidate `a` that
Pass A (`scanInternational`) emits is a match of `extract text`, and every
candidate of Pass B or Pass C that starts inside the span of `a` is absent
from `extract text`. -/
theorem international_never_dropped (text : List Nat)
    (hmin : 7 ≤ text.length) (hmax : text.length ≤ 10 * 2 ^ 20) (a : PhoneMatch)
    (ha : a ∈ scanInternational text text.length []) :
    a ∈ extract text ∧
    ∀ y, (y ∈ scanFormattedNumbers text text.length [] ∨
        y ∈ scanPlainDigits text text.length []) →
      a.position ≤ y.position → y.position < a.position + a.value.length →
      y ∉ extract text := by
  have hmin1 : MIN_DIGITS ≤ text.length := hmin
  have hmax1 : text.length ≤ MAX_INPUT_SIZE := by
    unfold MAX_INPUT_SIZE
    omega
  have hae := passA_mem_extract text hmin1 hmax1 a ha
  refine ⟨hae, ?_⟩
  intro y hy h1 h2 hye
  have hA : EmittedA text text.length a := by
    rcases mem_scanInternationalLoop _ _ _ _ _ _ ha with h | h
    · cases h
    · exact h
  have hta := type_of_emittedA _ _ _ hA
  have hy1 : y.type ≠ PhoneType.INTERNATIONAL_PLUS ∧ 0 < y.value.length := by
    rcases hy with h | h
    · rcases mem_scanFormattedNumbersLoop _ _ _ _ _ _ h with h3 | h3
      · cases h3
      · refine ⟨?_, (good_of_emittedB _ _ _ h3).nonempty⟩
        intro ht
        rcases type_of_emittedB _ _ _ h3 with h4 | h4 | h4 <;> rw [ht] at h4 <;> cases h4
    · rcases mem_scanPlainDigitsLoop _ _ _ _ _ _ h with h3 | h3
      · cases h3
      · refine ⟨?_, (good_of_emittedC _ _ _ (Nat.le_refl _) h3).nonempty⟩
        intro ht
        rcases type_of_emittedC _ _ _ h3 with h4 | h4 | h4 <;> rw [ht] at h4 <;> cases h4
  have hne : a ≠ y := by
    intro h
    rw [h] at hta
    exact hy1.1 hta
  rw [extract_eq_mergeLoop text hmin1 hmax1] at hae hye
  have hsym := List.Pairwise.forall
    (R := fun a b : PhoneMatch => a.position + a.value.length ≤ b.position ∨
      b.position + b.value.length ≤ a.position)
    (fun _ _ h => h.symm)
    ((mergeLoop_disjoint (sortByPosition (candidates text)) 0).imp (fun h => Or.inl h))
    hae hye hne
  have := hy1.2
  rcases hsym with h | h <;> omega

set_option maxRecDepth 40000 in
/-- C25 on `"Office: +1 234-567-8900, Mobile: 9876543210"`: the Pass A candidate
at offset 8 is kept, and the Pass B candidate `"234-567-8900"` at offset 11,
which starts inside it, is not a match. -/
theorem international_never_dropped_witness :
    (⟨PhoneType.INTERNATIONAL_PLUS, bytes ("+1 234-567-8900"), bytes ("12345678900"), 8⟩ :
        PhoneMatch) ∈ extract (bytes ("Office: +1 234-567-8900, Mobile: 9876543210")) ∧
    (⟨PhoneType.FORMATTED_DOMESTIC, bytes ("234-567-8900"), bytes ("2345678900"), 11⟩ :
        PhoneMatch) ∉ extract (bytes ("Office: +1 234-567-8900, Mobile: 9876543210")) :=
  ⟨(international_never_dropped (bytes ("Office: +1 234-567-8900, Mobile: 9876543210"))
      (by decide) (by decide)
      ⟨PhoneType.INTERNATIONAL_PLUS, bytes ("+1 234-567-8900"), bytes ("12345678900"), 8⟩
      (by decide)).1,
   (international_never_dropped (bytes ("Office: +1 234-567-8900, Mobile: 9876543210"))
      (by decide) (by decide)
      ⟨PhoneType.INTERNATIONAL_PLUS, bytes ("+1 234-567-8900"), bytes ("12345678900"), 8⟩
      (by decide)).2
      ⟨PhoneType.FORMATTED_DOMESTIC, bytes ("234-567-8900"), bytes ("2345678900"), 11⟩
      (Or.inl (by decide)) (by decide) (by decide)⟩

/-! ## A prefix without digit, `+` or `(` shifts the candidates -/

theorem getD_shift (p t : List Nat) (j : Nat) : (p ++ t).getD (p.length + j) 0 = t.getD j 0 := by
  rw [List.getD_append_right _ _ _ _ (Nat.le_add_right _ _), Nat.add_sub_cancel_left]

theorem getD_shift_add (p t : List Nat) (j k : Nat) :
    (p ++ t).getD (p.length + j + k) 0 = t.getD (j + k) 0 := by
  rw [Nat.add_assoc]
  exact getD_shift p t (j + k)

theorem decide_shift_lt (n a b : Nat) : decide (n + a < n + b) = decide (a < b) := by
  simp only [Nat.add_lt_add_iff_left]

theorem decide_shift_add_lt (n a k b : Nat) :
    decide (n + a + k < n + b) = decide (a + k < b) := by
  rw [Nat.add_assoc]
  exact decide_shift_lt n (a + k) b

theorem decide_shift_add_le (n a k b : Nat) :
    decide (n + a + k ≤ n + b) = decide (a + k ≤ b) := by
  rw [Nat.add_assoc]
  simp only [Nat.add_le_add_iff_left]

theorem scanInternationalWhile_shift (p t : List Nat) (len fuel : Nat) :
    ∀ (i : Nat) (c : List Nat) (d : Nat),
      scanInternationalWhile (p ++ t) (p.length + len) fuel (p.length + i) c d =
        (p.length + (scanInternationalWhile t len fuel i c d).1,
          (scanInternationalWhile t len fuel i c d).2.1,
          (scanInternationalWhile t len fuel i c d).2.2) := by
  induction fuel with
  | zero =>
    intro i c d
    rfl
  | succ fuel ih =>
    intro i c d
    rw [scanInternationalWhile, scanInternationalWhile, getD_shift, getD_shift_add,
      decide_shift_lt, decide_shift_add_lt]
    have step : ∀ b dc, scanInternationalWhile (p ++ t) (p.length + len) fuel
        (p.length + i + 1) (c ++ [b]) dc =
        (p.length + (scanInternationalWhile t len fuel (i + 1) (c ++ [b]) dc).1,
          (scanInternationalWhile t len fuel (i + 1) (c ++ [b]) dc).2.1,
          (scanInternationalWhile t len fuel (i + 1) (c ++ [b]) dc).2.2) :=
      fun b dc => ih (i + 1) (c ++ [b]) dc
    rw [step, step]
    split
    · split
      · rfl
      · split
        · rfl
        · split
          · rfl
          · rfl
    · rfl

theorem parenWhile_shift (p t : List Nat) (len fuel : Nat) :
    ∀ (e : Nat) (c : List Nat) (d : Nat),
      parenWhile (p ++ t) (p.length + len) fuel (p.length + e) c d =
        (p.length + (parenWhile t len fuel e c d).1, (parenWhile t len fuel e c d).2.1,
          (parenWhile t len fuel e c d).2.2) := by
  induction fuel with
  | zero =>
    intro e c d
    rfl
  | succ fuel ih =>
    intro e c d
    rw [parenWhile, parenWhile, getD_shift, decide_shift_lt]
    have step : ∀ b dc, parenWhile (p ++ t) (p.length + len) fuel
        (p.length + e + 1) (c ++ [b]) dc =
        (p.length + (parenWhile t len fuel (e + 1) (c ++ [b]) dc).1,
          (parenWhile t len fuel (e + 1) (c ++ [b]) dc).2.1,
          (parenWhile t len fuel (e + 1) (c ++ [b]) dc).2.2) :=
      fun b dc => ih (e + 1) (c ++ [b]) dc
    rw [step, step]
    split
    · split
      · rfl
      · split
        · rfl
        · rfl
    · rfl

theorem runWhile_shift (p t : List Nat) (len fuel : Nat) :
    ∀ (i : Nat) (c : List Nat) (d sep : Nat) (hs : Bool),
      runWhile (p ++ t) (p.length + len) fuel ⟨p.length + i, c, d, sep, hs⟩ =
        ⟨p.length + (runWhile t len fuel ⟨i, c, d, sep, hs⟩).i,
          (runWhile t len fuel ⟨i, c, d, sep, hs⟩).candidate,
          (runWhile t len fuel ⟨i, c, d, sep, hs⟩).digitCount,
          (runWhile t len fuel ⟨i, c, d, sep, hs⟩).separator,
          (runWhile t len fuel ⟨i, c, d, sep, hs⟩).hasSeparator⟩ := by
  induction fuel with
  | zero =>
    intro i c d sep hs
    rfl
  | succ fuel ih =>
    intro i c d sep hs
    rw [runWhile, runWhile]
    dsimp only
    rw [getD_shift, getD_shift_add, decide_shift_lt, decide_shift_add_lt]
    have step : ∀ b dc sp h, runWhile (p ++ t) (p.length + len) fuel
        ⟨p.length + i + 1, c ++ [b], dc, sp, h⟩ =
        ⟨p.length + (runWhile t len fuel ⟨i + 1, c ++ [b], dc, sp, h⟩).i,
          (runWhile t len fuel ⟨i + 1, c ++ [b], dc, sp, h⟩).candidate,
          (runWhile t len fuel ⟨i + 1, c ++ [b], dc, sp, h⟩).digitCount,
          (runWhile t len fuel ⟨i + 1, c ++ [b], dc, sp, h⟩).separator,
          (runWhile t len fuel ⟨i + 1, c ++ [b], dc, sp, h⟩).hasSeparator⟩ :=
      fun b dc sp h => ih (i + 1) (c ++ [b]) dc sp h
    rw [step]
    generalize (if (sep == 0) = true then t.getD i 0 else sep) = sp
    rw [step]
    split
    · split
      · rfl
      · split
        · split
          · rfl
          · rfl
        · rfl
    · rfl

theorem digitRunWhile_shift (p t : List Nat) (len fuel : Nat) :
    ∀ (i d : Nat),
      digitRunWhile (p ++ t) (p.length + len) fuel (p.length + i) d =
        (p.length + (digitRunWhile t len fuel i d).1, (digitRunWhile t len fuel i d).2) := by
  induction fuel with
  | zero =>
    intro i d
    rfl
  | succ fuel ih =>
    intro i d
    rw [digitRunWhile, digitRunWhile, getD_shift, decide_shift_lt]
    have step : digitRunWhile (p ++ t) (p.length + len) fuel (p.length + i + 1) (d + 1) =
        (p.length + (digitRunWhile t len fuel (i + 1) (d + 1)).1,
          (digitRunWhile t len fuel (i + 1) (d + 1)).2) := ih (i + 1) (d + 1)
    rw [step]
    split
    · rfl
    · rfl

theorem parenCandidate_shift (p t : List Nat) (len i : Nat) :
    parenCandidate (p ++ t) (p.length + len) (p.length + i) =
      (parenCandidate t len i).map (fun r => (shiftMatch p.length r.1, p.length + r.2)) := by
  unfold parenCandidate
  have hw : ∀ c, parenWhile (p ++ t) (p.length + len) MAX_PHONE_LENGTH (p.length + i + 6) c 0 =
      (p.length + (parenWhile t len MAX_PHONE_LENGTH (i + 6) c 0).1,
        (parenWhile t len MAX_PHONE_LENGTH (i + 6) c 0).2.1,
        (parenWhile t len MAX_PHONE_LENGTH (i + 6) c 0).2.2) :=
    fun c => parenWhile_shift p t len MAX_PHONE_LENGTH (i + 6) c 0
  rw [getD_shift, getD_shift_add, getD_shift_add, getD_shift_add, getD_shift_add,
    getD_shift_add, decide_shift_add_le, hw]
  split
  · split
    · dsimp only
      split
      · split
        · rfl
        · rfl
      · rfl
    · rfl
  · rfl

theorem runCandidate_shift (p t : List Nat) (len i : Nat) :
    runCandidate (p ++ t) (p.length + len) (p.length + i) =
      (runCandidate t len i).map (fun r => (shiftMatch p.length r.1, p.length + r.2)) := by
  unfold runCandidate
  rw [runWhile_shift]
  dsimp only
  split
  · split
    · rfl
    · split
      · rfl
      · split
        · rfl
        · rfl
  · rfl

theorem plainCandidate_shift (p t : List Nat) (i d : Nat) :
    plainCandidate (p ++ t) (p.length + i) d =
      (plainCandidate t i d).map (shiftMatch p.length) := by
  unfold plainCandidate
  rw [List.drop_append]
  dsimp only
  split
  · split
    · rfl
    · split
      · rfl
      · split
        · rfl
        · rfl
  · split
    · split
      · rfl
      · rfl
    · rfl

theorem scanInternationalLoop_shift (p t : List Nat) (len fuel : Nat) :
    ∀ (i : Nat) (m : List PhoneMatch),
      scanInternationalLoop (p ++ t) (p.length + len) fuel (p.length + i)
          (m.map (shiftMatch p.length)) =
        (scanInternationalLoop t len fuel i m).map (shiftMatch p.length) := by
  induction fuel with
  | zero =>
    intro i m
    rfl
  | succ fuel ih =>
    intro i m
    rw [scanInternationalLoop, scanInternationalLoop]
    have hw : scanInternationalWhile (p ++ t) (p.length + len) MAX_PHONE_LENGTH
        (p.length + i + 1) [43] 0 =
        (p.length + (scanInternationalWhile t len MAX_PHONE_LENGTH (i + 1) [43] 0).1,
          (scanInternationalWhile t len MAX_PHONE_LENGTH (i + 1) [43] 0).2.1,
          (scanInternationalWhile t len MAX_PHONE_LENGTH (i + 1) [43] 0).2.2) :=
      scanInternationalWhile_shift p t len MAX_PHONE_LENGTH (i + 1) [43] 0
    have hnext : ∀ m1, scanInternationalLoop (p ++ t) (p.length + len) fuel (p.length + i + 1)
        (m1.map (shiftMatch p.length)) =
        (scanInternationalLoop t len fuel (i + 1) m1).map (shiftMatch p.length) :=
      fun m1 => ih (i + 1) m1
    by_cases hi : i < len
    · rw [if_pos (by omega : p.length + i < p.length + len), if_pos hi, getD_shift,
        getD_shift_add, decide_shift_add_lt, hw]
      split
      · dsimp only
        split
        · rw [← ih, List.map_append]
          rfl
        · exact hnext m
      · exact hnext m
    · rw [if_neg (by omega : ¬ p.length + i < p.length + len), if_neg hi]

/-- The look-behind of lines 300 and 366 at the cursor `p.length + i` of
`p ++ t` gives what it gives at the cursor `i` of `t`, because the last byte of
`p` is not a digit. -/
theorem lookBehind_shift (p t : List Nat) (hp : ∀ c ∈ p, isDigit c = false) (i : Nat) :
    (p.length + i == 0 || !isDigit ((p ++ t).getD (p.length + i - 1) 0)) =
      (i == 0 || !isDigit (t.getD (i - 1) 0)) := by
  cases i with
  | zero =>
    cases hn : p.length with
    | zero => rfl
    | succ k =>
      have h1 : (p ++ t).getD (k + 1 + 0 - 1) 0 = p.getD k 0 := by
        rw [List.getD_append _ _ _ _ (by omega)]
        rfl
      rw [h1, isDigit_getD_of_none p hp k]
      rfl
  | succ j =>
    have h1 : p.length + (j + 1) - 1 = p.length + j := by omega
    have h2 : (p.length + (j + 1) == 0) = false := by
      rw [beq_eq_false_iff_ne]
      omega
    rw [h1, getD_shift, h2]
    rfl

/-- The cursor `end` of an emitted parenthesized block is beyond its six
leading bytes. -/
theorem parenCandidate_end_ge (data : List Nat) (len i e : Nat) (x : PhoneMatch)
    (hx : parenCandidate data len i = some (x, e)) : i + 6 ≤ e := by
  obtain ⟨_, _, he, _⟩ := parenCandidate_shape data len i e x hx
  obtain ⟨h1, _⟩ := parenWhile_spec data len MAX_PHONE_LENGTH (i + 6)
    ([40] ++ [data.getD (i + 1) 0] ++ [data.getD (i + 2) 0] ++ [data.getD (i + 3) 0] ++
      [41, 32]) 0
  obtain ⟨u, h2, _⟩ := parenWhile_bytes data len MAX_PHONE_LENGTH (i + 6)
    ([40] ++ [data.getD (i + 1) 0] ++ [data.getD (i + 2) 0] ++ [data.getD (i + 3) 0] ++
      [41, 32]) 0
  rw [h2] at h1
  simp only [List.length_append, List.length_cons, List.length_nil] at h1
  rw [he]
  omega

theorem scanFormattedNumbersLoop_shift (p t : List Nat) (hp : ∀ c ∈ p, isDigit c = false)
    (len fuel : Nat) :
    ∀ (i : Nat) (m : List PhoneMatch),
      scanFormattedNumbersLoop (p ++ t) (p.length + len) fuel (p.length + i)
          (m.map (shiftMatch p.length)) =
        (scanFormattedNumbersLoop t len fuel i m).map (shiftMatch p.length) := by
  induction fuel with
  | zero =>
    intro i m
    rfl
  | succ fuel ih =>
    intro i m
    rw [scanFormattedNumbersLoop, scanFormattedNumbersLoop]
    have hnext : ∀ m1, scanFormattedNumbersLoop (p ++ t) (p.length + len) fuel
        (p.length + i + 1) (m1.map (shiftMatch p.length)) =
        (scanFormattedNumbersLoop t len fuel (i + 1) m1).map (shiftMatch p.length) :=
      fun m1 => ih (i + 1) m1
    by_cases hi : i < len
    · rw [if_pos (by omega : p.length + i < p.length + len), if_pos hi, parenCandidate_shift,
        lookBehind_shift p t hp, getD_shift, runCandidate_shift]
      cases hpc : parenCandidate t len i with
      | some r =>
        obtain ⟨pm, e⟩ := r
        have he := parenCandidate_end_ge t len i e pm hpc
        have h1 : p.length + e - 1 + 1 = p.length + (e - 1 + 1) := by omega
        simp only [Option.map_some']
        rw [h1, ← ih, List.map_append]
        rfl
      | none =>
        simp only [Option.map_none']
        split
        · cases hrc : runCandidate t len i with
          | some r =>
            obtain ⟨pm, i1⟩ := r
            simp only [Option.map_some']
            rw [← ih, List.map_append]
            rfl
          | none =>
            simp only [Option.map_none']
            exact hnext m
        · exact hnext m
    · rw [if_neg (by omega : ¬ p.length + i < p.length + len), if_neg hi]

theorem scanPlainDigitsLoop_shift (p t : List Nat) (hp : ∀ c ∈ p, isDigit c = false)
    (fuel : Nat) :
    ∀ (i : Nat) (m : List PhoneMatch),
      scanPlainDigitsLoop (p ++ t) (p.length + t.length) fuel (p.length + i)
          (m.map (shiftMatch p.length)) =
        (scanPlainDigitsLoop t t.length fuel i m).map (shiftMatch p.length) := by
  induction fuel with
  | zero =>
    intro i m
    rfl
  | succ fuel ih =>
    intro i m
    rw [scanPlainDigitsLoop, scanPlainDigitsLoop]
    have hnext : ∀ m1, scanPlainDigitsLoop (p ++ t) (p.length + t.length) fuel
        (p.length + i + 1) (m1.map (shiftMatch p.length)) =
        (scanPlainDigitsLoop t t.length fuel (i + 1) m1).map (shiftMatch p.length) :=
      fun m1 => ih (i + 1) m1
    by_cases hi : i < t.length
    · have hlb : (decide (p.length + i > 0) && isDigit ((p ++ t).getD (p.length + i - 1) 0)) =
          (decide (i > 0) && isDigit (t.getD (i - 1) 0)) := by
        cases i with
        | zero =>
          cases hn : p.length with
          | zero => rfl
          | succ k =>
            have h1 : (p ++ t).getD (k + 1 + 0 - 1) 0 = p.getD k 0 := by
              rw [List.getD_append _ _ _ _ (by omega)]
              rfl
            rw [h1, isDigit_getD_of_none p hp k, Bool.and_false]
            rfl
        | succ j =>
          have h1 : p.length + (j + 1) - 1 = p.length + j := by omega
          have h2 : decide (p.length + (j + 1) > 0) = true := decide_eq_true (by omega)
          have h3 : decide (j + 1 > 0) = true := decide_eq_true (by omega)
          rw [h1, getD_shift, h2, h3]
          rfl
      have hrun : digitRunWhile (p ++ t) (p.length + t.length) (p.length + t.length)
          (p.length + i) 0 =
          (p.length + (digitRunWhile t t.length t.length i 0).1,
            (digitRunWhile t t.length t.length i 0).2) := by
        rw [digitRunWhile_fuel (p ++ t) (p.length + t.length) (p.length + t.length) t.length
          (p.length + i) 0 (by omega) (by omega)]
        exact digitRunWhile_shift p t t.length t.length i 0
      rw [if_pos (by omega : p.length + i < p.length + t.length), if_pos hi, getD_shift, hlb,
        hrun]
      split
      · exact hnext m
      · rename_i hd
        have hd1 : isDigit (t.getD i 0) = true := by
          cases hx : isDigit (t.getD i 0) with
          | true => rfl
          | false => rw [hx] at hd; exact absurd rfl hd
        have hpr := digitRunWhile_progress t t.length t.length i hi hd1 (by omega)
        have hsp := (digitRunWhile_spec t t.length t.length i 0).1
        split
        · exact hnext m
        · dsimp only
          rw [decide_shift_lt, getD_shift, plainCandidate_shift]
          split
          · exact ih ((digitRunWhile t t.length t.length i 0).1 + 1) m
          · cases hpc : plainCandidate t i (digitRunWhile t t.length t.length i 0).2 with
            | some pm =>
              simp only [Option.map_some']
              rw [← ih, List.map_append]
              rfl
            | none =>
              simp only [Option.map_none']
              have h1 : p.length + i + (digitRunWhile t t.length t.length i 0).2 - 1 + 1 =
                  p.length + (i + (digitRunWhile t t.length t.length i 0).2 - 1 + 1) := by
                omega
              rw [h1]
              exact ih _ m
    · rw [if_neg (by omega : ¬ p.length + i < p.length + t.length), if_neg hi]

theorem getD_prefix_mem (p t : List Nat) (i : Nat) (hi : i < p.length) :
    (p ++ t).getD i 0 ∈ p := by
  rw [List.getD_append _ _ _ _ hi, List.getD_eq_getElem p 0 hi]
  exact List.getElem_mem hi

/-- Pass A walks over a prefix without `+` one byte per round and emits
nothing. -/
theorem scanInternationalLoop_skip (p t : List Nat) (hp : ∀ c ∈ p, c ≠ 43) (len fuel : Nat)
    (m : List PhoneMatch) :
    ∀ (k i : Nat), i + k = p.length →
      scanInternationalLoop (p ++ t) (p.length + len) (k + fuel) i m =
        scanInternationalLoop (p ++ t) (p.length + len) fuel p.length m := by
  intro k
  induction k with
  | zero =>
    intro i hi
    rw [Nat.zero_add, ← hi, Nat.add_zero]
  | succ k ih =>
    intro i hi
    have hne := hp _ (getD_prefix_mem p t i (by omega))
    rw [show k + 1 + fuel = (k + fuel) + 1 by omega, scanInternationalLoop,
      if_pos (by omega : i < p.length + len), if_neg, ih (i + 1) (by omega)]
    simp only [Bool.and_eq_true, beq_iff_eq, not_and]
    intro h
    exact absurd h.1 hne

/-- Pass B walks over a prefix without `(` and without digit one byte per
round and emits nothing. -/
theorem scanFormattedNumbersLoop_skip (p t : List Nat) (hp : ∀ c ∈ p, c ≠ 40)
    (hd : ∀ c ∈ p, isDigit c = false) (len fuel : Nat) (m : List PhoneMatch) :
    ∀ (k i : Nat), i + k = p.length →
      scanFormattedNumbersLoop (p ++ t) (p.length + len) (k + fuel) i m =
        scanFormattedNumbersLoop (p ++ t) (p.length + len) fuel p.length m := by
  intro k
  induction k with
  | zero =>
    intro i hi
    rw [Nat.zero_add, ← hi, Nat.add_zero]
  | succ k ih =>
    intro i hi
    have hmem := getD_prefix_mem p t i (by omega)
    have hne := hp _ hmem
    have hdig := hd _ hmem
    have hpc : parenCandidate (p ++ t) (p.length + len) i = none := by
      unfold parenCandidate
      rw [if_neg]
      simp only [Bool.and_eq_true, beq_iff_eq, not_and]
      intro h
      exact absurd h hne
    rw [show k + 1 + fuel = (k + fuel) + 1 by omega, scanFormattedNumbersLoop,
      if_pos (by omega : i < p.length + len), hpc]
    dsimp only
    rw [hdig, if_neg (by simp), ih (i + 1) (by omega)]

/-- Pass C walks over a prefix without digit one byte per round and emits
nothing. -/
theorem scanPlainDigitsLoop_skip (p t : List Nat) (hd : ∀ c ∈ p, isDigit c = false)
    (len fuel : Nat) (m : List PhoneMatch) :
    ∀ (k i : Nat), i + k = p.length →
      scanPlainDigitsLoop (p ++ t) (p.length + len) (k + fuel) i m =
        scanPlainDigitsLoop (p ++ t) (p.length + len) fuel p.length m := by
  intro k
  induction k with
  | zero =>
    intro i hi
    rw [Nat.zero_add, ← hi, Nat.add_zero]
  | succ k ih =>
    intro i hi
    have hdig := hd _ (getD_prefix_mem p t i (by omega))
    rw [show k + 1 + fuel = (k + fuel) + 1 by omega, scanPlainDigitsLoop,
      if_pos (by omega : i < p.length + len), hdig, if_pos (by rfl), ih (i + 1) (by omega)]

/-- The candidates of `p ++ t` are those of `t`, shifted by the length of
`p`, when `p` holds no digit, no `+` and no `(`. -/
theorem candidates_shift (p t : List Nat) (hd : ∀ c ∈ p, isDigit c = false)
    (h43 : ∀ c ∈ p, c ≠ 43) (h40 : ∀ c ∈ p, c ≠ 40) :
    candidates (p ++ t) = (candidates t).map (shiftMatch p.length) := by
  unfold candidates scanPlainDigits scanFormattedNumbers scanInternational
  rw [List.length_append]
  have hA : scanInternationalLoop (p ++ t) (p.length + t.length) (p.length + t.length) 0 [] =
      (scanInternationalLoop t t.length t.length 0 []).map (shiftMatch p.length) := by
    rw [scanInternationalLoop_skip p t h43 t.length t.length [] p.length 0 (by omega)]
    exact scanInternationalLoop_shift p t t.length t.length 0 []
  have hB : ∀ m, scanFormattedNumbersLoop (p ++ t) (p.length + t.length)
      (p.length + t.length) 0 (m.map (shiftMatch p.length)) =
      (scanFormattedNumbersLoop t t.length t.length 0 m).map (shiftMatch p.length) := by
    intro m
    rw [scanFormattedNumbersLoop_skip p t h40 hd t.length t.length _ p.length 0 (by omega)]
    exact scanFormattedNumbersLoop_shift p t hd t.length t.length 0 m
  have hC : ∀ m, scanPlainDigitsLoop (p ++ t) (p.length + t.length)
      (p.length + t.length) 0 (m.map (shiftMatch p.length)) =
      (scanPlainDigitsLoop t t.length t.length 0 m).map (shiftMatch p.length) := by
    intro m
    rw [scanPlainDigitsLoop_skip p t hd t.length t.length _ p.length 0 (by omega)]
    exact scanPlainDigitsLoop_shift p t hd t.length 0 m
  rw [hA, hB, hC]

theorem insertByPosition_shift (n : Nat) (x : PhoneMatch) (l : List PhoneMatch) :
    insertByPosition (shiftMatch n x) (l.map (shiftMatch n)) =
      (insertByPosition x l).map (shiftMatch n) := by
  induction l with
  | nil => rfl
  | cons y ys ih =>
    rw [List.map_cons, insertByPosition, insertByPosition]
    by_cases h : y.position < x.position
    · rw [if_pos h, if_pos (by show n + y.position < n + x.position; omega), ih]
      rfl
    · rw [if_neg h, if_neg (by show ¬ n + y.position < n + x.position; omega)]
      rfl

theorem sortByPosition_shift (n : Nat) (l : List PhoneMatch) :
    sortByPosition (l.map (shiftMatch n)) = (sortByPosition l).map (shiftMatch n) := by
  induction l with
  | nil => rfl
  | cons x xs ih =>
    rw [List.map_cons, sortByPosition, sortByPosition, ih, insertByPosition_shift]

theorem mergeLoop_shift (n : Nat) (l : List PhoneMatch) :
    ∀ lastEnd : Nat, mergeLoop (l.map (shiftMatch n)) (n + lastEnd) [] =
      (mergeLoop l lastEnd []).map (shiftMatch n) := by
  induction l with
  | nil =>
    intro lastEnd
    rfl
  | cons x xs ih =>
    intro lastEnd
    rw [List.map_cons, mergeLoop_cons, mergeLoop_cons]
    have hnext : mergeLoop (xs.map (shiftMatch n))
        ((shiftMatch n x).position + (shiftMatch n x).value.length) [] =
        (mergeLoop xs (x.position + x.value.length) []).map (shiftMatch n) := by
      rw [← ih]
      show mergeLoop _ (n + x.position + x.value.length) [] = _
      rw [Nat.add_assoc]
    by_cases h : x.position ≥ lastEnd
    · rw [if_pos h, if_pos (by show n + x.position ≥ n + lastEnd; omega), hnext]
      rfl
    · rw [if_neg h, if_neg (by show ¬ n + x.position ≥ n + lastEnd; omega), ih]

theorem mergeLoop_shift_zero (n : Nat) (l : List PhoneMatch) :
    mergeLoop (l.map (shiftMatch n)) 0 [] = (mergeLoop l 0 []).map (shiftMatch n) := by
  cases l with
  | nil => rfl
  | cons x xs =>
    rw [List.map_cons, mergeLoop_cons, mergeLoop_cons, if_pos (Nat.zero_le _),
      if_pos (Nat.zero_le _)]
    have h := mergeLoop_shift n xs (x.position + x.value.length)
    rw [← Nat.add_assoc] at h
    rw [List.map_cons]
    exact congrArg _ h

/-- The result on `p ++ t` is the result on `t` shifted by the length of
`p`, when both texts pass the length gate of line 420. -/
theorem extract_shift (p t : List Nat) (hd : ∀ c ∈ p, isDigit c = false)
    (h43 : ∀ c ∈ p, c ≠ 43) (h40 : ∀ c ∈ p, c ≠ 40) (hmin : MIN_DIGITS ≤ t.length)
    (hmax : p.length + t.length ≤ MAX_INPUT_SIZE) :
    extract (p ++ t) = (extract t).map (shiftMatch p.length) := by
  rw [extract_eq_mergeLoop (p ++ t) (by rw [List.length_append]; omega)
      (by rw [List.length_append]; exact hmax),
    extract_eq_mergeLoop t hmin (by omega), candidates_shift p t hd h43 h40,
    sortByPosition_shift, mergeLoop_shift_zero]

/-! ## C29: prefix translation invariance -/

/-- C29: for every byte string `p` without digit, `+` and `(`, and every text
`t` of at least 7 bytes with `p.length + t.length ≤ 10 * 2^20`, the matches of
`extract (p ++ t)` are those of `extract t`, in the same order, with `type`,
`value` and `normalized` unchanged and `position` increased by `p.length`. -/
theorem extract_prefix_shift (p t : List Nat)
    (hp : ∀ c ∈ p, ¬ (48 ≤ c ∧ c ≤ 57) ∧ c ≠ 43 ∧ c ≠ 40)
    (hmin : 7 ≤ t.length) (hmax : p.length + t.length ≤ 10 * 2 ^ 20) :
    extract (p ++ t) =
      (extract t).map (fun m => ⟨m.type, m.value, m.normalized, m.position + p.length⟩) := by
  have hd : ∀ c ∈ p, isDigit c = false := by
    intro c hc
    have h1 := (hp c hc).1
    rw [← isDigit_iff] at h1
    exact Bool.eq_false_iff.2 h1
  have hmax1 : p.length + t.length ≤ MAX_INPUT_SIZE := by
    unfold MAX_INPUT_SIZE
    omega
  rw [extract_shift p t hd (fun c hc => (hp c hc).2.1) (fun c hc => (hp c hc).2.2) hmin hmax1]
  apply List.map_congr_left
  intro m _
  show (⟨m.type, m.value, m.normalized, p.length + m.position⟩ : PhoneMatch) = _
  rw [Nat.add_comm]

set_option maxRecDepth 40000 in
/-- C29 on the prefix `"Call: "` and the text `"123-456-7890"`: the match of the
text at offset 0 is found at offset 6. -/
theorem extract_prefix_shift_witness :
    (∀ c ∈ bytes ("Call: "), ¬ (48 ≤ c ∧ c ≤ 57) ∧ c ≠ 43 ∧ c ≠ 40) ∧
    7 ≤ (bytes ("123-456-7890")).length ∧
    extract (bytes ("Call: ") ++ bytes ("123-456-7890")) =
      [⟨PhoneType.FORMATTED_DOMESTIC, bytes ("123-456-7890"), bytes ("1234567890"), 6⟩] :=
  ⟨by decide, by decide,
    (extract_prefix_shift (bytes ("Call: ")) (bytes ("123-456-7890")) (by decide) (by decide)
      (by decide)).trans (by decide)⟩

/-! ## Every read is in range -/

theorem readAt_lt (s : List Nat) (n j : Nat) (h : j < n) : readAt s n j = some (s.getD j 0) := by
  rw [readAt, if_pos h]

theorem scAnd_some (a : Bool) (x : Option Bool) (b : Bool) (h : a = true → x = some b) :
    scAnd (some a) x = some (a && b) := by
  cases a with
  | true => rw [scAnd, h rfl]; rfl
  | false => rfl

theorem scOr_some (a : Bool) (x : Option Bool) (b : Bool) (h : a = false → x = some b) :
    scOr (some a) x = some (a || b) := by
  cases a with
  | true => rfl
  | false => rw [scOr, h rfl]; rfl

theorem readAt_map (s : List Nat) (n j : Nat) (f : Nat → Bool) (h : j < n) :
    (readAt s n j).map f = some (f (s.getD j 0)) := by
  rw [readAt_lt s n j h]
  rfl

theorem scanInternationalWhileChecked_eq (data : List Nat) (len fuel : Nat) :
    ∀ (i : Nat) (candidate : List Nat) (digitCount : Nat),
      scanInternationalWhileChecked data len fuel i candidate digitCount =
        some (scanInternationalWhile data len fuel i candidate digitCount) := by
  induction fuel with
  | zero =>
    intro i candidate digitCount
    rfl
  | succ fuel ih =>
    intro i candidate digitCount
    rw [scanInternationalWhileChecked, scanInternationalWhile]
    split
    · rename_i hc
      simp only [Bool.and_eq_true, decide_eq_true_eq] at hc
      rw [readAt_lt data len i hc.1]
      dsimp only
      rw [scAnd_some _ _ (isDigit (data.getD (i + 1) 0) || data.getD (i + 1) 0 == 40)
        (fun h => by
          simp only [Bool.and_eq_true, decide_eq_true_eq] at h
          exact readAt_map data len (i + 1) _ h.2)]
      dsimp only
      split
      · exact ih _ _ _
      · split
        · exact ih _ _ _
        · split
          · exact ih _ _ _
          · rfl
    · rfl

theorem scanInternationalLoopChecked_eq (data : List Nat) (len fuel : Nat) :
    ∀ (i : Nat) (m : List PhoneMatch),
      scanInternationalLoopChecked data len fuel i m =
        some (scanInternationalLoop data len fuel i m) := by
  induction fuel with
  | zero =>
    intro i m
    rfl
  | succ fuel ih =>
    intro i m
    rw [scanInternationalLoopChecked, scanInternationalLoop]
    split
    · rename_i hi
      rw [readAt_map data len i _ hi, scAnd_some _ _ (decide (i + 1 < len)) (fun _ => rfl),
        scAnd_some _ _ (isDigit (data.getD (i + 1) 0)) (fun h => by
          simp only [Bool.and_eq_true, decide_eq_true_eq] at h
          exact readAt_map data len (i + 1) _ h.2),
        scanInternationalWhileChecked_eq]
      dsimp only
      split
      · split
        · exact ih _ _
        · exact ih _ _
      · exact ih _ _
    · rfl

theorem parenWhileChecked_eq (data : List Nat) (len fuel : Nat) :
    ∀ (e : Nat) (candidate : List Nat) (digitCount : Nat),
      parenWhileChecked data len fuel e candidate digitCount =
        some (parenWhile data len fuel e candidate digitCount) := by
  induction fuel with
  | zero =>
    intro e candidate digitCount
    rfl
  | succ fuel ih =>
    intro e candidate digitCount
    rw [parenWhileChecked, parenWhile]
    split
    · rename_i hc
      simp only [Bool.and_eq_true, decide_eq_true_eq] at hc
      rw [readAt_lt data len e hc.1.1]
      dsimp only
      split
      · exact ih _ _ _
      · split
        · exact ih _ _ _
        · rfl
    · rfl

theorem parenGuardChecked_eq (data : List Nat) (len i : Nat) (hi : i < len) :
    parenGuardChecked data len i = some (data.getD i 0 == 40 && decide (i + 14 ≤ len)) := by
  rw [parenGuardChecked, readAt_map data len i _ hi, scAnd_some _ _ _ (fun _ => rfl)]

theorem parenHeadChecked_eq (data : List Nat) (len i : Nat) (hi : i + 14 ≤ len) :
    parenHeadChecked data len i =
      some (isDigit (data.getD (i + 1) 0) && isDigit (data.getD (i + 2) 0) &&
        isDigit (data.getD (i + 3) 0) && data.getD (i + 4) 0 == 41 &&
        (data.getD (i + 5) 0 == 32 || data.getD (i + 5) 0 == 45)) := by
  rw [parenHeadChecked, readAt_map data len (i + 1) _ (by omega),
    readAt_map data len (i + 2) _ (by omega), readAt_map data len (i + 3) _ (by omega),
    readAt_map data len (i + 4) _ (by omega), readAt_map data len (i + 5) _ (by omega),
    readAt_map data len (i + 5) _ (by omega), scOr_some _ _ _ (fun _ => rfl),
    scAnd_some _ _ _ (fun _ => rfl), scAnd_some _ _ _ (fun _ => rfl),
    scAnd_some _ _ _ (fun _ => rfl), scAnd_some _ _ _ (fun _ => rfl)]

theorem parenPrefixChecked_eq (data : List Nat) (len i : Nat) (hi : i + 14 ≤ len) :
    parenPrefixChecked data len i =
      some ([40] ++ [data.getD (i + 1) 0] ++ [data.getD (i + 2) 0] ++ [data.getD (i + 3) 0] ++
        [41, 32]) := by
  rw [parenPrefixChecked, readAt_lt data len (i + 1) (by omega),
    readAt_lt data len (i + 2) (by omega), readAt_lt data len (i + 3) (by omega)]

theorem domesticDigitsChecked_eq (digits : List Nat) :
    domesticDigitsChecked digits =
      some (digits.length == 10 && digits.getD 0 0 != 48 && decide (digits.getD 3 0 ≥ 50)) := by
  rw [domesticDigitsChecked,
    scAnd_some _ _ (digits.getD 0 0 != 48) (fun h => by
      rw [beq_iff_eq] at h
      exact readAt_map digits digits.length 0 _ (by omega)),
    scAnd_some _ _ (decide (digits.getD 3 0 ≥ 50)) (fun h => by
      simp only [Bool.and_eq_true, beq_iff_eq] at h
      exact readAt_map digits digits.length 3 _ (by omega))]

theorem parenCandidateChecked_eq (data : List Nat) (len i : Nat) (hi : i < len) :
    parenCandidateChecked data len i = some (parenCandidate data len i) := by
  rw [parenCandidateChecked, parenCandidate, parenGuardChecked_eq data len i hi]
  dsimp only
  split
  · rename_i h0
    simp only [Bool.and_eq_true, beq_iff_eq, decide_eq_true_eq] at h0
    rw [parenHeadChecked_eq data len i h0.2]
    dsimp only
    split
    · rw [parenPrefixChecked_eq data len i h0.2]
      dsimp only
      rw [parenWhileChecked_eq]
      dsimp only
      split
      · rw [domesticDigitsChecked_eq]
        dsimp only
        split
        · rfl
        · rfl
      · rfl
    · rfl
  · rfl

theorem runWhileChecked_eq (data : List Nat) (len fuel : Nat) :
    ∀ s : RunState, runWhileChecked data len fuel s = some (runWhile data len fuel s) := by
  induction fuel with
  | zero =>
    intro s
    rfl
  | succ fuel ih =>
    intro s
    rw [runWhileChecked, runWhile]
    split
    · rename_i hc
      simp only [Bool.and_eq_true, decide_eq_true_eq] at hc
      rw [readAt_lt data len s.i hc.1]
      dsimp only
      rw [scAnd_some _ _ (isDigit (data.getD (s.i + 1) 0))
        (fun h => by
          simp only [Bool.and_eq_true, decide_eq_true_eq] at h
          exact readAt_map data len (s.i + 1) _ h.2)]
      dsimp only
      unfold pickSeparator
      generalize (if (s.separator == 0) = true then data.getD s.i 0 else s.separator) = sep
      split
      · exact ih _
      · split
        · split
          · exact ih _
          · rfl
        · rfl
    · rfl

theorem mobileDigitsChecked_eq (digitCount separator : Nat) (digits : List Nat)
    (h : digits.length = digitCount) :
    mobileDigitsChecked digitCount separator digits =
      some (digitCount == 10 && separator == 32 && decide (digits.getD 0 0 ≥ 49) &&
        decide (digits.getD 0 0 ≤ 57)) := by
  rw [mobileDigitsChecked,
    scAnd_some _ _ (decide (digits.getD 0 0 ≥ 49)) (fun h1 => by
      simp only [Bool.and_eq_true, beq_iff_eq] at h1
      exact readAt_map digits digits.length 0 _ (by omega)),
    scAnd_some _ _ (decide (digits.getD 0 0 ≤ 57)) (fun h1 => by
      simp only [Bool.and_eq_true, beq_iff_eq] at h1
      exact readAt_map digits digits.length 0 _ (by omega))]

theorem domesticRunChecked_eq (digitCount : Nat) (digits : List Nat)
    (h : digits.length = digitCount) :
    domesticRunChecked digitCount digits =
      some (digitCount == 10 && digits.getD 0 0 != 48 && decide (digits.getD 3 0 ≥ 50)) := by
  rw [domesticRunChecked,
    scAnd_some _ _ (digits.getD 0 0 != 48) (fun h1 => by
      rw [beq_iff_eq] at h1
      exact readAt_map digits digits.length 0 _ (by omega)),
    scAnd_some _ _ (decide (digits.getD 3 0 ≥ 50)) (fun h1 => by
      simp only [Bool.and_eq_true, beq_iff_eq] at h1
      exact readAt_map digits digits.length 3 _ (by omega))]

theorem tollFreeRunChecked_eq (digitCount : Nat) (digits : List Nat)
    (h : digits.length = digitCount) :
    tollFreeRunChecked digitCount digits =
      some (digitCount == 11 && digits.getD 0 0 == 49 && digits.getD 1 0 != 48) := by
  rw [tollFreeRunChecked,
    scAnd_some _ _ (digits.getD 0 0 == 49) (fun h1 => by
      rw [beq_iff_eq] at h1
      exact readAt_map digits digits.length 0 _ (by omega)),
    scAnd_some _ _ (digits.getD 1 0 != 48) (fun h1 => by
      simp only [Bool.and_eq_true, beq_iff_eq] at h1
      exact readAt_map digits digits.length 1 _ (by omega))]

theorem runCandidateChecked_eq (data : List Nat) (len i : Nat) :
    runCandidateChecked data len i = some (runCandidate data len i) := by
  rw [runCandidateChecked, runCandidate, runWhileChecked_eq]
  dsimp only
  have h5 := (runWhile_spec data len MAX_PHONE_LENGTH ⟨i, [], 0, 0, false⟩).2.2 rfl
  generalize runWhile data len MAX_PHONE_LENGTH ⟨i, [], 0, 0, false⟩ = s at *
  rw [runClassifyChecked]
  split
  · rw [mobileDigitsChecked_eq _ _ _ h5]
    dsimp only
    split
    · rfl
    · rw [domesticRunChecked_eq _ _ h5]
      dsimp only
      split
      · rfl
      · rw [tollFreeRunChecked_eq _ _ h5]
        dsimp only
        split
        · rfl
        · rfl
  · rfl

theorem runStartChecked_eq (data : List Nat) (len i : Nat) (hi : i < len) :
    runStartChecked data len i =
      some (isDigit (data.getD i 0) && (i == 0 || !isDigit (data.getD (i - 1) 0))) := by
  rw [runStartChecked, readAt_map data len i _ hi,
    scOr_some _ _ (!isDigit (data.getD (i - 1) 0)) (fun h => by
      rw [beq_eq_false_iff_ne] at h
      exact readAt_map data len (i - 1) _ (by omega)),
    scAnd_some _ _ _ (fun _ => rfl)]

theorem scanFormattedNumbersLoopChecked_eq (data : List Nat) (len fuel : Nat) :
    ∀ (i : Nat) (m : List PhoneMatch),
      scanFormattedNumbersLoopChecked data len fuel i m =
        some (scanFormattedNumbersLoop data len fuel i m) := by
  induction fuel with
  | zero =>
    intro i m
    rfl
  | succ fuel ih =>
    intro i m
    rw [scanFormattedNumbersLoopChecked, scanFormattedNumbersLoop]
    split
    · rename_i hi
      rw [parenCandidateChecked_eq data len i hi, runStartChecked_eq data len i hi,
        runCandidateChecked_eq]
      cases parenCandidate data len i with
      | some r =>
        obtain ⟨pm, e⟩ := r
        exact ih _ _
      | none =>
        dsimp only
        split
        · cases runCandidate data len i with
          | some r =>
            obtain ⟨pm, i1⟩ := r
            exact ih _ _
          | none => exact ih _ _
        · exact ih _ _
    · rfl

theorem digitAtChecked_eq (data : List Nat) (len i : Nat) :
    digitAtChecked data len i = some (decide (i < len) && isDigit (data.getD i 0)) := by
  rw [digitAtChecked, scAnd_some _ _ (isDigit (data.getD i 0)) (fun h => by
    rw [decide_eq_true_eq] at h
    exact readAt_map data len i _ h)]

theorem digitRunWhileChecked_eq (data : List Nat) (len fuel : Nat) :
    ∀ (i digitCount : Nat),
      digitRunWhileChecked data len fuel i digitCount =
        some (digitRunWhile data len fuel i digitCount) := by
  induction fuel with
  | zero =>
    intro i digitCount
    rfl
  | succ fuel ih =>
    intro i digitCount
    rw [digitRunWhileChecked, digitRunWhile, digitAtChecked_eq]
    dsimp only
    split
    · exact ih _ _
    · rfl

theorem mobileHighChecked_eq (candidate : List Nat) (h : 0 < candidate.length) :
    mobileHighChecked candidate =
      some (decide (candidate.getD 0 0 ≥ 54) && decide (candidate.getD 0 0 ≤ 57)) := by
  rw [mobileHighChecked, readAt_map candidate candidate.length 0 _ h,
    readAt_map candidate candidate.length 0 _ h, scAnd_some _ _ _ (fun _ => rfl)]

theorem plainTenChecked_eq (candidate : List Nat) (h : 3 < candidate.length) :
    plainTenChecked candidate =
      some (decide (candidate.getD 0 0 ≥ 50) && decide (candidate.getD 0 0 ≤ 53) &&
        decide (candidate.getD 3 0 ≥ 50)) := by
  rw [plainTenChecked, readAt_map candidate candidate.length 0 _ (by omega),
    readAt_map candidate candidate.length 0 _ (by omega),
    readAt_map candidate candidate.length 3 _ h, scAnd_some _ _ _ (fun _ => rfl),
    scAnd_some _ _ _ (fun _ => rfl)]

theorem mobileOneChecked_eq (candidate : List Nat) (h : 0 < candidate.length) :
    mobileOneChecked candidate = some (candidate.getD 0 0 == 49) := by
  rw [mobileOneChecked, readAt_map candidate candidate.length 0 _ h]

theorem plainElevenChecked_eq (candidate : List Nat) (h : 1 < candidate.length) :
    plainElevenChecked candidate =
      some (candidate.getD 0 0 == 49 && candidate.getD 1 0 != 48) := by
  rw [plainElevenChecked, readAt_map candidate candidate.length 0 _ (by omega),
    readAt_map candidate candidate.length 1 _ h, scAnd_some _ _ _ (fun _ => rfl)]

theorem plainCandidateChecked_eq (data : List Nat) (len start digitCount : Nat)
    (hlen : len ≤ data.length) (h : start + digitCount ≤ len) :
    plainCandidateChecked data len start digitCount =
      some (plainCandidate data start digitCount) := by
  have hcl : ((data.drop start).take digitCount).length = digitCount := by
    rw [List.length_take, List.length_drop]
    omega
  rw [plainCandidateChecked, plainCandidate, readRange, if_pos h]
  dsimp only
  rw [plainClassifyChecked]
  split
  · rename_i h10
    rw [beq_iff_eq] at h10
    rw [mobileHighChecked_eq _ (by omega)]
    dsimp only
    split
    · rfl
    · rw [plainTenChecked_eq _ (by omega)]
      dsimp only
      split
      · rfl
      · rw [mobileOneChecked_eq _ (by omega)]
        dsimp only
        split
        · rfl
        · rfl
  · split
    · rename_i h11
      rw [beq_iff_eq] at h11
      rw [plainElevenChecked_eq _ (by omega)]
      dsimp only
      split
      · rfl
      · rfl
    · rfl

theorem digitBeforeChecked_eq (data : List Nat) (len i : Nat) (hi : i < len) :
    digitBeforeChecked data len i =
      some (decide (i > 0) && isDigit (data.getD (i - 1) 0)) := by
  rw [digitBeforeChecked, scAnd_some _ _ (isDigit (data.getD (i - 1) 0)) (fun _ =>
    readAt_map data len (i - 1) _ (by omega))]

theorem scanPlainDigitsLoopChecked_eq (data : List Nat) (len fuel : Nat)
    (hlen : len ≤ data.length) :
    ∀ (i : Nat) (m : List PhoneMatch),
      scanPlainDigitsLoopChecked data len fuel i m =
        some (scanPlainDigitsLoop data len fuel i m) := by
  induction fuel with
  | zero =>
    intro i m
    rfl
  | succ fuel ih =>
    intro i m
    rw [scanPlainDigitsLoopChecked, scanPlainDigitsLoop]
    split
    · rename_i hi
      obtain ⟨h1, h2, _⟩ := digitRunWhile_spec data len len i 0
      have h3 := h2 (by omega)
      rw [readAt_map data len i _ hi, digitBeforeChecked_eq data len i hi,
        digitRunWhileChecked_eq]
      dsimp only
      rw [digitAtChecked_eq, plainCandidateChecked_eq data len i _ hlen (by omega)]
      dsimp only
      split
      · exact ih _ _
      · split
        · exact ih _ _
        · split
          · exact ih _ _
          · cases plainCandidate data i (digitRunWhile data len len i 0).2 with
            | some pm => exact ih _ _
            | none => exact ih _ _
    · rfl

theorem formattedDomestic_isValidChecked_eq (phone : List Nat) :
    FormattedDomesticValidator.isValidChecked phone =
      some (FormattedDomesticValidator.isValid phone) := by
  unfold FormattedDomesticValidator.isValidChecked FormattedDomesticValidator.isValid
  dsimp only
  split
  · rfl
  · rename_i h
    simp only [bne_iff_ne, ne_eq, Decidable.not_not] at h
    rw [readAt_lt _ _ 0 (by omega), readAt_lt _ _ 3 (by omega)]
    dsimp only
    split
    · rfl
    · split
      · rfl
      · rfl

theorem internationalPlus_isValidChecked_eq (phone : List Nat) :
    InternationalPlusValidator.isValidChecked phone =
      some (InternationalPlusValidator.isValid phone) := by
  unfold InternationalPlusValidator.isValidChecked InternationalPlusValidator.isValid
  rw [scOr_some _ _ (phone.getD 0 0 != 43) (fun h => by
    have h1 : 0 < phone.length := by
      cases phone with
      | nil => cases h
      | cons a l => exact Nat.succ_pos _
    exact readAt_map phone phone.length 0 _ h1)]
  dsimp only
  split
  · rfl
  · split
    · rfl
    · rfl

theorem plainDigit_isValidChecked_eq (expectedLength : Nat) (phone : List Nat) :
    PlainDigitValidator.isValidChecked expectedLength phone =
      some (PlainDigitValidator.isValid expectedLength phone) := by
  unfold PlainDigitValidator.isValidChecked PlainDigitValidator.isValid
  split
  · rfl
  · rename_i h
    simp only [bne_iff_ne, ne_eq, Decidable.not_not] at h
    split
    · rfl
    · split
      · rename_i h10
        rw [beq_iff_eq] at h10
        rw [readAt_lt _ _ 0 (by omega), readAt_lt _ _ 3 (by omega)]
        dsimp only
        split
        · rfl
        · split
          · rfl
          · rfl
      · split
        · rename_i h11
          rw [beq_iff_eq] at h11
          rw [readAt_lt _ _ 0 (by omega), readAt_lt _ _ 1 (by omega)]
          dsimp only
          split
          · rfl
          · split
            · rfl
            · rfl
        · rfl

theorem mobileDigit_isValidChecked_eq (phone : List Nat) :
    MobileDigitValidator.isValidChecked phone = some (MobileDigitValidator.isValid phone) := by
  unfold MobileDigitValidator.isValidChecked MobileDigitValidator.isValid
  dsimp only
  split
  · rename_i h10
    rw [beq_iff_eq] at h10
    rw [readAt_map _ _ 0 _ (by omega), readAt_map _ _ 0 _ (by omega),
      scAnd_some _ _ _ (fun _ => rfl)]
  · split
    · rename_i h12
      rw [beq_iff_eq] at h12
      rw [readAt_map _ _ 0 _ (by omega), readAt_map _ _ 1 _ (by omega),
        readAt_map _ _ 2 _ (by omega), readAt_map _ _ 2 _ (by omega),
        scAnd_some _ _ _ (fun _ => rfl), scAnd_some _ _ _ (fun _ => rfl),
        scAnd_some _ _ _ (fun _ => rfl)]
    · rfl

set_option maxRecDepth 8000 in
/-- The checked reads do fail when a guard is missing: without the test
`i + 14 <= len` of line 256, the test of lines 258-260 at the `(` of the
4-byte buffer `"(123"` reads `data[4]`, which is out of range. -/
theorem parenHeadChecked_unguarded : parenHeadChecked (bytes ("(123")) 4 0 = none := by
  decide

/-! ## C28: no out-of-range access -/

/-- C28: for every input text, no read of the three passes is out of range:
run with every read `data[j]` checked against `0 ≤ j < text.length` (the
look-behind `data[i - 1]`, the look-ahead `data[i + 1]` and the reads
`data[i + 1] .. data[i + 5]` of the parenthesized path included) and every
read `digits[k]` or `candidate[k]` checked against the length of the string,
each pass returns the result of the pass, and so does each of the four
validators on every `phone`. -/
theorem no_out_of_range_read (text : List Nat) (m : List PhoneMatch) (phone : List Nat)
    (expectedLength : Nat) :
    scanInternationalChecked text text.length m =
      some (scanInternational text text.length m) ∧
    scanFormattedNumbersChecked text text.length m =
      some (scanFormattedNumbers text text.length m) ∧
    scanPlainDigitsChecked text text.length m =
      some (scanPlainDigits text text.length m) ∧
    FormattedDomesticValidator.isValidChecked phone =
      some (FormattedDomesticValidator.isValid phone) ∧
    InternationalPlusValidator.isValidChecked phone =
      some (InternationalPlusValidator.isValid phone) ∧
    PlainDigitValidator.isValidChecked expectedLength phone =
      some (PlainDigitValidator.isValid expectedLength phone) ∧
    MobileDigitValidator.isValidChecked phone = some (MobileDigitValidator.isValid phone) :=
  ⟨scanInternationalLoopChecked_eq text text.length text.length 0 m,
   scanFormattedNumbersLoopChecked_eq text text.length text.length 0 m,
   scanPlainDigitsLoopChecked_eq text text.length text.length (Nat.le_refl _) 0 m,
   formattedDomestic_isValidChecked_eq phone,
   internationalPlus_isValidChecked_eq phone,
   plainDigit_isValidChecked_eq expectedLength phone,
   mobileDigit_isValidChecked_eq phone⟩

end PhoneDetector
